import Mathlib

/-!
The url-shortener: code generation and storage consistency.

A shallow embedding of the Go packages `internal/shortcode`, `internal/storage`
and `internal/service`.

Conventions of the embedding:

* a Go `string` is a Lean `String` (a Go string holding valid UTF-8); `len(s)` is
  the number of UTF-8 bytes, `for _, c := range s` visits the characters;
* `uint64` values are natural numbers below `2^64`, `int` values are integers;
* `time.Time` is an integer number of clock ticks and `time.Duration` an integer
  number of ticks; every operation that reads the clock takes the instant `now`
  it reads as an argument;
* a Go `map[string]V` is an association list with at most one useful entry per key
  (lookup returns the first entry, assignment replaces it or appends a new one);
* `error` values are the inductive type `GoError`; `errors.Is` walks the chain
  built by `fmt.Errorf("...: %w", err)`;
* functions of the Go standard library whose text is not part of the repository
  are either implemented from their public specification (`crypto/sha256`) or
  taken as a parameter (`net/url.Parse`).
-/

namespace UrlShortener

/-! ## crypto/sha256 (FIPS 180-4), on words kept below `2^32` -/

namespace Sha256

/-- Round constants of SHA-256 (FIPS 180-4, section 4.2.2), in decimal; the comment
after each row gives the same four words in hexadecimal. -/
def K : List Nat :=
  [1116352408, 1899447441, 3049323471, 3921009573,  -- 428a2f98 71374491 b5c0fbcf e9b5dba5
   961987163, 1508970993, 2453635748, 2870763221,  -- 3956c25b 59f111f1 923f82a4 ab1c5ed5
   3624381080, 310598401, 607225278, 1426881987,  -- d807aa98 12835b01 243185be 550c7dc3
   1925078388, 2162078206, 2614888103, 3248222580,  -- 72be5d74 80deb1fe 9bdc06a7 c19bf174
   3835390401, 4022224774, 264347078, 604807628,  -- e49b69c1 efbe4786 0fc19dc6 240ca1cc
   770255983, 1249150122, 1555081692, 1996064986,  -- 2de92c6f 4a7484aa 5cb0a9dc 76f988da
   2554220882, 2821834349, 2952996808, 3210313671,  -- 983e5152 a831c66d b00327c8 bf597fc7
   3336571891, 3584528711, 113926993, 338241895,  -- c6e00bf3 d5a79147 06ca6351 14292967
   666307205, 773529912, 1294757372, 1396182291,  -- 27b70a85 2e1b2138 4d2c6dfc 53380d13
   1695183700, 1986661051, 2177026350, 2456956037,  -- 650a7354 766a0abb 81c2c92e 92722c85
   2730485921, 2820302411, 3259730800, 3345764771,  -- a2bfe8a1 a81a664b c24b8b70 c76c51a3
   3516065817, 3600352804, 4094571909, 275423344,  -- d192e819 d6990624 f40e3585 106aa070
   430227734, 506948616, 659060556, 883997877,  -- 19a4c116 1e376c08 2748774c 34b0bcb5
   958139571, 1322822218, 1537002063, 1747873779,  -- 391c0cb3 4ed8aa4a 5b9cca4f 682e6ff3
   1955562222, 2024104815, 2227730452, 2361852424,  -- 748f82ee 78a5636f 84c87814 8cc70208
   2428436474, 2756734187, 3204031479, 3329325298]  -- 90befffa a4506ceb bef9a3f7 c67178f2

/-- Initial hash value of SHA-256 (FIPS 180-4, section 5.3.3), in decimal. -/
def H0 : List Nat :=
  [1779033703, 3144134277, 1013904242, 2773480762,  -- 6a09e667 bb67ae85 3c6ef372 a54ff53a
   1359893119, 2600822924, 528734635, 1541459225]  -- 510e527f 9b05688c 1f83d9ab 5be0cd19

/-- Addition of 32-bit words. -/
def add32 (x y : Nat) : Nat := (x + y) % 2 ^ 32

/-- Rotate a 32-bit word right by `n` bits (`0 < n < 32`). -/
def rotr (x n : Nat) : Nat := ((x >>> n) ||| (x <<< (32 - n))) % 2 ^ 32

def Ch (x y z : Nat) : Nat := (x &&& y) ^^^ ((x ^^^ 0xffffffff) &&& z)

def Maj (x y z : Nat) : Nat := (x &&& y) ^^^ (x &&& z) ^^^ (y &&& z)

def bigSigma0 (x : Nat) : Nat := rotr x 2 ^^^ rotr x 13 ^^^ rotr x 22

def bigSigma1 (x : Nat) : Nat := rotr x 6 ^^^ rotr x 11 ^^^ rotr x 25

def smallSigma0 (x : Nat) : Nat := rotr x 7 ^^^ rotr x 18 ^^^ (x >>> 3)

def smallSigma1 (x : Nat) : Nat := rotr x 17 ^^^ rotr x 19 ^^^ (x >>> 10)

/-- Big-endian bytes of `x`, `n` of them. -/
def toBytesBE : Nat → Nat → List Nat
  | 0, _ => []
  | n + 1, x => (x / 256 ^ n) % 256 :: toBytesBE n x

/-- Big-endian value of a byte list. -/
def fromBytesBE (bs : List Nat) : Nat := bs.foldl (fun acc b => acc * 256 + b) 0

/-- Padding: the bit `1`, zeros up to 56 mod 64 bytes, the bit length on 8 bytes. -/
def pad (msg : List Nat) : List Nat :=
  msg ++ [0x80] ++ List.replicate ((119 - msg.length % 64) % 64) 0
    ++ toBytesBE 8 ((8 * msg.length) % 2 ^ 64)

/-- Split a byte list into consecutive chunks of `n` bytes, at most `fuel` of them. -/
def chunks (n : Nat) : Nat → List Nat → List (List Nat)
  | 0, _ => []
  | fuel + 1, bs => if bs.isEmpty then [] else bs.take n :: chunks n fuel (bs.drop n)

/-- Extend the message schedule by `n` words. -/
def extend : Nat → List Nat → List Nat
  | 0, w => w
  | n + 1, w =>
    let t := w.length
    extend n (w ++ [add32 (add32 (smallSigma1 (w.getD (t - 2) 0)) (w.getD (t - 7) 0))
      (add32 (smallSigma0 (w.getD (t - 15) 0)) (w.getD (t - 16) 0))])

/-- The eight working variables. -/
structure Vars where
  a : Nat
  b : Nat
  c : Nat
  d : Nat
  e : Nat
  f : Nat
  g : Nat
  h : Nat

/-- One round of the compression function, with round constant `k` and schedule word `w`. -/
def round (v : Vars) (kw : Nat × Nat) : Vars :=
  let t1 := add32 (add32 (add32 v.h (bigSigma1 v.e)) (add32 (Ch v.e v.f v.g) kw.1)) kw.2
  let t2 := add32 (bigSigma0 v.a) (Maj v.a v.b v.c)
  { a := add32 t1 t2, b := v.a, c := v.b, d := v.c, e := add32 v.d t1, f := v.e, g := v.f,
    h := v.g }

/-- Process one 64-byte block. -/
def compress (hs : List Nat) (block : List Nat) : List Nat :=
  let w := extend 48 ((chunks 4 16 block).map fromBytesBE)
  let v0 : Vars := { a := hs.getD 0 0, b := hs.getD 1 0, c := hs.getD 2 0, d := hs.getD 3 0,
                     e := hs.getD 4 0, f := hs.getD 5 0, g := hs.getD 6 0, h := hs.getD 7 0 }
  let v := (K.zip w).foldl round v0
  [add32 (hs.getD 0 0) v.a, add32 (hs.getD 1 0) v.b, add32 (hs.getD 2 0) v.c,
   add32 (hs.getD 3 0) v.d, add32 (hs.getD 4 0) v.e, add32 (hs.getD 5 0) v.f,
   add32 (hs.getD 6 0) v.g, add32 (hs.getD 7 0) v.h]

/-- The function `sha256.Sum256`: the 32-byte digest of a byte list. -/
def Sum256 (msg : List Nat) : List Nat :=
  let p := pad msg
  ((chunks 64 (p.length / 64) p).foldl compress H0).flatMap (toBytesBE 4)

end Sha256

/-! ## package shortcode -/

namespace shortcode

/-- The constant `Length`: every code has 10 characters. -/
def Length : Nat := 10

/-- The constant `alphabet`. -/
def alphabet : String := "abcdefghijklmnopqrstuvwxyzABCDEFGHIJKLMNOPQRSTUVWXYZ0123456789_"

/-- The constant `alphabetLen = uint64(len(alphabet))`. -/
def alphabetLen : Nat := alphabet.utf8ByteSize

/-- The bytes of a Go string, `[]byte(s)`. -/
def bytesOf (s : String) : List Nat :=
  s.data.flatMap (fun c => (String.utf8EncodeChar c).map UInt8.toNat)

/-- The byte `alphabet[i]`, as a character (the alphabet is ASCII: one byte per character). -/
def alphabetAt (i : Nat) : Char := alphabet.data.getD i 'a'

/-- The loop of `encode`: `i` positions remain to be filled, right to left;
`acc` holds the positions already filled. -/
def encodeLoop : Nat → Nat → List Char → List Char
  | 0, _, acc => acc
  | i + 1, num, acc => encodeLoop i (num / alphabetLen) (alphabetAt (num % alphabetLen) :: acc)

/-- The function `encode`: a `uint64` as a base-63 string of fixed length. -/
def encode (num : Nat) : String := String.mk (encodeLoop Length num [])

/-- The input that `Generate` hashes: the URL, followed by `#attempt` when `attempt > 0`. -/
def hashInput (url : String) (attempt : Int) : String :=
  if attempt > 0 then url ++ "#" ++ toString attempt else url

/-- The function `Generate`: the code of a URL at a given attempt. -/
def Generate (url : String) (attempt : Int) : String :=
  let input := hashInput url attempt
  let hash := Sha256.Sum256 (bytesOf input)
  let num := Sha256.fromBytesBE (hash.take 8)
  encode num

/-- The function `isValidChar`. -/
def isValidChar (c : Char) : Bool :=
  ('a' ≤ c && c ≤ 'z') || ('A' ≤ c && c ≤ 'Z') || ('0' ≤ c && c ≤ '9') || c == '_'

/-- The function `IsValid`. -/
def IsValid (code : String) : Bool :=
  if code.utf8ByteSize ≠ Length then false
  else code.data.all isValidChar

/-- The position of a character in `alphabet` (63 for a character that is not in it). -/
def alphabetIndex (c : Char) : Nat := alphabet.data.indexOf c

/-- The number a code denotes in base 63, most significant digit first: the sum over the
positions `i` of `alphabetIndex c_i * 63 ^ (9 - i)`. -/
def codeValue (code : String) : Nat :=
  ((List.range Length).map
    (fun i => alphabetIndex (code.data.getD i 'a') * alphabetLen ^ (Length - 1 - i))).sum

end shortcode

/-! ## Go values shared by the packages -/

/-- The `error` values of the program: the sentinels of `storage` and `service`, any
other error value (a backend failure), and `fmt.Errorf(pfx + ": %w", err)`. -/
inductive GoError where
  | ErrNotFound
  | ErrAlreadyExists
  | ErrExpired
  | ErrInvalidURL
  | ErrEmptyURL
  | ErrCodeNotFound
  | ErrTooManyCollisions
  | other (msg : String)
  | wrap (pfx : String) (err : GoError)
deriving DecidableEq, Repr

/-- The function `errors.Is`: `err` or an error it wraps is `target`. -/
def errorsIs : GoError → GoError → Bool
  | .wrap pfx err, target => decide (GoError.wrap pfx err = target) || errorsIs err target
  | err, target => decide (err = target)

/-- What a call yields: a value, an `error`, or a run-time panic
(a nil pointer dereference). -/
inductive Outcome (α : Type) where
  | ok (v : α)
  | err (e : GoError)
  | panic
deriving DecidableEq, Repr

/-- A Go `map[string]V`. -/
structure GoMap (V : Type) where
  entries : List (String × V)
deriving DecidableEq, Repr

namespace GoMap

/-- The map `make(map[string]V)`. -/
def empty {V : Type} : GoMap V := ⟨[]⟩

/-- Lookup in an entry list. -/
def getEntries {V : Type} : List (String × V) → String → Option V
  | [], _ => none
  | (k, v) :: rest, key => if k = key then some v else getEntries rest key

/-- Assignment in an entry list. -/
def setEntries {V : Type} : List (String × V) → String → V → List (String × V)
  | [], key, val => [(key, val)]
  | (k, v) :: rest, key, val =>
    if k = key then (key, val) :: rest else (k, v) :: setEntries rest key val

/-- The lookup `v, ok := m[key]`. -/
def get {V : Type} (m : GoMap V) (key : String) : Option V := getEntries m.entries key

/-- The assignment `m[key] = val`. -/
def set {V : Type} (m : GoMap V) (key : String) (val : V) : GoMap V :=
  ⟨setEntries m.entries key val⟩

/-- The builtin `len(m)`. -/
def len {V : Type} (m : GoMap V) : Nat := m.entries.length

end GoMap

/-! ## package storage -/

namespace storage

/-- The struct `URL`: a stored mapping; `ExpiresAt = none` is the nil pointer,
no expiration. -/
structure URL where
  ShortCode : String
  OriginalURL : String
  CreatedAt : Int
  ExpiresAt : Option Int
deriving DecidableEq, Repr

/-- The method `URL.IsExpired`, with the clock reading `now`. -/
def URL.IsExpired (u : URL) (now : Int) : Bool :=
  match u.ExpiresAt with
  | none => false
  | some t => decide (t < now)

/-- The interface `Storage`, over a store whose state has type `σ`: every method maps
the state before the call to its outcome and the state after it. -/
structure Storage (σ : Type) where
  Save : σ → URL → Int → Outcome Unit × σ
  GetByCode : σ → String → Int → Outcome URL × σ
  GetByOriginalURL : σ → String → Int → Outcome URL × σ

/-- The struct `MemoryStorage` (the lock apart). -/
structure MemoryStorage where
  byCode : GoMap URL
  byOriginalURL : GoMap String
deriving DecidableEq, Repr

/-- The function `NewMemoryStorage`. -/
def NewMemoryStorage : MemoryStorage := { byCode := GoMap.empty, byOriginalURL := GoMap.empty }

namespace MemoryStorage

/-- The method `MemoryStorage.Save`. -/
def Save (s : MemoryStorage) (url : URL) : Outcome Unit × MemoryStorage :=
  match s.byCode.get url.ShortCode with
  | some existing =>
    if existing.OriginalURL = url.OriginalURL then (.ok (), s)
    else (.err .ErrAlreadyExists, s)
  | none =>
    (.ok (), { byCode := s.byCode.set url.ShortCode url,
               byOriginalURL := s.byOriginalURL.set url.OriginalURL url.ShortCode })

/-- The method `MemoryStorage.GetByCode`. -/
def GetByCode (s : MemoryStorage) (code : String) (now : Int) : Outcome URL :=
  match s.byCode.get code with
  | none => .err .ErrNotFound
  | some url => if url.IsExpired now then .err .ErrExpired else .ok url

/-- The method `MemoryStorage.GetByOriginalURL`; `s.byCode[code]` of a missing code is the
nil pointer, whose `IsExpired` panics. -/
def GetByOriginalURL (s : MemoryStorage) (originalURL : String) (now : Int) : Outcome URL :=
  match s.byOriginalURL.get originalURL with
  | none => .err .ErrNotFound
  | some code =>
    match s.byCode.get code with
    | none => .panic
    | some url => if url.IsExpired now then .err .ErrExpired else .ok url

/-- The method `MemoryStorage.Len`. -/
def Len (s : MemoryStorage) : Nat := s.byCode.len

end MemoryStorage

/-- Consistency of the two indices: a record is filed under its own code, every entry
of `byOriginalURL` points to a stored record of that URL, and every stored record has
its URL in `byOriginalURL`. -/
def MemoryStorage.Consistent (s : MemoryStorage) : Prop :=
  (∀ code rec, s.byCode.get code = some rec → rec.ShortCode = code) ∧
  (∀ u code, s.byOriginalURL.get u = some code →
    ∃ rec, s.byCode.get code = some rec ∧ rec.OriginalURL = u) ∧
  (∀ code rec, s.byCode.get code = some rec →
    ∃ code2, s.byOriginalURL.get rec.OriginalURL = some code2)

/-- The in-memory store as a `Storage`. -/
def memoryStorage : Storage MemoryStorage where
  Save s url _ := s.Save url
  GetByCode s code now := (s.GetByCode code now, s)
  GetByOriginalURL s originalURL now := (s.GetByOriginalURL originalURL now, s)

/-- The table `urls` behind `PostgresStorage`: its rows, in insertion order. The
database answers every statement (no connection failure, no timeout). -/
structure PostgresStorage where
  rows : List URL
deriving DecidableEq, Repr

/-- The empty table. -/
def NewPostgresStorage : PostgresStorage := { rows := [] }

namespace PostgresStorage

/-- The statement `INSERT INTO urls ... ON CONFLICT (short_code) DO NOTHING`: the number of
rows affected and the table afterwards. -/
def insertOnConflictDoNothing (s : PostgresStorage) (url : URL) : Nat × PostgresStorage :=
  if s.rows.any (fun row => row.ShortCode = url.ShortCode) then (0, s)
  else (1, { rows := s.rows ++ [url] })

/-- The method `PostgresStorage.GetByCode`: `QueryRow` scans the first row selected by
`WHERE short_code = $1`, or reports `sql.ErrNoRows`. -/
def GetByCode (s : PostgresStorage) (code : String) (now : Int) : Outcome URL :=
  match s.rows.find? (fun row => row.ShortCode = code) with
  | none => .err .ErrNotFound
  | some url => if url.IsExpired now then .err .ErrExpired else .ok url

/-- The method `PostgresStorage.GetByOriginalURL`: `QueryRow` scans the first row selected
by `WHERE original_url = $1`, or reports `sql.ErrNoRows`. -/
def GetByOriginalURL (s : PostgresStorage) (originalURL : String) (now : Int) : Outcome URL :=
  match s.rows.find? (fun row => row.OriginalURL = originalURL) with
  | none => .err .ErrNotFound
  | some url => if url.IsExpired now then .err .ErrExpired else .ok url

/-- The method `PostgresStorage.Save`. -/
def Save (s : PostgresStorage) (url : URL) (now : Int) : Outcome Unit × PostgresStorage :=
  let (rowsAffected, s1) := s.insertOnConflictDoNothing url
  if rowsAffected = 0 then
    match s1.GetByCode url.ShortCode now with
    | .err e => (.err (.wrap "checking existing code" e), s1)
    | .panic => (.panic, s1)
    | .ok existing =>
      if existing.OriginalURL ≠ url.OriginalURL then (.err .ErrAlreadyExists, s1)
      else (.ok (), s1)
  else (.ok (), s1)

end PostgresStorage

/-- The relational store as a `Storage`. -/
def postgresStorage : Storage PostgresStorage where
  Save s url now := s.Save url now
  GetByCode s code now := (s.GetByCode code now, s)
  GetByOriginalURL s originalURL now := (s.GetByOriginalURL originalURL now, s)

/-- A call of a `Storage` method, with its arguments. -/
inductive Call where
  | Save (url : URL)
  | GetByCode (code : String)
  | GetByOriginalURL (originalURL : String)
deriving DecidableEq, Repr

/-- The number of `Save` calls in a list of calls. -/
def saveCalls : List Call → Nat
  | [] => 0
  | .Save _ :: rest => saveCalls rest + 1
  | _ :: rest => saveCalls rest

/-- The behaviour of an arbitrary store: what each method answers, given the calls made
to the store so far (oldest first), the arguments and the clock reading. -/
structure Behaviour where
  onSave : List Call → URL → Int → Outcome Unit
  onGetByCode : List Call → String → Int → Outcome URL
  onGetByOriginalURL : List Call → String → Int → Outcome URL

/-- The store with a given behaviour; its state is the list of calls made so far. -/
def scripted (b : Behaviour) : Storage (List Call) where
  Save calls url now := (b.onSave calls url now, calls ++ [.Save url])
  GetByCode calls code now := (b.onGetByCode calls code now, calls ++ [.GetByCode code])
  GetByOriginalURL calls originalURL now :=
    (b.onGetByOriginalURL calls originalURL now, calls ++ [.GetByOriginalURL originalURL])

/-- The test double `mockStorage` of `shortener_test.go`: `Save` counts its calls and
reports a collision on the first `failUntilAttempt` of them; lookups find nothing. -/
def mockStorage (failUntilAttempt : Nat) : Behaviour where
  onSave calls _ _ :=
    if saveCalls calls + 1 ≤ failUntilAttempt then .err .ErrAlreadyExists else .ok ()
  onGetByCode _ _ _ := .err .ErrNotFound
  onGetByOriginalURL _ _ _ := .err .ErrNotFound

/-- One call applied to a store at the instant `now`: its outcome (the record, for a
lookup) and the state afterwards. -/
def Storage.apply {σ : Type} (st : Storage σ) (s : σ) (call : Call) (now : Int) :
    Outcome (Option URL) × σ :=
  match call with
  | .Save url =>
    match st.Save s url now with
    | (.ok _, s1) => (.ok none, s1)
    | (.err e, s1) => (.err e, s1)
    | (.panic, s1) => (.panic, s1)
  | .GetByCode code =>
    match st.GetByCode s code now with
    | (.ok url, s1) => (.ok (some url), s1)
    | (.err e, s1) => (.err e, s1)
    | (.panic, s1) => (.panic, s1)
  | .GetByOriginalURL originalURL =>
    match st.GetByOriginalURL s originalURL now with
    | (.ok url, s1) => (.ok (some url), s1)
    | (.err e, s1) => (.err e, s1)
    | (.panic, s1) => (.panic, s1)

/-- A sequence of calls, each with its own instant, applied to a store: the outcomes
in order. -/
def Storage.run {σ : Type} (st : Storage σ) : σ → List (Call × Int) → List (Outcome (Option URL))
  | _, [] => []
  | s, (call, now) :: rest => (st.apply s call now).1 :: Storage.run st (st.apply s call now).2 rest

/-- A sequence of `Save` calls on the in-memory store, outcomes dropped: the state
after the last one. -/
def MemoryStorage.saveAll (s : MemoryStorage) : List URL → MemoryStorage
  | [] => s
  | url :: rest => MemoryStorage.saveAll (s.Save url).2 rest

/-- At most one stored record per original URL: no two codes of `byCode` carry the
same `OriginalURL`. -/
def MemoryStorage.OneRecordPerURL (s : MemoryStorage) : Prop :=
  ∀ code1 code2 rec1 rec2, s.byCode.get code1 = some rec1 → s.byCode.get code2 = some rec2 →
    rec1.OriginalURL = rec2.OriginalURL → code1 = code2

/-- Every stored record sits at the first attempt of its URL whose code was not taken by
another URL: its code is `Generate url k` for some attempt `k`, and the codes of the
attempts before `k` hold records of other URLs. -/
def MemoryStorage.FirstFit (s : MemoryStorage) : Prop :=
  ∀ code rec, s.byCode.get code = some rec →
    ∃ k : Nat, code = shortcode.Generate rec.OriginalURL k ∧
      ∀ i : Nat, i < k →
        ∃ other, s.byCode.get (shortcode.Generate rec.OriginalURL i) = some other ∧
          other.OriginalURL ≠ rec.OriginalURL

/-! ### Goroutines running `MemoryStorage.Save` side by side -/

/-- Where a goroutine running `MemoryStorage.Save` stands: before `s.mu.Lock()`; holding
the lock, before the lookup `existing, ok := s.byCode[url.ShortCode]`; after the lookup,
with what it found in its local variables (`none` for `ok = false`), before the `if`;
after the write to `s.byCode`, before the write to `s.byOriginalURL`; with its return
value fixed, before the deferred `s.mu.Unlock()`; returned. -/
inductive SavePc where
  | start
  | locked
  | looked (existing : Option URL)
  | inserted
  | returning (result : Outcome Unit)
  | done (result : Outcome Unit)
deriving DecidableEq, Repr

/-- The steps a goroutine at this point has left, at most. -/
def SavePc.remaining : SavePc → Nat
  | .start => 5
  | .locked => 4
  | .looked _ => 3
  | .inserted => 2
  | .returning _ => 1
  | .done _ => 0

/-- The goroutine has returned. -/
def SavePc.isDone : SavePc → Bool
  | .done _ => true
  | _ => false

/-- The goroutine holds the lock. -/
def SavePc.holdsLock : SavePc → Bool
  | .locked => true
  | .looked _ => true
  | .inserted => true
  | .returning _ => true
  | _ => false

/-- The in-memory store shared by goroutines that each run one `Save`: the two maps,
whether the write lock `s.mu` is held, and where goroutine `i` stands. -/
structure Concurrent where
  store : MemoryStorage
  lockHeld : Bool
  pcs : Nat → SavePc

namespace Concurrent

/-- The state before any goroutine has moved. -/
def init (s : MemoryStorage) : Concurrent :=
  { store := s, lockHeld := false, pcs := fun _ => .start }

/-- One step of goroutine `i`, which runs `Save urls[i]`; `none` when it cannot move: no
such goroutine, `Lock` blocked by the holder of the lock, or already returned. Each access
to the shared maps is a step of its own: the lookup in `s.byCode` only reads, and its
result stays in the goroutine until its next step; the write to `s.byCode` and the write
to `s.byOriginalURL` follow as separate steps, and neither looks at the maps again. Only
`Lock` keeps another goroutine from moving in between. -/
def step (urls : List URL) (c : Concurrent) (i : Nat) : Option Concurrent :=
  match urls.get? i with
  | none => none
  | some url =>
    match c.pcs i with
    | .start =>
      if c.lockHeld then none
      else some { c with lockHeld := true, pcs := Function.update c.pcs i .locked }
    | .locked =>
      some { c with
        pcs := Function.update c.pcs i (.looked (c.store.byCode.get url.ShortCode)) }
    | .looked (some existing) =>
      if existing.OriginalURL = url.OriginalURL then
        some { c with pcs := Function.update c.pcs i (.returning (.ok ())) }
      else some { c with pcs := Function.update c.pcs i (.returning (.err .ErrAlreadyExists)) }
    | .looked none =>
      some { c with store := { c.store with byCode := c.store.byCode.set url.ShortCode url },
                    pcs := Function.update c.pcs i .inserted }
    | .inserted =>
      some { c with
        store := { c.store with
          byOriginalURL := c.store.byOriginalURL.set url.OriginalURL url.ShortCode },
        pcs := Function.update c.pcs i (.returning (.ok ())) }
    | .returning result =>
      some { c with lockHeld := false, pcs := Function.update c.pcs i (.done result) }
    | .done _ => none

/-- An interleaving: the goroutines scheduled one after another, each taking one step
(a goroutine that cannot move when scheduled stays where it is). -/
def run (urls : List URL) (c : Concurrent) : List Nat → Concurrent
  | [] => c
  | i :: rest =>
    match c.step urls i with
    | some c1 => run urls c1 rest
    | none => run urls c rest

/-- Every goroutine has returned. -/
def allDone (urls : List URL) (c : Concurrent) : Prop :=
  ∀ i, i < urls.length → (c.pcs i).isDone = true

/-- Exactly one goroutine has returned success and every other one `ErrAlreadyExists`. -/
def oneSuccess (urls : List URL) (c : Concurrent) : Prop :=
  ∃ w, w < urls.length ∧ c.pcs w = .done (.ok ()) ∧
    ∀ j, j < urls.length → j ≠ w → c.pcs j = .done (.err .ErrAlreadyExists)

/-- The steps the goroutines have left, at most. -/
def remaining (urls : List URL) (c : Concurrent) : Nat :=
  ∑ i in Finset.range urls.length, (c.pcs i).remaining

/-- The goroutine has won the code: it has written its record to `byCode`. -/
def isWinner (pc : SavePc) : Prop :=
  pc = .inserted ∨ pc = .returning (.ok ()) ∨ pc = .done (.ok ())

/-- What holds in every state that goroutines saving different URLs under one code
`code`, unused at first, can reach: the lock is held exactly while one goroutine is
between `Lock` and `Unlock`, and never by two; a goroutine returns success or
`ErrAlreadyExists`; what a goroutine has found in its lookup is still what `byCode` holds
under the code; while the code is unused no goroutine has got past the lookup; once it is
taken, by the record of one goroutine, that goroutine alone has passed (or will return) as
the one that inserted. -/
structure Inv (urls : List URL) (code : String) (c : Concurrent) : Prop where
  holder : c.lockHeld = true → ∃ h, h < urls.length ∧ (c.pcs h).holdsLock = true
  exclusive : ∀ i j, i < urls.length → j < urls.length →
    (c.pcs i).holdsLock = true → (c.pcs j).holdsLock = true → i = j
  free : c.lockHeld = false → ∀ i, i < urls.length → (c.pcs i).holdsLock = false
  results : ∀ i, i < urls.length → ∀ r, (c.pcs i = .returning r ∨ c.pcs i = .done r) →
    r = .ok () ∨ r = .err .ErrAlreadyExists
  current : ∀ i, i < urls.length → ∀ existing, c.pcs i = .looked existing →
    c.store.byCode.get code = existing
  unused : c.store.byCode.get code = none →
    ∀ i, i < urls.length → c.pcs i = .start ∨ c.pcs i = .locked ∨ c.pcs i = .looked none
  taken : ∀ rec, c.store.byCode.get code = some rec →
    ∃ w, w < urls.length ∧ (∃ uw, urls.get? w = some uw ∧ uw.OriginalURL = rec.OriginalURL) ∧
      isWinner (c.pcs w) ∧ ∀ j, j < urls.length → j ≠ w → ¬ isWinner (c.pcs j)

end Concurrent

end storage

/-! ## package service -/

namespace service

open storage

/-- The constant `maxAttempts`. -/
def maxAttempts : Nat := 10

/-- The struct `Config`. -/
structure Config where
  BaseURL : String
  DefaultTTL : Int
deriving DecidableEq, Repr

/-- The struct `ShortenResult`. -/
structure ShortenResult where
  ShortCode : String
  ShortURL : String
  OriginalURL : String
  ExpiresAt : Option Int
  IsNew : Bool
deriving DecidableEq, Repr

/-- The fields of a parsed `url.URL` that the service reads. -/
structure ParsedURL where
  Scheme : String
  Host : String
deriving DecidableEq, Repr

/-- The function `url.Parse` of the Go standard library, a parameter of the embedding:
`none` when it reports an error. -/
abbrev UrlParser := String → Option ParsedURL

/-- The answers of `url.Parse` on the URLs used as concrete inputs in this file. -/
def parseFixtures : UrlParser := fun rawURL =>
  if rawURL = "http://example.com" then some { Scheme := "http", Host := "example.com" }
  else if rawURL = "https://example.com" then some { Scheme := "https", Host := "example.com" }
  else if rawURL = "https://example.com/page1" then
    some { Scheme := "https", Host := "example.com" }
  else if rawURL = "https://example.com/page2" then
    some { Scheme := "https", Host := "example.com" }
  else none

/-- The struct `Shortener`. -/
structure Shortener (σ : Type) where
  storage : Storage σ
  config : Config

/-- The function `New`. -/
def New {σ : Type} (store : Storage σ) (config : Config) : Shortener σ :=
  { storage := store, config := config }

namespace Shortener

/-- The method `validateURL`: `none` is the nil error. -/
def validateURL (parse : UrlParser) (rawURL : String) : Option GoError :=
  if rawURL = "" then some .ErrEmptyURL
  else
    match parse rawURL with
    | none => some .ErrInvalidURL
    | some parsed =>
      if parsed.Scheme = "" ∨ parsed.Host = "" then some .ErrInvalidURL
      else if parsed.Scheme ≠ "http" ∧ parsed.Scheme ≠ "https" then some .ErrInvalidURL
      else none

/-- The method `buildShortURL`. -/
def buildShortURL {σ : Type} (svc : Shortener σ) (code : String) : String :=
  if svc.config.BaseURL = "" then code else svc.config.BaseURL ++ "/" ++ code

/-- The expiration `Shorten` gives a new record: `now + DefaultTTL` when the TTL is
positive, the nil pointer otherwise. -/
def newExpiresAt {σ : Type} (svc : Shortener σ) (now : Int) : Option Int :=
  if svc.config.DefaultTTL > 0 then some (now + svc.config.DefaultTTL) else none

/-- The record `Shorten` builds at a given attempt. -/
def newRecord {σ : Type} (svc : Shortener σ) (now : Int) (originalURL : String)
    (attempt : Nat) : URL :=
  { ShortCode := shortcode.Generate originalURL attempt, OriginalURL := originalURL,
    CreatedAt := now, ExpiresAt := svc.newExpiresAt now }

/-- The result `Shorten` returns for a record created at a given attempt. -/
def createdResult {σ : Type} (svc : Shortener σ) (now : Int) (originalURL : String)
    (attempt : Nat) : ShortenResult :=
  { ShortCode := shortcode.Generate originalURL attempt,
    ShortURL := svc.buildShortURL (shortcode.Generate originalURL attempt),
    OriginalURL := originalURL, ExpiresAt := svc.newExpiresAt now, IsNew := true }

/-- The `Save` calls of `n` consecutive attempts of `Shorten`, from attempt `attempt` on. -/
def saveTrace {σ : Type} (svc : Shortener σ) (now : Int) (originalURL : String)
    (attempt n : Nat) : List Call :=
  (List.range' attempt n).map (fun i => Call.Save (svc.newRecord now originalURL i))

/-- The loop of `Shorten`, `for attempt := ...; attempt < maxAttempts; attempt++`, with
`remaining = maxAttempts - attempt` iterations left. -/
def shortenLoop {σ : Type} (svc : Shortener σ) (now : Int) (originalURL : String) :
    Nat → Nat → σ → Outcome ShortenResult × σ
  | 0, _, s => (.err .ErrTooManyCollisions, s)
  | remaining + 1, attempt, s =>
    let code := shortcode.Generate originalURL attempt
    let expiresAt := svc.newExpiresAt now
    let urlRecord : URL :=
      { ShortCode := code, OriginalURL := originalURL, CreatedAt := now, ExpiresAt := expiresAt }
    match svc.storage.Save s urlRecord now with
    | (.ok _, s1) =>
      (.ok { ShortCode := code, ShortURL := svc.buildShortURL code, OriginalURL := originalURL,
             ExpiresAt := expiresAt, IsNew := true }, s1)
    | (.panic, s1) => (.panic, s1)
    | (.err err, s1) =>
      if errorsIs err .ErrAlreadyExists then
        shortenLoop svc now originalURL remaining (attempt + 1) s1
      else (.err (.wrap "saving URL" err), s1)

/-- The method `Shorten`, run against the store state `s` at the instant `now`. -/
def Shorten {σ : Type} (parse : UrlParser) (svc : Shortener σ) (s : σ) (now : Int)
    (originalURL : String) : Outcome ShortenResult × σ :=
  match validateURL parse originalURL with
  | some err => (.err err, s)
  | none =>
    match svc.storage.GetByOriginalURL s originalURL now with
    | (.ok existing, s1) =>
      (.ok { ShortCode := existing.ShortCode, ShortURL := svc.buildShortURL existing.ShortCode,
             OriginalURL := existing.OriginalURL, ExpiresAt := existing.ExpiresAt,
             IsNew := false }, s1)
    | (.panic, s1) => (.panic, s1)
    | (.err err, s1) =>
      if !errorsIs err .ErrNotFound && !errorsIs err .ErrExpired then
        (.err (.wrap "checking existing URL" err), s1)
      else shortenLoop svc now originalURL maxAttempts 0 s1

/-- The method `Resolve`, run against the store state `s` at the instant `now`. -/
def Resolve {σ : Type} (svc : Shortener σ) (s : σ) (now : Int) (code : String) :
    Outcome String × σ :=
  if !shortcode.IsValid code then (.err .ErrCodeNotFound, s)
  else
    match svc.storage.GetByCode s code now with
    | (.err err, s1) =>
      if errorsIs err .ErrNotFound || errorsIs err .ErrExpired then (.err .ErrCodeNotFound, s1)
      else (.err (.wrap "getting URL" err), s1)
    | (.panic, s1) => (.panic, s1)
    | (.ok urlRecord, s1) => (.ok urlRecord.OriginalURL, s1)

end Shortener

/-- The states of the in-memory store reachable from `NewMemoryStorage` by `Save` and
`Shorten` calls (any records, URLs, configurations and instants). -/
inductive Reachable (parse : UrlParser) : MemoryStorage → Prop where
  | init : Reachable parse NewMemoryStorage
  | save (s : MemoryStorage) (url : URL) :
      Reachable parse s → Reachable parse (s.Save url).2
  | shorten (s : MemoryStorage) (config : Config) (now : Int) (originalURL : String) :
      Reachable parse s →
      Reachable parse (Shortener.Shorten parse (New memoryStorage config) s now originalURL).2

/-- The states of the in-memory store reachable from `NewMemoryStorage` by `Shorten`
calls alone, one after another (any URLs, configurations and instants). -/
inductive ReachableByShorten (parse : UrlParser) : MemoryStorage → Prop where
  | init : ReachableByShorten parse NewMemoryStorage
  | shorten (s : MemoryStorage) (config : Config) (now : Int) (originalURL : String) :
      ReachableByShorten parse s →
      ReachableByShorten parse
        (Shortener.Shorten parse (New memoryStorage config) s now originalURL).2

end service

/-! ## package handler -/

namespace handler

/-- The constant `http.StatusBadRequest`. -/
def StatusBadRequest : Nat := 400

/-- The constant `http.StatusInternalServerError`. -/
def StatusInternalServerError : Nat := 500

/-- The struct `ErrorResponse`. -/
structure ErrorResponse where
  Error : String
  Message : String
deriving DecidableEq, Repr

/-- What a handler writes to the `http.ResponseWriter`: the status, the `Content-Type`
header and the value encoded as the JSON body. -/
structure Response where
  status : Nat
  contentType : String
  body : ErrorResponse
deriving DecidableEq, Repr

/-- The method `writeError`, through `writeJSON`. -/
def writeError (status : Nat) (errCode message : String) : Response :=
  { status := status, contentType := "application/json",
    body := { Error := errCode, Message := message } }

/-- The method `handleServiceError`: the response written, and the error handed to the
logger, if any. -/
def handleServiceError (err : GoError) : Response × Option GoError :=
  if errorsIs err .ErrEmptyURL then
    (writeError StatusBadRequest "empty_url" "URL cannot be empty", none)
  else if errorsIs err .ErrInvalidURL then
    (writeError StatusBadRequest "invalid_url" "Invalid URL format.", none)
  else if errorsIs err .ErrTooManyCollisions then
    (writeError StatusInternalServerError "internal_error" "Failed to generate short URL", none)
  else
    (writeError StatusInternalServerError "internal_error" "Internal server error", some err)

end handler

/-! ## package config -/

namespace config

/-- The struct `Config` of package `config`. -/
structure Config where
  ServerAddress : String
  BaseURL : String
  StorageType : String
  DatabaseURL : String
  DefaultTTL : Int
  LogLevel : String
deriving DecidableEq, Repr

/-- The method `Config.Validate`: `none` is the nil error. -/
def Config.Validate (c : Config) : Option GoError :=
  if c.StorageType ≠ "memory" ∧ c.StorageType ≠ "postgres" then
    some (.other ("invalid storage type: " ++ c.StorageType ++
      " (must be 'memory' or 'postgres')"))
  else if c.StorageType = "postgres" ∧ c.DatabaseURL = "" then
    some (.other "database-url is required when storage=postgres")
  else none

end config

/-! ## Properties of package shortcode -/

namespace shortcode

theorem alphabetLen_eq : alphabetLen = 63 := by decide

theorem isValidChar_ofNat_table :
    ∀ n, n < 128 → (isValidChar (Char.ofNat n) = true ↔ Char.ofNat n ∈ alphabet.data) := by
  decide

theorem toNat_lt_of_isValidChar (c : Char) (h : isValidChar c = true) : c.toNat < 128 := by
  have hle : ∀ a b : Char, a ≤ b → a.toNat ≤ b.toNat := fun a b hab => hab
  simp only [isValidChar, Bool.or_eq_true, Bool.and_eq_true, decide_eq_true_eq, beq_iff_eq] at h
  rcases h with ((⟨_, h2⟩ | ⟨_, h2⟩) | ⟨_, h2⟩) | h2
  · exact lt_of_le_of_lt (hle _ _ h2) (by decide)
  · exact lt_of_le_of_lt (hle _ _ h2) (by decide)
  · exact lt_of_le_of_lt (hle _ _ h2) (by decide)
  · subst h2; decide

theorem toNat_lt_of_mem_alphabet : ∀ c ∈ alphabet.data, c.toNat < 128 := by decide

theorem isValidChar_iff_mem (c : Char) : isValidChar c = true ↔ c ∈ alphabet.data := by
  constructor
  · intro h
    have := (isValidChar_ofNat_table c.toNat (toNat_lt_of_isValidChar c h))
    rw [Char.ofNat_toNat] at this
    exact this.1 h
  · intro h
    have := (isValidChar_ofNat_table c.toNat (toNat_lt_of_mem_alphabet c h))
    rw [Char.ofNat_toNat] at this
    exact this.2 h

theorem utf8Size_of_mem_alphabet : ∀ c ∈ alphabet.data, c.utf8Size = 1 := by decide

theorem utf8ByteSize_go_of_valid (l : List Char) (h : ∀ c ∈ l, c ∈ alphabet.data) :
    String.utf8ByteSize.go l = l.length := by
  induction l with
  | nil => rfl
  | cons c l ih =>
    simp only [String.utf8ByteSize.go, List.length_cons]
    rw [ih (fun x hx => h x (List.mem_cons_of_mem _ hx)),
      utf8Size_of_mem_alphabet c (h c (List.mem_cons_self _ _))]

theorem utf8ByteSize_of_valid (s : String) (h : ∀ c ∈ s.data, c ∈ alphabet.data) :
    s.utf8ByteSize = s.length := by
  cases s with
  | mk l => exact utf8ByteSize_go_of_valid l h

theorem alphabetAt_mem (i : Nat) (h : i < 63) : alphabetAt i ∈ alphabet.data := by
  revert i
  decide

theorem encodeLoop_length (i num : Nat) (acc : List Char) :
    (encodeLoop i num acc).length = i + acc.length := by
  induction i generalizing num acc with
  | zero => simp [encodeLoop]
  | succ i ih => simp [encodeLoop, ih]; omega

theorem encodeLoop_mem (i num : Nat) (acc : List Char) (h : ∀ c ∈ acc, c ∈ alphabet.data) :
    ∀ c ∈ encodeLoop i num acc, c ∈ alphabet.data := by
  induction i generalizing num acc with
  | zero => simpa [encodeLoop] using h
  | succ i ih =>
    simp only [encodeLoop]
    apply ih
    intro c hc
    rcases List.mem_cons.1 hc with rfl | hc
    · exact alphabetAt_mem _ (by rw [alphabetLen_eq]; exact Nat.mod_lt _ (by decide))
    · exact h c hc

theorem IsValid_iff_bytes (code : String) :
    IsValid code = true ↔ code.utf8ByteSize = 10 ∧ ∀ c ∈ code.data, c ∈ alphabet.data := by
  unfold IsValid Length
  by_cases hlen : code.utf8ByteSize = 10
  · simp [hlen, List.all_eq_true, isValidChar_iff_mem]
  · simp [hlen]

theorem IsValid_iff_length (code : String) :
    IsValid code = true ↔ code.length = 10 ∧ ∀ c ∈ code.data, c ∈ alphabet.data := by
  rw [IsValid_iff_bytes]
  constructor
  · rintro ⟨h1, h2⟩
    exact ⟨by rw [← utf8ByteSize_of_valid code h2]; exact h1, h2⟩
  · rintro ⟨h1, h2⟩
    exact ⟨by rw [utf8ByteSize_of_valid code h2]; exact h1, h2⟩

theorem encode_props (n : Nat) :
    (encode n).length = 10 ∧ ∀ c ∈ (encode n).data, c ∈ alphabet.data := by
  constructor
  · simp [encode, String.length, encodeLoop_length, Length]
  · exact encodeLoop_mem _ _ _ (by simp)

theorem IsValid_encode (n : Nat) : IsValid (encode n) = true :=
  (IsValid_iff_length _).2 (encode_props n)

theorem IsValid_Generate (url : String) (attempt : Int) : IsValid (Generate url attempt) = true :=
  IsValid_encode _

/-- C6: for every string `u` and integer attempt `a`, `Generate u a` has exactly 10
characters (and 10 bytes), each a member of the 63-symbol alphabet, so that
`IsValid (Generate u a)` holds; the same is true of `encode n` for every `n`, in
particular for every 64-bit unsigned `n`. -/
theorem C6_generate_is_valid :
    alphabet.data.length = 63 ∧
    (∀ (u : String) (a : Int),
      (Generate u a).length = 10 ∧ (Generate u a).utf8ByteSize = 10 ∧
      (∀ c ∈ (Generate u a).data, c ∈ alphabet.data) ∧ IsValid (Generate u a) = true) ∧
    (∀ n : Nat,
      (encode n).length = 10 ∧ (encode n).utf8ByteSize = 10 ∧
      (∀ c ∈ (encode n).data, c ∈ alphabet.data) ∧ IsValid (encode n) = true) := by
  have key : ∀ n : Nat,
      (encode n).length = 10 ∧ (encode n).utf8ByteSize = 10 ∧
      (∀ c ∈ (encode n).data, c ∈ alphabet.data) ∧ IsValid (encode n) = true := fun n =>
    ⟨(encode_props n).1, ((IsValid_iff_bytes _).1 (IsValid_encode n)).1, (encode_props n).2,
      IsValid_encode n⟩
  exact ⟨by decide, fun u a => key _, key⟩

/-- C7: `IsValid code` holds exactly when `code` has length 10 (in characters, and
equally in bytes) and every character of `code` occurs in `alphabet`, a constant of 63
pairwise distinct symbols, namely the characters accepted by `isValidChar` (a-z, A-Z,
0-9 and the underscore); so the empty string, every string of another length, and every
string containing a hyphen, a space, an at sign or a non-ASCII character is rejected. -/
theorem C7_isValid_iff (code : String) :
    (IsValid code = true ↔ code.length = 10 ∧ ∀ c ∈ code.data, c ∈ alphabet.data) ∧
    (IsValid code = true ↔ code.utf8ByteSize = 10 ∧ ∀ c ∈ code.data, c ∈ alphabet.data) ∧
    (alphabet.data.length = 63 ∧ alphabet.data.Nodup) ∧
    (∀ c : Char, c ∈ alphabet.data ↔
      ('a' ≤ c ∧ c ≤ 'z') ∨ ('A' ≤ c ∧ c ≤ 'Z') ∨ ('0' ≤ c ∧ c ≤ '9') ∨ c = '_') ∧
    IsValid "" = false ∧
    (code.length ≠ 10 → IsValid code = false) ∧
    (code.utf8ByteSize ≠ 10 → IsValid code = false) ∧
    (∀ c ∈ code.data, (c = '-' ∨ c = ' ' ∨ c = '@' ∨ 128 ≤ c.toNat) → IsValid code = false) := by
  refine ⟨IsValid_iff_length code, IsValid_iff_bytes code, ⟨by decide, by decide⟩, ?_, by decide,
    ?_, ?_, ?_⟩
  · intro c
    rw [← isValidChar_iff_mem]
    simp only [isValidChar, Bool.or_eq_true, Bool.and_eq_true, decide_eq_true_eq, beq_iff_eq]
    tauto
  · intro h
    rw [Bool.eq_false_iff]
    exact fun hv => h ((IsValid_iff_length code).1 hv).1
  · intro h
    rw [Bool.eq_false_iff]
    exact fun hv => h ((IsValid_iff_bytes code).1 hv).1
  · intro c hc hbad
    rw [Bool.eq_false_iff]
    intro hv
    have hmem := ((IsValid_iff_length code).1 hv).2 c hc
    have hlt := toNat_lt_of_mem_alphabet c hmem
    rcases hbad with rfl | rfl | rfl | h128
    · exact absurd hmem (by decide)
    · exact absurd hmem (by decide)
    · exact absurd hmem (by decide)
    · omega

end shortcode

/-! ## Properties of Go maps -/

namespace GoMap

theorem getEntries_setEntries_self {V : Type} (l : List (String × V)) (key : String) (val : V) :
    getEntries (setEntries l key val) key = some val := by
  induction l with
  | nil => simp [setEntries, getEntries]
  | cons p l ih =>
    obtain ⟨k, v⟩ := p
    by_cases h : k = key
    · simp [setEntries, getEntries, h]
    · simp [setEntries, getEntries, h, ih]

theorem getEntries_setEntries_ne {V : Type} (l : List (String × V)) (key other : String)
    (val : V) (h : other ≠ key) :
    getEntries (setEntries l key val) other = getEntries l other := by
  induction l with
  | nil => simp [setEntries, getEntries, Ne.symm h]
  | cons p l ih =>
    obtain ⟨k, v⟩ := p
    by_cases hk : k = key
    · subst hk
      simp [setEntries, getEntries, Ne.symm h]
    · by_cases ho : k = other
      · subst ho
        simp [setEntries, getEntries, hk]
      · simp [setEntries, getEntries, hk, ho, ih]

theorem get_set_self {V : Type} (m : GoMap V) (key : String) (val : V) :
    (m.set key val).get key = some val :=
  getEntries_setEntries_self _ _ _

theorem get_set_ne {V : Type} (m : GoMap V) (key other : String) (val : V) (h : other ≠ key) :
    (m.set key val).get other = m.get other :=
  getEntries_setEntries_ne _ _ _ _ h

theorem get_empty {V : Type} (key : String) : (GoMap.empty : GoMap V).get key = none := rfl

end GoMap

/-! ## Properties of package storage -/

namespace storage

open MemoryStorage

theorem Save_of_same_url (s : MemoryStorage) (url existing : URL)
    (hget : s.byCode.get url.ShortCode = some existing)
    (hurl : existing.OriginalURL = url.OriginalURL) : s.Save url = (.ok (), s) := by
  simp [MemoryStorage.Save, hget, hurl]

theorem Save_of_other_url (s : MemoryStorage) (url existing : URL)
    (hget : s.byCode.get url.ShortCode = some existing)
    (hurl : existing.OriginalURL ≠ url.OriginalURL) :
    s.Save url = (.err .ErrAlreadyExists, s) := by
  simp [MemoryStorage.Save, hget, hurl]

theorem Save_of_unused (s : MemoryStorage) (url : URL)
    (hget : s.byCode.get url.ShortCode = none) :
    s.Save url = (.ok (), { byCode := s.byCode.set url.ShortCode url,
                            byOriginalURL := s.byOriginalURL.set url.OriginalURL url.ShortCode }) := by
  simp [MemoryStorage.Save, hget]

/-- After a successful `Save`, the code of the record holds a record of the same URL. -/
theorem Save_ok_stored (s : MemoryStorage) (url : URL) (h : (s.Save url).1 = .ok ()) :
    ∃ rec, (s.Save url).2.byCode.get url.ShortCode = some rec ∧
      rec.OriginalURL = url.OriginalURL := by
  cases hget : s.byCode.get url.ShortCode with
  | none =>
    rw [Save_of_unused s url hget]
    exact ⟨url, GoMap.get_set_self _ _ _, rfl⟩
  | some existing =>
    by_cases hurl : existing.OriginalURL = url.OriginalURL
    · rw [Save_of_same_url s url existing hget hurl]
      exact ⟨existing, hget, hurl⟩
    · rw [Save_of_other_url s url existing hget hurl] at h
      cases h

/-- A `Save` never removes or changes a stored record. -/
theorem Save_keeps (s : MemoryStorage) (url : URL) (code : String) (rec : URL)
    (h : s.byCode.get code = some rec) : (s.Save url).2.byCode.get code = some rec := by
  cases hget : s.byCode.get url.ShortCode with
  | none =>
    rw [Save_of_unused s url hget]
    have hne : code ≠ url.ShortCode := by
      rintro rfl
      rw [hget] at h
      cases h
    simpa [GoMap.get_set_ne _ _ _ _ hne] using h
  | some existing =>
    by_cases hurl : existing.OriginalURL = url.OriginalURL
    · rw [Save_of_same_url s url existing hget hurl]; exact h
    · rw [Save_of_other_url s url existing hget hurl]; exact h

/-- A failed `Save` leaves the store as it was. -/
theorem Save_not_ok_state (s : MemoryStorage) (url : URL) (h : (s.Save url).1 ≠ .ok ()) :
    (s.Save url).2 = s := by
  cases hget : s.byCode.get url.ShortCode with
  | none => rw [Save_of_unused s url hget] at h; exact absurd rfl h
  | some existing =>
    by_cases hurl : existing.OriginalURL = url.OriginalURL
    · rw [Save_of_same_url s url existing hget hurl]
    · rw [Save_of_other_url s url existing hget hurl]

theorem Consistent_new : NewMemoryStorage.Consistent := by
  refine ⟨?_, ?_, ?_⟩ <;> intro a b h <;> simp [NewMemoryStorage, GoMap.get_empty] at h

theorem Consistent_Save (s : MemoryStorage) (url : URL) (hs : s.Consistent) :
    (s.Save url).2.Consistent := by
  obtain ⟨h1, h2, h3⟩ := hs
  cases hget : s.byCode.get url.ShortCode with
  | some existing =>
    by_cases hurl : existing.OriginalURL = url.OriginalURL
    · rw [Save_of_same_url s url existing hget hurl]; exact ⟨h1, h2, h3⟩
    · rw [Save_of_other_url s url existing hget hurl]; exact ⟨h1, h2, h3⟩
  | none =>
    rw [Save_of_unused s url hget]
    refine ⟨?_, ?_, ?_⟩
    · intro code rec hrec
      by_cases hc : code = url.ShortCode
      · subst hc
        rw [GoMap.get_set_self] at hrec
        cases hrec; rfl
      · rw [GoMap.get_set_ne _ _ _ _ hc] at hrec
        exact h1 code rec hrec
    · intro u code hu
      by_cases hu2 : u = url.OriginalURL
      · subst hu2
        rw [GoMap.get_set_self] at hu
        cases hu
        exact ⟨url, GoMap.get_set_self _ _ _, rfl⟩
      · rw [GoMap.get_set_ne _ _ _ _ hu2] at hu
        obtain ⟨rec, hrec, hrecu⟩ := h2 u code hu
        have hc : code ≠ url.ShortCode := by
          rintro rfl
          rw [hget] at hrec
          cases hrec
        exact ⟨rec, by simpa [GoMap.get_set_ne _ _ _ _ hc] using hrec, hrecu⟩
    · intro code rec hrec
      by_cases hc : code = url.ShortCode
      · subst hc
        rw [GoMap.get_set_self] at hrec
        cases hrec
        exact ⟨_, GoMap.get_set_self _ _ _⟩
      · rw [GoMap.get_set_ne _ _ _ _ hc] at hrec
        obtain ⟨code2, hcode2⟩ := h3 code rec hrec
        by_cases hu : rec.OriginalURL = url.OriginalURL
        · exact ⟨url.ShortCode, by simp only []; rw [hu, GoMap.get_set_self]⟩
        · exact ⟨code2, by simpa [GoMap.get_set_ne _ _ _ _ hu] using hcode2⟩

/-- C3: if the store holds, under the code of `r`, a record of another original URL,
then `Save r` returns `ErrAlreadyExists` and leaves both indices, `byCode` and
`byOriginalURL`, exactly as they were. -/
theorem C3_colliding_save_rejected (s : MemoryStorage) (r existing : URL)
    (hheld : s.byCode.get r.ShortCode = some existing)
    (hdiff : existing.OriginalURL ≠ r.OriginalURL) :
    (s.Save r).1 = .err .ErrAlreadyExists ∧
    (s.Save r).2.byCode = s.byCode ∧ (s.Save r).2.byOriginalURL = s.byOriginalURL := by
  rw [Save_of_other_url s r existing hheld hdiff]
  exact ⟨rfl, rfl, rfl⟩

/-- An instance of C3: the code `aaaaaaaaaa` is held for `http://example.com` and a
record for `https://example.com` is saved under it. -/
theorem C3_colliding_save_rejected_witness :
    let s : MemoryStorage :=
      (NewMemoryStorage.Save ⟨"aaaaaaaaaa", "http://example.com", 0, none⟩).2
    let r : URL := ⟨"aaaaaaaaaa", "https://example.com", 7, some 9⟩
    s.byCode.get r.ShortCode = some ⟨"aaaaaaaaaa", "http://example.com", 0, none⟩ ∧
    (s.Save r).1 = .err .ErrAlreadyExists ∧
    (s.Save r).2.byCode = s.byCode ∧ (s.Save r).2.byOriginalURL = s.byOriginalURL :=
  ⟨by decide, C3_colliding_save_rejected _ _ ⟨"aaaaaaaaaa", "http://example.com", 0, none⟩
    (by decide) (by decide)⟩

/-- C4: if the store holds, under the code of `r`, a record of the same original URL,
then `Save r` succeeds and changes nothing: the state, hence `Len`, is the same, and
the code still holds the earlier record with its own `CreatedAt` and `ExpiresAt`.
Consequently, from any state, `Save r` followed by `Save r` ends in the state a single
`Save r` ends in, with the same outcome. -/
theorem C4_idempotent_resave (s : MemoryStorage) (r existing : URL)
    (hheld : s.byCode.get r.ShortCode = some existing)
    (hsame : existing.OriginalURL = r.OriginalURL) :
    (s.Save r).1 = .ok () ∧ (s.Save r).2 = s ∧ (s.Save r).2.Len = s.Len ∧
    (s.Save r).2.byCode.get r.ShortCode = some existing ∧
    (∀ s0 : MemoryStorage,
      ((s0.Save r).2.Save r).2 = (s0.Save r).2 ∧ ((s0.Save r).2.Save r).1 = (s0.Save r).1) := by
  refine ⟨?_, ?_, ?_, ?_, ?_⟩
  · rw [Save_of_same_url s r existing hheld hsame]
  · rw [Save_of_same_url s r existing hheld hsame]
  · rw [Save_of_same_url s r existing hheld hsame]
  · rw [Save_of_same_url s r existing hheld hsame]; exact hheld
  · intro s0
    cases hget : s0.byCode.get r.ShortCode with
    | none =>
      rw [Save_of_unused s0 r hget]
      rw [Save_of_same_url _ r r (GoMap.get_set_self _ _ _) rfl]
      exact ⟨rfl, rfl⟩
    | some e0 =>
      by_cases hurl : e0.OriginalURL = r.OriginalURL
      · rw [Save_of_same_url s0 r e0 hget hurl]
        simp only []
        rw [Save_of_same_url s0 r e0 hget hurl]
        exact ⟨rfl, rfl⟩
      · rw [Save_of_other_url s0 r e0 hget hurl]
        simp only []
        rw [Save_of_other_url s0 r e0 hget hurl]
        exact ⟨rfl, rfl⟩

/-- An instance of C4: the record of `http://example.com` is saved again under its
code, with other timestamps. -/
theorem C4_idempotent_resave_witness :
    let s : MemoryStorage :=
      (NewMemoryStorage.Save ⟨"aaaaaaaaaa", "http://example.com", 0, none⟩).2
    let r : URL := ⟨"aaaaaaaaaa", "http://example.com", 7, some 9⟩
    s.byCode.get r.ShortCode = some ⟨"aaaaaaaaaa", "http://example.com", 0, none⟩ ∧
    (s.Save r).1 = .ok () ∧ (s.Save r).2 = s ∧ (s.Save r).2.Len = s.Len ∧
    (s.Save r).2.byCode.get r.ShortCode = some ⟨"aaaaaaaaaa", "http://example.com", 0, none⟩ ∧
    (∀ s0 : MemoryStorage,
      ((s0.Save r).2.Save r).2 = (s0.Save r).2 ∧ ((s0.Save r).2.Save r).1 = (s0.Save r).1) :=
  ⟨by decide, C4_idempotent_resave _ _ ⟨"aaaaaaaaaa", "http://example.com", 0, none⟩
    (by decide) (by decide)⟩

end storage

/-! ## Properties of package service -/

namespace service

open storage Shortener

section loop

variable {σ : Type} (svc : Shortener σ) (now : Int) (u : String)

theorem shortenLoop_zero (attempt : Nat) (s : σ) :
    shortenLoop svc now u 0 attempt s = (.err .ErrTooManyCollisions, s) := rfl

theorem shortenLoop_succ_ok (n attempt : Nat) (s s1 : σ) (v : Unit)
    (h : svc.storage.Save s (svc.newRecord now u attempt) now = (.ok v, s1)) :
    shortenLoop svc now u (n + 1) attempt s = (.ok (createdResult svc now u attempt), s1) := by
  unfold newRecord at h
  simp only [shortenLoop, h, createdResult]

theorem shortenLoop_succ_panic (n attempt : Nat) (s s1 : σ)
    (h : svc.storage.Save s (svc.newRecord now u attempt) now = (.panic, s1)) :
    shortenLoop svc now u (n + 1) attempt s = (.panic, s1) := by
  unfold newRecord at h
  simp only [shortenLoop, h]

theorem shortenLoop_succ_collision (n attempt : Nat) (s s1 : σ) (e : GoError)
    (h : svc.storage.Save s (svc.newRecord now u attempt) now = (.err e, s1))
    (he : errorsIs e .ErrAlreadyExists = true) :
    shortenLoop svc now u (n + 1) attempt s = shortenLoop svc now u n (attempt + 1) s1 := by
  unfold newRecord at h
  simp only [shortenLoop, h, he, if_true]

theorem shortenLoop_succ_abort (n attempt : Nat) (s s1 : σ) (e : GoError)
    (h : svc.storage.Save s (svc.newRecord now u attempt) now = (.err e, s1))
    (he : errorsIs e .ErrAlreadyExists = false) :
    shortenLoop svc now u (n + 1) attempt s = (.err (.wrap "saving URL" e), s1) := by
  unfold newRecord at h
  simp [shortenLoop, h, he]

end loop

/-- On the in-memory store the loop of `Shorten` either exhausts its attempts, leaving the
store as it was, or ends with a successful `Save` of the record of some attempt. -/
theorem shortenLoop_memory (config : Config) (now : Int) (u : String) :
    ∀ (remaining attempt : Nat) (s : MemoryStorage),
      (shortenLoop (New memoryStorage config) now u remaining attempt s =
        (.err .ErrTooManyCollisions, s)) ∨
      ∃ k : Nat,
        (s.Save ((New memoryStorage config).newRecord now u k)).1 = .ok () ∧
        shortenLoop (New memoryStorage config) now u remaining attempt s =
          (.ok (createdResult (New memoryStorage config) now u k),
           (s.Save ((New memoryStorage config).newRecord now u k)).2) := by
  intro remaining
  induction remaining with
  | zero => intro attempt s; exact Or.inl rfl
  | succ n ih =>
    intro attempt s
    have hstep : (New memoryStorage config).storage.Save s
        ((New memoryStorage config).newRecord now u attempt) now
        = s.Save ((New memoryStorage config).newRecord now u attempt) := rfl
    cases hget : s.byCode.get (shortcode.Generate u attempt) with
    | none =>
      have hsave := Save_of_unused s ((New memoryStorage config).newRecord now u attempt) hget
      exact Or.inr ⟨attempt, by rw [hsave],
        by rw [shortenLoop_succ_ok _ _ _ _ _ _ _ () (hstep.trans hsave), hsave]⟩
    | some existing =>
      by_cases hurl : existing.OriginalURL = u
      · have hsave := Save_of_same_url s ((New memoryStorage config).newRecord now u attempt)
          existing hget hurl
        exact Or.inr ⟨attempt, by rw [hsave],
          by rw [shortenLoop_succ_ok _ _ _ _ _ _ _ () (hstep.trans hsave), hsave]⟩
      · have hsave := Save_of_other_url s ((New memoryStorage config).newRecord now u attempt)
          existing hget hurl
        rw [shortenLoop_succ_collision _ _ _ _ _ _ _ _ (hstep.trans hsave) (by decide)]
        exact ih (attempt + 1) s

/-- What `Shorten` does on the in-memory store, by cases. -/
theorem Shorten_memory (parse : UrlParser) (config : Config) (s : MemoryStorage) (now : Int)
    (u : String) :
    (∃ e, Shorten parse (New memoryStorage config) s now u = (.err e, s)) ∨
    (Shorten parse (New memoryStorage config) s now u = (.panic, s)) ∨
    (∃ existing, s.GetByOriginalURL u now = .ok existing ∧
      Shorten parse (New memoryStorage config) s now u =
        (.ok { ShortCode := existing.ShortCode,
               ShortURL := (New memoryStorage config).buildShortURL existing.ShortCode,
               OriginalURL := existing.OriginalURL, ExpiresAt := existing.ExpiresAt,
               IsNew := false }, s)) ∨
    (∃ k : Nat,
      (s.GetByOriginalURL u now = .err .ErrNotFound ∨
        s.GetByOriginalURL u now = .err .ErrExpired) ∧
      (s.Save ((New memoryStorage config).newRecord now u k)).1 = .ok () ∧
      Shorten parse (New memoryStorage config) s now u =
        (.ok (createdResult (New memoryStorage config) now u k),
         (s.Save ((New memoryStorage config).newRecord now u k)).2)) := by
  have hget : (New memoryStorage config).storage.GetByOriginalURL s u now
      = (s.GetByOriginalURL u now, s) := rfl
  unfold Shorten
  cases hv : validateURL parse u with
  | some e => exact Or.inl ⟨e, rfl⟩
  | none =>
    simp only [hget]
    cases hlook : s.GetByOriginalURL u now with
    | ok existing => exact Or.inr (Or.inr (Or.inl ⟨existing, rfl, rfl⟩))
    | panic => exact Or.inr (Or.inl rfl)
    | err e =>
      simp only []
      by_cases hcond : (!errorsIs e .ErrNotFound && !errorsIs e .ErrExpired) = true
      · rw [if_pos hcond]; exact Or.inl ⟨_, rfl⟩
      · rw [if_neg hcond]
        have he : e = .ErrNotFound ∨ e = .ErrExpired := by
          unfold MemoryStorage.GetByOriginalURL at hlook
          split at hlook
          · cases hlook; exact Or.inl rfl
          · split at hlook
            · cases hlook
            · split at hlook
              · cases hlook; exact Or.inr rfl
              · cases hlook
        rcases shortenLoop_memory config now u maxAttempts 0 s with h | ⟨k, hk1, hk2⟩
        · exact Or.inl ⟨_, h⟩
        · refine Or.inr (Or.inr (Or.inr ⟨k, ?_, hk1, hk2⟩))
          rcases he with rfl | rfl
          · exact Or.inl rfl
          · exact Or.inr rfl

/-- A `Shorten` on the in-memory store leaves it as it was or as one `Save` leaves it. -/
theorem Shorten_memory_state (parse : UrlParser) (config : Config) (s : MemoryStorage)
    (now : Int) (u : String) :
    (Shorten parse (New memoryStorage config) s now u).2 = s ∨
    ∃ rec, (Shorten parse (New memoryStorage config) s now u).2 = (s.Save rec).2 := by
  rcases Shorten_memory parse config s now u with ⟨e, h⟩ | h | ⟨x, _, h⟩ | ⟨k, _, _, h⟩
  · rw [h]; exact Or.inl rfl
  · rw [h]; exact Or.inl rfl
  · rw [h]; exact Or.inl rfl
  · rw [h]; exact Or.inr ⟨_, rfl⟩

theorem Reachable.consistent {parse : UrlParser} {s : MemoryStorage} (h : Reachable parse s) :
    s.Consistent := by
  induction h with
  | init => exact Consistent_new
  | save s url _ ih => exact Consistent_Save s url ih
  | shorten s config now u _ ih =>
    rcases Shorten_memory_state parse config s now u with h | ⟨rec, h⟩
    · rw [h]; exact ih
    · rw [h]; exact Consistent_Save s rec ih

/-- After a successful `Shorten` on a consistent in-memory store, the code returned holds a
record of the URL shortened, and every record stored before is still there. -/
theorem Shorten_memory_ok (parse : UrlParser) (config : Config) (s s1 : MemoryStorage)
    (now : Int) (u : String) (r : ShortenResult) (hs : s.Consistent)
    (h : Shorten parse (New memoryStorage config) s now u = (.ok r, s1)) :
    (∃ rec, s1.byCode.get r.ShortCode = some rec ∧ rec.OriginalURL = u) ∧
    (∀ code rec, s.byCode.get code = some rec → s1.byCode.get code = some rec) := by
  rcases Shorten_memory parse config s now u with ⟨e, h2⟩ | h2 | ⟨x, hx, h2⟩ | ⟨k, _, hk, h2⟩
  · rw [h2] at h; cases h
  · rw [h2] at h; cases h
  · rw [h2] at h
    cases h
    refine ⟨?_, fun _ _ hh => hh⟩
    unfold MemoryStorage.GetByOriginalURL at hx
    split at hx
    · cases hx
    · rename_i code hcode
      split at hx
      · cases hx
      · rename_i url hurl
        split at hx
        · cases hx
        · cases hx
          obtain ⟨rec, hrec, hrecu⟩ := hs.2.1 u code hcode
          rw [hurl] at hrec
          cases hrec
          have := hs.1 code x hurl
          exact ⟨x, by simpa [this] using hurl, hrecu⟩
  · rw [h2] at h
    cases h
    exact ⟨Save_ok_stored s _ hk, fun code rec hh => Save_keeps s _ code rec hh⟩

/-- What `Resolve` returns on the in-memory store for a well-formed code that holds a
record not expired. -/
theorem Resolve_memory_live (config : Config) (s : MemoryStorage) (now : Int) (code : String)
    (rec : URL) (hvalid : shortcode.IsValid code = true)
    (hrec : s.byCode.get code = some rec) (hlive : rec.IsExpired now = false) :
    Resolve (New memoryStorage config) s now code = (.ok rec.OriginalURL, s) := by
  have hget : (New memoryStorage config).storage.GetByCode s code now
      = (s.GetByCode code now, s) := rfl
  have : s.GetByCode code now = .ok rec := by
    simp [MemoryStorage.GetByCode, hrec, hlive]
  simp [Resolve, hvalid, hget, this]

/-- C1, as stated, fails: a record saved directly under the malformed code `x` makes
`Shorten` return that code, which `Resolve` rejects as not found without a lookup. -/
theorem C1_round_trip_counterexample :
    Reachable parseFixtures (NewMemoryStorage.Save ⟨"x", "http://example.com", 0, none⟩).2 ∧
    Shorten parseFixtures (New memoryStorage ⟨"", 0⟩)
        (NewMemoryStorage.Save ⟨"x", "http://example.com", 0, none⟩).2 0 "http://example.com" =
      (.ok ⟨"x", "x", "http://example.com", none, false⟩,
        (NewMemoryStorage.Save ⟨"x", "http://example.com", 0, none⟩).2) ∧
    Resolve (New memoryStorage ⟨"", 0⟩)
        (NewMemoryStorage.Save ⟨"x", "http://example.com", 0, none⟩).2 0 "x" =
      (.err .ErrCodeNotFound, (NewMemoryStorage.Save ⟨"x", "http://example.com", 0, none⟩).2) :=
  ⟨Reachable.save _ _ Reachable.init, by decide, by decide⟩

/-- C1, amended: in every state reachable from the empty in-memory store by `Save` and
`Shorten` calls, for every configuration, instant and URL `u`, if `Shorten u` returns a
result with code `c` and no error, `c` is well formed (`IsValid c`) and the record the
store then holds under `c` is not expired at that instant, then `Resolve c` at the same
instant returns `u` with no error and leaves the store as it is. -/
theorem C1_round_trip (parse : UrlParser) (config : Config) (s s1 : MemoryStorage) (now : Int)
    (u : String) (r : ShortenResult) (hreach : Reachable parse s)
    (hshorten : Shorten parse (New memoryStorage config) s now u = (.ok r, s1))
    (hvalid : shortcode.IsValid r.ShortCode = true)
    (hlive : ∀ rec, s1.byCode.get r.ShortCode = some rec → rec.IsExpired now = false) :
    Resolve (New memoryStorage config) s1 now r.ShortCode = (.ok u, s1) := by
  obtain ⟨⟨rec, hrec, hrecu⟩, _⟩ :=
    Shorten_memory_ok parse config s s1 now u r hreach.consistent hshorten
  rw [Resolve_memory_live config s1 now r.ShortCode rec hvalid hrec (hlive rec hrec), hrecu]

set_option maxRecDepth 100000 in
/-- An instance of the amended C1: `https://example.com` is shortened on the empty store
with a TTL of 5 at instant 100, and the code returned is resolved at that instant. -/
theorem C1_round_trip_witness :
    Shorten parseFixtures (New memoryStorage ⟨"http://localhost:8080", 5⟩) NewMemoryStorage 100
        "https://example.com" =
      (.ok ⟨"k2vewsVDgL", "http://localhost:8080/k2vewsVDgL", "https://example.com", some 105,
          true⟩,
        ⟨⟨[("k2vewsVDgL", ⟨"k2vewsVDgL", "https://example.com", 100, some 105⟩)]⟩,
          ⟨[("https://example.com", "k2vewsVDgL")]⟩⟩) ∧
    Resolve (New memoryStorage ⟨"http://localhost:8080", 5⟩)
        ⟨⟨[("k2vewsVDgL", ⟨"k2vewsVDgL", "https://example.com", 100, some 105⟩)]⟩,
          ⟨[("https://example.com", "k2vewsVDgL")]⟩⟩ 100 "k2vewsVDgL" =
      (.ok "https://example.com",
        ⟨⟨[("k2vewsVDgL", ⟨"k2vewsVDgL", "https://example.com", 100, some 105⟩)]⟩,
          ⟨[("https://example.com", "k2vewsVDgL")]⟩⟩) :=
  have hshorten : Shorten parseFixtures (New memoryStorage ⟨"http://localhost:8080", 5⟩)
      NewMemoryStorage 100 "https://example.com" =
      (.ok ⟨"k2vewsVDgL", "http://localhost:8080/k2vewsVDgL", "https://example.com", some 105,
          true⟩,
        ⟨⟨[("k2vewsVDgL", ⟨"k2vewsVDgL", "https://example.com", 100, some 105⟩)]⟩,
          ⟨[("https://example.com", "k2vewsVDgL")]⟩⟩) := by decide
  ⟨hshorten, C1_round_trip parseFixtures _ _ _ 100 "https://example.com" _ Reachable.init hshorten
    (by decide) (by decide)⟩

set_option maxRecDepth 100000 in
/-- C2 at its failing input: `https://example.com` is shortened at instant 0 with a TTL
of 1; at instant 5 the record has expired. Two further `Shorten` calls at instant 5 both
succeed with the same code and both are tagged `IsNew = true`, while the store keeps
the expired record: nothing was created, and the code does not resolve. -/
theorem C2_second_shorten_tagged_new :
    Shorten parseFixtures (New memoryStorage ⟨"", 1⟩) NewMemoryStorage 0 "https://example.com" =
      (.ok ⟨"k2vewsVDgL", "k2vewsVDgL", "https://example.com", some 1, true⟩,
        ⟨⟨[("k2vewsVDgL", ⟨"k2vewsVDgL", "https://example.com", 0, some 1⟩)]⟩,
          ⟨[("https://example.com", "k2vewsVDgL")]⟩⟩) ∧
    Shorten parseFixtures (New memoryStorage ⟨"", 1⟩)
        ⟨⟨[("k2vewsVDgL", ⟨"k2vewsVDgL", "https://example.com", 0, some 1⟩)]⟩,
          ⟨[("https://example.com", "k2vewsVDgL")]⟩⟩ 5 "https://example.com" =
      (.ok ⟨"k2vewsVDgL", "k2vewsVDgL", "https://example.com", some 6, true⟩,
        ⟨⟨[("k2vewsVDgL", ⟨"k2vewsVDgL", "https://example.com", 0, some 1⟩)]⟩,
          ⟨[("https://example.com", "k2vewsVDgL")]⟩⟩) ∧
    Resolve (New memoryStorage ⟨"", 1⟩)
        ⟨⟨[("k2vewsVDgL", ⟨"k2vewsVDgL", "https://example.com", 0, some 1⟩)]⟩,
          ⟨[("https://example.com", "k2vewsVDgL")]⟩⟩ 5 "k2vewsVDgL" =
      (.err .ErrCodeNotFound,
        ⟨⟨[("k2vewsVDgL", ⟨"k2vewsVDgL", "https://example.com", 0, some 1⟩)]⟩,
          ⟨[("https://example.com", "k2vewsVDgL")]⟩⟩) := by
  decide

/-- C10: in every state reachable from the empty in-memory store by `Save` and `Shorten`
calls, if `Shorten u1` and then `Shorten u2` both succeed for two different URLs, the two
codes returned are different. -/
theorem C10_distinct_codes (parse : UrlParser) (config1 config2 : Config)
    (s s1 s2 : MemoryStorage) (now1 now2 : Int) (u1 u2 : String) (r1 r2 : ShortenResult)
    (hreach : Reachable parse s) (hne : u1 ≠ u2)
    (h1 : Shorten parse (New memoryStorage config1) s now1 u1 = (.ok r1, s1))
    (h2 : Shorten parse (New memoryStorage config2) s1 now2 u2 = (.ok r2, s2)) :
    r1.ShortCode ≠ r2.ShortCode := by
  have hs1 : Reachable parse s1 := by
    have := Reachable.shorten s config1 now1 u1 hreach
    rwa [h1] at this
  obtain ⟨⟨rec1, hrec1, hu1⟩, _⟩ :=
    Shorten_memory_ok parse config1 s s1 now1 u1 r1 hreach.consistent h1
  obtain ⟨⟨rec2, hrec2, hu2⟩, hkeep⟩ :=
    Shorten_memory_ok parse config2 s1 s2 now2 u2 r2 hs1.consistent h2
  intro hcode
  have h := hkeep r1.ShortCode rec1 hrec1
  rw [hcode, hrec2] at h
  cases h
  exact hne (hu1.symm.trans hu2)

set_option maxRecDepth 100000 in
/-- An instance of C10: the two URLs of the test, shortened one after the other on the
empty store. -/
theorem C10_distinct_codes_witness :
    (Shorten parseFixtures (New memoryStorage ⟨"http://localhost:8080", 0⟩) NewMemoryStorage 0
        "https://example.com/page1").1 =
      .ok ⟨"EhR22OzKcP", "http://localhost:8080/EhR22OzKcP", "https://example.com/page1", none,
        true⟩ ∧
    (Shorten parseFixtures (New memoryStorage ⟨"http://localhost:8080", 0⟩)
        (Shorten parseFixtures (New memoryStorage ⟨"http://localhost:8080", 0⟩) NewMemoryStorage 0
          "https://example.com/page1").2 0 "https://example.com/page2").1 =
      .ok ⟨"WkBionFgCI", "http://localhost:8080/WkBionFgCI", "https://example.com/page2", none,
        true⟩ ∧
    "EhR22OzKcP" ≠ "WkBionFgCI" :=
  have h1 : Shorten parseFixtures (New memoryStorage ⟨"http://localhost:8080", 0⟩)
      NewMemoryStorage 0 "https://example.com/page1" =
      (.ok ⟨"EhR22OzKcP", "http://localhost:8080/EhR22OzKcP", "https://example.com/page1", none,
        true⟩, ⟨⟨[("EhR22OzKcP", ⟨"EhR22OzKcP", "https://example.com/page1", 0, none⟩)]⟩,
          ⟨[("https://example.com/page1", "EhR22OzKcP")]⟩⟩) := by decide
  have h2 : Shorten parseFixtures (New memoryStorage ⟨"http://localhost:8080", 0⟩)
      ⟨⟨[("EhR22OzKcP", ⟨"EhR22OzKcP", "https://example.com/page1", 0, none⟩)]⟩,
          ⟨[("https://example.com/page1", "EhR22OzKcP")]⟩⟩ 0 "https://example.com/page2" =
      (.ok ⟨"WkBionFgCI", "http://localhost:8080/WkBionFgCI", "https://example.com/page2", none,
        true⟩, ⟨⟨[("EhR22OzKcP", ⟨"EhR22OzKcP", "https://example.com/page1", 0, none⟩),
            ("WkBionFgCI", ⟨"WkBionFgCI", "https://example.com/page2", 0, none⟩)]⟩,
          ⟨[("https://example.com/page1", "EhR22OzKcP"),
            ("https://example.com/page2", "WkBionFgCI")]⟩⟩) := by decide
  ⟨by rw [h1], by rw [h1, h2],
    C10_distinct_codes parseFixtures _ _ _ _ _ 0 0 _ _ _ _ Reachable.init (by decide) h1 h2⟩

theorem saveCalls_append (a b : List Call) : saveCalls (a ++ b) = saveCalls a + saveCalls b := by
  induction a with
  | nil => simp [saveCalls]
  | cons c a ih => cases c <;> simp [saveCalls, ih]; omega

theorem saveCalls_saveTrace {σ : Type} (svc : Shortener σ) (now : Int) (u : String)
    (attempt n : Nat) : saveCalls (saveTrace svc now u attempt n) = n := by
  induction n generalizing attempt with
  | zero => rfl
  | succ n ih =>
    have := ih (attempt + 1)
    simp only [saveTrace, List.range'_succ, List.map_cons, saveCalls] at this ⊢
    omega

theorem saveTrace_succ {σ : Type} (svc : Shortener σ) (now : Int) (u : String)
    (attempt n : Nat) :
    saveTrace svc now u attempt (n + 1) =
      Call.Save (svc.newRecord now u attempt) :: saveTrace svc now u (attempt + 1) n := by
  simp [saveTrace, List.range'_succ]

/-- The loop of `Shorten` over a store that answers every `Save` of the loop with a
collision: all attempts are made, then the loop gives up. -/
theorem shortenLoop_scripted_reject (b : Behaviour) (config : Config) (now : Int) (u : String) :
    ∀ (n attempt : Nat) (pre : List Call),
      (∀ j, j < n →
        b.onSave (pre ++ saveTrace (New (scripted b) config) now u attempt j)
          ((New (scripted b) config).newRecord now u (attempt + j)) now
          = .err .ErrAlreadyExists) →
      shortenLoop (New (scripted b) config) now u n attempt pre =
        (.err .ErrTooManyCollisions, pre ++ saveTrace (New (scripted b) config) now u attempt n) := by
  intro n
  induction n with
  | zero => intro attempt pre _; simp [shortenLoop, saveTrace]
  | succ n ih =>
    intro attempt pre h
    have h0 := h 0 (Nat.succ_pos n)
    simp only [saveTrace, List.range'_zero, List.map_nil, List.append_nil, Nat.add_zero] at h0
    have hsave : (New (scripted b) config).storage.Save pre
        ((New (scripted b) config).newRecord now u attempt) now =
        (.err .ErrAlreadyExists,
          pre ++ [Call.Save ((New (scripted b) config).newRecord now u attempt)]) := by
      show (b.onSave pre _ now, _) = _
      rw [h0]
    rw [shortenLoop_succ_collision _ _ _ _ _ _ _ _ hsave (by decide), ih, saveTrace_succ]
    · simp
    · intro j hj
      have := h (j + 1) (Nat.succ_lt_succ hj)
      rw [saveTrace_succ] at this
      simpa [Nat.add_assoc, Nat.add_comm 1 j] using this

/-- The loop of `Shorten` over a store that answers the first `k` `Save` calls of the loop
with a collision and the next one with success. -/
theorem shortenLoop_scripted_accept (b : Behaviour) (config : Config) (now : Int) (u : String) :
    ∀ (k n attempt : Nat) (pre : List Call), k < n →
      (∀ j, j < k →
        b.onSave (pre ++ saveTrace (New (scripted b) config) now u attempt j)
          ((New (scripted b) config).newRecord now u (attempt + j)) now
          = .err .ErrAlreadyExists) →
      b.onSave (pre ++ saveTrace (New (scripted b) config) now u attempt k)
          ((New (scripted b) config).newRecord now u (attempt + k)) now = .ok () →
      shortenLoop (New (scripted b) config) now u n attempt pre =
        (.ok (createdResult (New (scripted b) config) now u (attempt + k)),
          pre ++ saveTrace (New (scripted b) config) now u attempt (k + 1)) := by
  intro k
  induction k with
  | zero =>
    intro n attempt pre hn _ hok
    obtain ⟨m, rfl⟩ : ∃ m, n = m + 1 := ⟨n - 1, by omega⟩
    simp only [saveTrace, List.range'_zero, List.map_nil, List.append_nil, Nat.add_zero] at hok
    have hsave : (New (scripted b) config).storage.Save pre
        ((New (scripted b) config).newRecord now u attempt) now =
        (.ok (), pre ++ [Call.Save ((New (scripted b) config).newRecord now u attempt)]) := by
      show (b.onSave pre _ now, _) = _
      rw [hok]
    rw [shortenLoop_succ_ok _ _ _ _ _ _ _ _ hsave]
    simp [saveTrace]
  | succ k ih =>
    intro n attempt pre hn h hok
    obtain ⟨m, rfl⟩ : ∃ m, n = m + 1 := ⟨n - 1, by omega⟩
    have h0 := h 0 (Nat.succ_pos k)
    simp only [saveTrace, List.range'_zero, List.map_nil, List.append_nil, Nat.add_zero] at h0
    have hsave : (New (scripted b) config).storage.Save pre
        ((New (scripted b) config).newRecord now u attempt) now =
        (.err .ErrAlreadyExists,
          pre ++ [Call.Save ((New (scripted b) config).newRecord now u attempt)]) := by
      show (b.onSave pre _ now, _) = _
      rw [h0]
    rw [shortenLoop_succ_collision _ _ _ _ _ _ _ _ hsave (by decide),
      ih m (attempt + 1) _ (by omega), saveTrace_succ _ _ _ attempt (k + 1)]
    · simp [Nat.add_assoc, Nat.add_comm 1 k]
    · intro j hj
      have := h (j + 1) (Nat.succ_lt_succ hj)
      rw [saveTrace_succ] at this
      simpa [Nat.add_assoc, Nat.add_comm 1 j] using this
    · rw [saveTrace_succ] at hok
      simpa [Nat.add_assoc, Nat.add_comm 1 k] using hok

/-- What `Shorten` does over an arbitrary store once the URL is valid and the lookup
reports it absent or expired: it enters the loop, the lookup being the one call made. -/
theorem Shorten_scripted_enters_loop (parse : UrlParser) (b : Behaviour) (config : Config)
    (calls0 : List Call) (now : Int) (u : String)
    (hvalid : validateURL parse u = none)
    (habsent : b.onGetByOriginalURL calls0 u now = .err .ErrNotFound ∨
      b.onGetByOriginalURL calls0 u now = .err .ErrExpired) :
    Shorten parse (New (scripted b) config) calls0 now u =
      shortenLoop (New (scripted b) config) now u maxAttempts 0
        (calls0 ++ [Call.GetByOriginalURL u]) := by
  have hget : (New (scripted b) config).storage.GetByOriginalURL calls0 u now =
      (b.onGetByOriginalURL calls0 u now, calls0 ++ [Call.GetByOriginalURL u]) := rfl
  unfold Shorten
  rw [hvalid]
  simp only [hget]
  rcases habsent with h | h <;> rw [h] <;> simp [errorsIs]

/-- The log of `Shorten` up to attempt `i`, written out, is the lookup followed by the
`Save` calls of the attempts before `i`. -/
theorem lookup_then_saves_eq (b : Behaviour) (config : Config) (calls0 : List Call)
    (now : Int) (u : String) (i : Nat) :
    calls0 ++ Call.GetByOriginalURL u :: (List.range i).map (fun j : Nat =>
        Call.Save { ShortCode := shortcode.Generate u j, OriginalURL := u, CreatedAt := now,
                    ExpiresAt := (New (scripted b) config).newExpiresAt now }) =
      (calls0 ++ [Call.GetByOriginalURL u]) ++
        saveTrace (New (scripted b) config) now u 0 i := by
  simp [saveTrace, List.range_eq_range', newRecord]

/-- The number of `Save` calls in a call followed by `i` `Save` calls. -/
theorem saveCalls_lookup_then_saves (f : Nat → URL) (c : Call) (i : Nat) :
    saveCalls (c :: (List.range i).map (fun j : Nat => Call.Save (f j))) =
      saveCalls [c] + i := by
  have h : ∀ (l : List Nat), saveCalls (l.map (fun j : Nat => Call.Save (f j))) = l.length := by
    intro l
    induction l with
    | nil => rfl
    | cons a l ih => simp [saveCalls, ih]
  have := saveCalls_append [c] ((List.range i).map (fun j : Nat => Call.Save (f j)))
  rw [h, List.length_range] at this
  simpa using this

/-- C8: for every valid URL `u` and every store whose `GetByOriginalURL` reports `u` absent
or expired and whose `Save` returns `ErrAlreadyExists` on each of the 10 `Save` calls that
`Shorten` makes (`hreject`: for `i = 0..9`, the call that comes after the lookup and the
`Save` calls of the attempts before `i`, carries the record of attempt `i` and is made at
the instant of the `Shorten` call; nothing is asked of the store on any other history,
record or instant), `Shorten u` returns exactly `ErrTooManyCollisions`, having called the
store exactly as follows: the lookup of `u`, then `maxAttempts = 10` `Save` calls, the
`i`-th of which (`i = 0..9`) carries the code `Generate u i`. -/
theorem C8_collision_exhaustion (parse : UrlParser) (b : Behaviour) (config : Config)
    (calls0 : List Call) (now : Int) (u : String)
    (hvalid : validateURL parse u = none)
    (habsent : b.onGetByOriginalURL calls0 u now = .err .ErrNotFound ∨
      b.onGetByOriginalURL calls0 u now = .err .ErrExpired)
    (hreject : ∀ i : Nat, i < 10 →
      b.onSave
        (calls0 ++ Call.GetByOriginalURL u :: (List.range i).map (fun j : Nat =>
          Call.Save { ShortCode := shortcode.Generate u j, OriginalURL := u, CreatedAt := now,
                      ExpiresAt := (New (scripted b) config).newExpiresAt now }))
        { ShortCode := shortcode.Generate u i, OriginalURL := u, CreatedAt := now,
          ExpiresAt := (New (scripted b) config).newExpiresAt now } now
      = .err .ErrAlreadyExists) :
    Shorten parse (New (scripted b) config) calls0 now u =
      (.err .ErrTooManyCollisions,
        calls0 ++ Call.GetByOriginalURL u :: (List.range 10).map (fun i : Nat =>
          Call.Save { ShortCode := shortcode.Generate u i, OriginalURL := u, CreatedAt := now,
                      ExpiresAt := (New (scripted b) config).newExpiresAt now })) ∧
    saveCalls ((Shorten parse (New (scripted b) config) calls0 now u).2.drop calls0.length)
      = maxAttempts := by
  have hrun : Shorten parse (New (scripted b) config) calls0 now u =
      (.err .ErrTooManyCollisions,
        (calls0 ++ [Call.GetByOriginalURL u]) ++
          saveTrace (New (scripted b) config) now u 0 maxAttempts) := by
    rw [Shorten_scripted_enters_loop parse b config calls0 now u hvalid habsent]
    apply shortenLoop_scripted_reject
    intro j hj
    have h := hreject j hj
    rw [lookup_then_saves_eq] at h
    rw [Nat.zero_add]
    exact h
  constructor
  · rw [hrun]
    simp [saveTrace, maxAttempts, List.range_eq_range', newRecord]
  · rw [hrun]
    simp only [List.append_assoc, List.drop_left, saveCalls_append, saveCalls_saveTrace]
    simp [saveCalls]

/-- Two instances of C8: the test double that rejects 11 `Save` calls whatever the record,
and a store that looks at the record and rejects every record of `https://example.com`. -/
theorem C8_collision_exhaustion_witness :
    (Shorten parseFixtures (New (scripted (mockStorage 11)) ⟨"", 0⟩) [] 0 "https://example.com" =
      (.err .ErrTooManyCollisions,
        [] ++ Call.GetByOriginalURL "https://example.com" :: (List.range 10).map (fun i : Nat =>
          Call.Save { ShortCode := shortcode.Generate "https://example.com" i,
                      OriginalURL := "https://example.com", CreatedAt := 0,
                      ExpiresAt := (New (scripted (mockStorage 11)) ⟨"", 0⟩).newExpiresAt 0 })) ∧
    saveCalls ((Shorten parseFixtures (New (scripted (mockStorage 11)) ⟨"", 0⟩) [] 0
      "https://example.com").2.drop ([] : List Call).length) = maxAttempts) ∧
    (Shorten parseFixtures
        (New (scripted ⟨fun _ r _ =>
            if r.OriginalURL = "https://example.com" then .err .ErrAlreadyExists else .ok (),
          fun _ _ _ => .err .ErrNotFound, fun _ _ _ => .err .ErrNotFound⟩) ⟨"", 3600⟩)
        [Call.GetByCode "k2vewsVDgL"] 7 "https://example.com").1 =
      .err .ErrTooManyCollisions :=
  ⟨C8_collision_exhaustion parseFixtures (mockStorage 11) ⟨"", 0⟩ [] 0 "https://example.com"
    (by decide) (Or.inl rfl)
    (fun i hi => by
      show (if saveCalls ([] ++ _ :: (List.range i).map (fun j : Nat => Call.Save _)) + 1 ≤ 11
        then _ else _) = _
      rw [List.nil_append, saveCalls_lookup_then_saves, if_pos (by simp [saveCalls]; omega)]),
   congrArg Prod.fst (C8_collision_exhaustion parseFixtures
      ⟨fun _ r _ =>
          if r.OriginalURL = "https://example.com" then .err .ErrAlreadyExists else .ok (),
        fun _ _ _ => .err .ErrNotFound, fun _ _ _ => .err .ErrNotFound⟩ ⟨"", 3600⟩
      [Call.GetByCode "k2vewsVDgL"] 7 "https://example.com"
      (by decide) (Or.inl rfl) (fun _ _ => rfl)).1⟩

/-- C9: for every valid URL `u` and every `k < 10`, if the store reports `u` absent (or
expired) and its `Save` returns `ErrAlreadyExists` on the first `k` `Save` calls that
`Shorten` makes and success on call `k + 1` (`hreject`, `haccept`: the call of attempt `i`
comes after the lookup and the `Save` calls of the attempts before `i`, carries the record
of attempt `i` and is made at the instant of the `Shorten` call; nothing is asked of the
store on any other history, record or instant), then `Shorten u` succeeds after exactly
`k + 1` `Save` calls, the `i`-th carrying the record of attempt `i`, and the result has
`ShortCode = Generate u k`, `OriginalURL = u` and `IsNew = true`. -/
theorem C9_collision_recovery (parse : UrlParser) (b : Behaviour) (config : Config)
    (calls0 : List Call) (now : Int) (u : String) (k : Nat) (hk : k < 10)
    (hvalid : validateURL parse u = none)
    (habsent : b.onGetByOriginalURL calls0 u now = .err .ErrNotFound ∨
      b.onGetByOriginalURL calls0 u now = .err .ErrExpired)
    (hreject : ∀ i : Nat, i < k →
      b.onSave
        (calls0 ++ Call.GetByOriginalURL u :: (List.range i).map (fun j : Nat =>
          Call.Save { ShortCode := shortcode.Generate u j, OriginalURL := u, CreatedAt := now,
                      ExpiresAt := (New (scripted b) config).newExpiresAt now }))
        { ShortCode := shortcode.Generate u i, OriginalURL := u, CreatedAt := now,
          ExpiresAt := (New (scripted b) config).newExpiresAt now } now
      = .err .ErrAlreadyExists)
    (haccept :
      b.onSave
        (calls0 ++ Call.GetByOriginalURL u :: (List.range k).map (fun j : Nat =>
          Call.Save { ShortCode := shortcode.Generate u j, OriginalURL := u, CreatedAt := now,
                      ExpiresAt := (New (scripted b) config).newExpiresAt now }))
        { ShortCode := shortcode.Generate u k, OriginalURL := u, CreatedAt := now,
          ExpiresAt := (New (scripted b) config).newExpiresAt now } now
      = .ok ()) :
    Shorten parse (New (scripted b) config) calls0 now u =
      (.ok { ShortCode := shortcode.Generate u k,
             ShortURL := (New (scripted b) config).buildShortURL (shortcode.Generate u k),
             OriginalURL := u,
             ExpiresAt := (New (scripted b) config).newExpiresAt now,
             IsNew := true },
        calls0 ++ Call.GetByOriginalURL u :: (List.range (k + 1)).map (fun i : Nat =>
          Call.Save { ShortCode := shortcode.Generate u i, OriginalURL := u, CreatedAt := now,
                      ExpiresAt := (New (scripted b) config).newExpiresAt now })) ∧
    saveCalls ((Shorten parse (New (scripted b) config) calls0 now u).2.drop calls0.length)
      = k + 1 := by
  have hrun : Shorten parse (New (scripted b) config) calls0 now u =
      (.ok (createdResult (New (scripted b) config) now u (0 + k)),
        (calls0 ++ [Call.GetByOriginalURL u]) ++
          saveTrace (New (scripted b) config) now u 0 (k + 1)) := by
    rw [Shorten_scripted_enters_loop parse b config calls0 now u hvalid habsent]
    apply shortenLoop_scripted_accept b config now u k maxAttempts 0 _ hk
    · intro j hj
      have h := hreject j hj
      rw [lookup_then_saves_eq] at h
      rw [Nat.zero_add]
      exact h
    · rw [lookup_then_saves_eq] at haccept
      rw [Nat.zero_add]
      exact haccept
  constructor
  · rw [hrun]
    simp [saveTrace, List.range_eq_range', newRecord, createdResult]
  · rw [hrun]
    simp only [List.append_assoc, List.drop_left, saveCalls_append, saveCalls_saveTrace]
    simp [saveCalls]

set_option maxRecDepth 100000 in
/-- Two instances of C9: the test double that rejects 2 `Save` calls, the third succeeds;
and a store that answers `Save` as the in-memory store does in the state where the codes
of attempts 0 and 1 of `https://example.com` are taken by two other URLs. -/
theorem C9_collision_recovery_witness :
    (Shorten parseFixtures (New (scripted (mockStorage 2)) ⟨"", 0⟩) [] 0 "https://example.com" =
      (.ok { ShortCode := shortcode.Generate "https://example.com" (2 : Nat),
             ShortURL := (New (scripted (mockStorage 2)) ⟨"", 0⟩).buildShortURL
               (shortcode.Generate "https://example.com" (2 : Nat)),
             OriginalURL := "https://example.com",
             ExpiresAt := (New (scripted (mockStorage 2)) ⟨"", 0⟩).newExpiresAt 0,
             IsNew := true },
        [] ++ Call.GetByOriginalURL "https://example.com" :: (List.range (2 + 1)).map (fun i : Nat =>
          Call.Save { ShortCode := shortcode.Generate "https://example.com" i,
                      OriginalURL := "https://example.com", CreatedAt := 0,
                      ExpiresAt := (New (scripted (mockStorage 2)) ⟨"", 0⟩).newExpiresAt 0 })) ∧
    saveCalls ((Shorten parseFixtures (New (scripted (mockStorage 2)) ⟨"", 0⟩) [] 0
      "https://example.com").2.drop ([] : List Call).length) = 2 + 1) ∧
    saveCalls ((Shorten parseFixtures
        (New (scripted
          ⟨fun _ r _ =>
            (((NewMemoryStorage.Save ⟨"k2vewsVDgL", "https://example.com/page1", 0, none⟩).2.Save
              ⟨"yMHETAqj9h", "https://example.com/page2", 0, none⟩).2.Save r).1,
           fun _ _ _ => .err .ErrNotFound,
           fun _ _ _ => .err .ErrNotFound⟩) ⟨"", 0⟩) [] 0
        "https://example.com").2.drop ([] : List Call).length) = 2 + 1 :=
  ⟨C9_collision_recovery parseFixtures (mockStorage 2) ⟨"", 0⟩ [] 0 "https://example.com" 2
    (by decide) (by decide) (Or.inl rfl)
    (fun i hi => by
      show (if saveCalls ([] ++ _ :: (List.range i).map (fun j : Nat => Call.Save _)) + 1 ≤ 2
        then _ else _) = _
      rw [List.nil_append, saveCalls_lookup_then_saves, if_pos (by simp [saveCalls]; omega)])
    (by decide),
   (C9_collision_recovery parseFixtures
      ⟨fun _ r _ =>
        (((NewMemoryStorage.Save ⟨"k2vewsVDgL", "https://example.com/page1", 0, none⟩).2.Save
          ⟨"yMHETAqj9h", "https://example.com/page2", 0, none⟩).2.Save r).1,
       fun _ _ _ => .err .ErrNotFound,
       fun _ _ _ => .err .ErrNotFound⟩ ⟨"", 0⟩ [] 0 "https://example.com" 2
      (by decide) (by decide) (Or.inl rfl)
      (fun i hi => by
        obtain rfl | rfl : i = 0 ∨ i = 1 := by omega
        · decide
        · decide)
      (by decide)).2⟩

end service

namespace storage

set_option maxRecDepth 100000 in
/-- C5 at its failing input: a record that expires at instant 5 is saved at instant 0 and
saved again at instant 10. The in-memory store accepts the second `Save` as an idempotent
re-save; the relational store re-reads the row through `GetByCode`, finds it expired and
fails with an error wrapping `ErrExpired`. -/
theorem C5_backends_differ_on_expired_resave :
    memoryStorage.run NewMemoryStorage
        [(.Save ⟨"aaaaaaaaaa", "http://example.com", 0, some 5⟩, 0),
         (.Save ⟨"aaaaaaaaaa", "http://example.com", 0, some 5⟩, 10)] =
      [.ok none, .ok none] ∧
    postgresStorage.run NewPostgresStorage
        [(.Save ⟨"aaaaaaaaaa", "http://example.com", 0, some 5⟩, 0),
         (.Save ⟨"aaaaaaaaaa", "http://example.com", 0, some 5⟩, 10)] =
      [.ok none, .err (.wrap "checking existing code" .ErrExpired)] := by
  decide

/-- A `Save` leaves the entries of `byCode` under other codes as they were. -/
theorem Save_get_other_code (s : MemoryStorage) (url : URL) (code : String)
    (h : code ≠ url.ShortCode) : (s.Save url).2.byCode.get code = s.byCode.get code := by
  cases hget : s.byCode.get url.ShortCode with
  | none => rw [Save_of_unused s url hget]; exact GoMap.get_set_ne _ _ _ _ h
  | some existing =>
    by_cases hurl : existing.OriginalURL = url.OriginalURL
    · rw [Save_of_same_url s url existing hget hurl]
    · rw [Save_of_other_url s url existing hget hurl]

/-- A `Save` leaves the entries of `byOriginalURL` under other URLs as they were. -/
theorem Save_get_other_url (s : MemoryStorage) (url : URL) (u : String)
    (h : u ≠ url.OriginalURL) :
    (s.Save url).2.byOriginalURL.get u = s.byOriginalURL.get u := by
  cases hget : s.byCode.get url.ShortCode with
  | none => rw [Save_of_unused s url hget]; exact GoMap.get_set_ne _ _ _ _ h
  | some existing =>
    by_cases hurl : existing.OriginalURL = url.OriginalURL
    · rw [Save_of_same_url s url existing hget hurl]
    · rw [Save_of_other_url s url existing hget hurl]

/-- No sequence of `Save` calls removes or changes a stored record. -/
theorem saveAll_keeps (urls : List URL) :
    ∀ (s : MemoryStorage) (code : String) (rec : URL), s.byCode.get code = some rec →
      (s.saveAll urls).byCode.get code = some rec := by
  induction urls with
  | nil => intro s code rec h; exact h
  | cons url rest ih =>
    intro s code rec h
    exact ih (s.Save url).2 code rec (Save_keeps s url code rec h)

/-- A code carried by none of the `Save` calls stays unused. -/
theorem saveAll_code_unused (urls : List URL) :
    ∀ (s : MemoryStorage) (code : String), s.byCode.get code = none →
      (∀ url ∈ urls, url.ShortCode ≠ code) → (s.saveAll urls).byCode.get code = none := by
  induction urls with
  | nil => intro s code h _; exact h
  | cons url rest ih =>
    intro s code h hne
    apply ih
    · rw [Save_get_other_code s url code (Ne.symm (hne url (List.mem_cons_self _ _)))]
      exact h
    · exact fun x hx => hne x (List.mem_cons_of_mem _ hx)

/-- A URL carried by none of the `Save` calls gets no entry in `byOriginalURL`. -/
theorem saveAll_url_unused (urls : List URL) :
    ∀ (s : MemoryStorage) (u : String), s.byOriginalURL.get u = none →
      (∀ url ∈ urls, url.OriginalURL ≠ u) → (s.saveAll urls).byOriginalURL.get u = none := by
  induction urls with
  | nil => intro s u h _; exact h
  | cons url rest ih =>
    intro s u h hne
    apply ih
    · rw [Save_get_other_url s url u (Ne.symm (hne url (List.mem_cons_self _ _)))]
      exact h
    · exact fun x hx => hne x (List.mem_cons_of_mem _ hx)

/-- The lookups after a `Save` under an unused code. -/
theorem lookups_after_fresh_save (s : MemoryStorage) (r : URL) (now : Int)
    (hfree : s.byCode.get r.ShortCode = none) :
    (s.Save r).2.GetByCode r.ShortCode now =
      (if r.IsExpired now then .err .ErrExpired else .ok r) ∧
    (s.Save r).2.GetByOriginalURL r.OriginalURL now =
      (if r.IsExpired now then .err .ErrExpired else .ok r) := by
  rw [Save_of_unused s r hfree]
  constructor
  · simp only [MemoryStorage.GetByCode, GoMap.get_set_self]
  · simp only [MemoryStorage.GetByOriginalURL, GoMap.get_set_self]

/-- C12: in every state of the in-memory store in which the code `c` is unused (whether
or not the URL has an entry), after the successful `Save` of a record `(c, u)` whose
`ExpiresAt` is strictly before the lookup time, `GetByCode c` returns `ErrExpired` and
`GetByOriginalURL u` returns `ErrExpired`: neither returns `ErrNotFound` or a record. -/
theorem C12_expired_on_both_lookups (s : MemoryStorage) (r : URL) (t now : Int)
    (hfree : s.byCode.get r.ShortCode = none) (hexp : r.ExpiresAt = some t) (hpast : t < now) :
    (s.Save r).1 = .ok () ∧
    (s.Save r).2.GetByCode r.ShortCode now = .err .ErrExpired ∧
    (s.Save r).2.GetByOriginalURL r.OriginalURL now = .err .ErrExpired := by
  have hx : r.IsExpired now = true := by simp [URL.IsExpired, hexp, hpast]
  obtain ⟨h1, h2⟩ := lookups_after_fresh_save s r now hfree
  rw [hx] at h1 h2
  exact ⟨by rw [Save_of_unused s r hfree], h1, h2⟩

/-- An instance of C12: the record of the test, expired an hour (3600 ticks) before the
lookups. -/
theorem C12_expired_on_both_lookups_witness :
    (NewMemoryStorage.Save ⟨"expired123", "https://example.com", 3600, some 0⟩).1 = .ok () ∧
    (NewMemoryStorage.Save ⟨"expired123", "https://example.com", 3600, some 0⟩).2.GetByCode
      "expired123" 3600 = .err .ErrExpired ∧
    (NewMemoryStorage.Save ⟨"expired123", "https://example.com", 3600, some 0⟩).2.GetByOriginalURL
      "https://example.com" 3600 = .err .ErrExpired :=
  C12_expired_on_both_lookups NewMemoryStorage ⟨"expired123", "https://example.com", 3600, some 0⟩
    0 3600 (by decide) rfl (by decide)

/-- C14: `IsExpired` at the instant `now` holds exactly when `ExpiresAt` is set and `now`
is strictly after it; a record with no `ExpiresAt` is never expired, and a record is not
expired at the very instant `now = ExpiresAt`, nor before it. -/
theorem C14_isExpired_iff (u : URL) (now : Int) :
    (u.IsExpired now = true ↔ ∃ t, u.ExpiresAt = some t ∧ t < now) ∧
    (u.ExpiresAt = none → u.IsExpired now = false) ∧
    (u.ExpiresAt = some now → u.IsExpired now = false) ∧
    (∀ t, u.ExpiresAt = some t → now ≤ t → u.IsExpired now = false) := by
  refine ⟨?_, ?_, ?_, ?_⟩
  · cases h : u.ExpiresAt with
    | none => simp [URL.IsExpired, h]
    | some t => simp [URL.IsExpired, h]
  · intro h; simp [URL.IsExpired, h]
  · intro h; simp [URL.IsExpired, h]
  · intro t h hle; simp [URL.IsExpired, h, hle]

/-- C13: once `Save` has inserted the record `r` under a code unused before, then after
any further sequence of `Save` calls (any codes and URLs) and at every instant that is
not after `r.ExpiresAt` (at every instant when `r` has no expiration), `GetByCode` of
that code returns `r` itself: same `ShortCode`, `OriginalURL`, `CreatedAt`, `ExpiresAt`. -/
theorem C13_record_stays_reachable (s : MemoryStorage) (r : URL) (later : List URL) (now : Int)
    (hfree : s.byCode.get r.ShortCode = none)
    (hlive : ∀ t, r.ExpiresAt = some t → now ≤ t) :
    (s.Save r).1 = .ok () ∧
    ((s.Save r).2.saveAll later).GetByCode r.ShortCode now = .ok r := by
  have hstored : (s.Save r).2.byCode.get r.ShortCode = some r := by
    rw [Save_of_unused s r hfree]; exact GoMap.get_set_self _ _ _
  have hx : r.IsExpired now = false := by
    cases h : r.ExpiresAt with
    | none => simp [URL.IsExpired, h]
    | some t => simpa [URL.IsExpired, h] using hlive t h
  refine ⟨by rw [Save_of_unused s r hfree], ?_⟩
  simp [MemoryStorage.GetByCode, saveAll_keeps later _ _ _ hstored, hx]

/-- An instance of C13: the record of the test, with an expiration an hour (3600 ticks)
ahead, looked up at that very instant after a colliding `Save`, a re-save with other
timestamps and a `Save` of the same URL under another code. -/
theorem C13_record_stays_reachable_witness :
    (NewMemoryStorage.Save ⟨"future1234", "https://example.com", 0, some 3600⟩).1 = .ok () ∧
    ((NewMemoryStorage.Save ⟨"future1234", "https://example.com", 0, some 3600⟩).2.saveAll
        [⟨"future1234", "https://different.com", 5, none⟩,
         ⟨"future1234", "https://example.com", 7, some 8⟩,
         ⟨"noexpire12", "https://example.com", 9, none⟩]).GetByCode "future1234" 3600 =
      .ok ⟨"future1234", "https://example.com", 0, some 3600⟩ :=
  C13_record_stays_reachable NewMemoryStorage ⟨"future1234", "https://example.com", 0, some 3600⟩
    _ 3600 (by decide) (by decide)

/-- C15: for every state of the in-memory store and every record `r` whose code is not
present, `Save r` succeeds, and afterwards, at any instant at which `r` is not expired,
`GetByCode r.ShortCode` and `GetByOriginalURL r.OriginalURL` both return `r` itself (all
four fields). A code carried by no `Save` since the empty store yields `ErrNotFound` from
`GetByCode`, and a URL carried by no `Save` yields `ErrNotFound` from
`GetByOriginalURL`. -/
theorem C15_fresh_insert_round_trip (s : MemoryStorage) (r : URL)
    (hfree : s.byCode.get r.ShortCode = none) :
    (s.Save r).1 = .ok () ∧
    (∀ now : Int, r.IsExpired now = false →
      (s.Save r).2.GetByCode r.ShortCode now = .ok r ∧
      (s.Save r).2.GetByOriginalURL r.OriginalURL now = .ok r) ∧
    (∀ (saved : List URL) (code : String) (now : Int), (∀ x ∈ saved, x.ShortCode ≠ code) →
      (NewMemoryStorage.saveAll saved).GetByCode code now = .err .ErrNotFound) ∧
    (∀ (saved : List URL) (u : String) (now : Int), (∀ x ∈ saved, x.OriginalURL ≠ u) →
      (NewMemoryStorage.saveAll saved).GetByOriginalURL u now = .err .ErrNotFound) := by
  refine ⟨by rw [Save_of_unused s r hfree], ?_, ?_, ?_⟩
  · intro now hx
    obtain ⟨h1, h2⟩ := lookups_after_fresh_save s r now hfree
    rw [hx] at h1 h2
    exact ⟨h1, h2⟩
  · intro saved code now hne
    simp [MemoryStorage.GetByCode,
      saveAll_code_unused saved NewMemoryStorage code (GoMap.get_empty _) hne]
  · intro saved u now hne
    simp [MemoryStorage.GetByOriginalURL,
      saveAll_url_unused saved NewMemoryStorage u (GoMap.get_empty _) hne]

/-- An instance of C15: the record of the test saved into a store that holds another
record, then looked up by code and by URL; a code and a URL never saved are not found. -/
theorem C15_fresh_insert_round_trip_witness :
    ((NewMemoryStorage.Save ⟨"noexpire12", "https://different.com", 0, none⟩).2.Save
      ⟨"aB3_xY9z12", "https://example.com", 1, some 50⟩).1 = .ok () ∧
    (((NewMemoryStorage.Save ⟨"noexpire12", "https://different.com", 0, none⟩).2.Save
      ⟨"aB3_xY9z12", "https://example.com", 1, some 50⟩).2.GetByCode "aB3_xY9z12" 50 =
        .ok ⟨"aB3_xY9z12", "https://example.com", 1, some 50⟩ ∧
     ((NewMemoryStorage.Save ⟨"noexpire12", "https://different.com", 0, none⟩).2.Save
      ⟨"aB3_xY9z12", "https://example.com", 1, some 50⟩).2.GetByOriginalURL
        "https://example.com" 50 = .ok ⟨"aB3_xY9z12", "https://example.com", 1, some 50⟩) ∧
    (NewMemoryStorage.saveAll [⟨"aB3_xY9z12", "https://example.com", 1, some 50⟩]).GetByCode
      "nonexist12" 50 = .err .ErrNotFound ∧
    (NewMemoryStorage.saveAll
      [⟨"aB3_xY9z12", "https://example.com", 1, some 50⟩]).GetByOriginalURL
      "https://nonexistent.com" 50 = .err .ErrNotFound :=
  have h := C15_fresh_insert_round_trip
    (NewMemoryStorage.Save ⟨"noexpire12", "https://different.com", 0, none⟩).2
    ⟨"aB3_xY9z12", "https://example.com", 1, some 50⟩ (by decide)
  ⟨h.1, h.2.1 50 (by decide),
    h.2.2.1 [⟨"aB3_xY9z12", "https://example.com", 1, some 50⟩] "nonexist12" 50 (by decide),
    h.2.2.2 [⟨"aB3_xY9z12", "https://example.com", 1, some 50⟩] "https://nonexistent.com" 50
      (by decide)⟩

end storage

namespace service

open storage Shortener

/-! ### One record per URL under serial use -/

/-- The loop of `Shorten` on the in-memory store, with the attempts it went through: it
exhausts its attempts, or it ends with a successful `Save` at some attempt `k`, every
attempt before `k` having met a code held by another URL. -/
theorem shortenLoop_memory_first_fit (config : Config) (now : Int) (u : String) :
    ∀ (remaining attempt : Nat) (s : MemoryStorage),
      (shortenLoop (New memoryStorage config) now u remaining attempt s =
        (.err .ErrTooManyCollisions, s)) ∨
      ∃ k : Nat,
        (∀ i : Nat, attempt ≤ i → i < k →
          ∃ other, s.byCode.get (shortcode.Generate u i) = some other ∧ other.OriginalURL ≠ u) ∧
        shortenLoop (New memoryStorage config) now u remaining attempt s =
          (.ok (createdResult (New memoryStorage config) now u k),
           (s.Save ((New memoryStorage config).newRecord now u k)).2) := by
  intro remaining
  induction remaining with
  | zero => intro attempt s; exact Or.inl rfl
  | succ n ih =>
    intro attempt s
    have hstep : (New memoryStorage config).storage.Save s
        ((New memoryStorage config).newRecord now u attempt) now
        = s.Save ((New memoryStorage config).newRecord now u attempt) := rfl
    cases hget : s.byCode.get (shortcode.Generate u attempt) with
    | none =>
      have hsave := Save_of_unused s ((New memoryStorage config).newRecord now u attempt) hget
      exact Or.inr ⟨attempt, fun i h1 h2 => absurd h1 (by omega),
        by rw [shortenLoop_succ_ok _ _ _ _ _ _ _ () (hstep.trans hsave), hsave]⟩
    | some existing =>
      by_cases hurl : existing.OriginalURL = u
      · have hsave := Save_of_same_url s ((New memoryStorage config).newRecord now u attempt)
          existing hget hurl
        exact Or.inr ⟨attempt, fun i h1 h2 => absurd h1 (by omega),
          by rw [shortenLoop_succ_ok _ _ _ _ _ _ _ () (hstep.trans hsave), hsave]⟩
      · have hsave := Save_of_other_url s ((New memoryStorage config).newRecord now u attempt)
            existing hget hurl
        rw [shortenLoop_succ_collision _ _ _ _ _ _ _ _ (hstep.trans hsave) (by decide)]
        rcases ih (attempt + 1) s with h | ⟨k, hk1, hk2⟩
        · exact Or.inl h
        · refine Or.inr ⟨k, ?_, hk2⟩
          intro i h1 h2
          by_cases hi : i = attempt
          · subst hi; exact ⟨existing, hget, hurl⟩
          · exact hk1 i (by omega) h2

/-- The state after a `Shorten` on the in-memory store: the state before, or the state
after the `Save` of the record of an attempt `k` all of whose earlier attempts met a
code held by another URL. -/
theorem Shorten_memory_state_first_fit (parse : UrlParser) (config : Config)
    (s : MemoryStorage) (now : Int) (u : String) :
    (Shorten parse (New memoryStorage config) s now u).2 = s ∨
    ∃ k : Nat,
      (∀ i : Nat, i < k →
        ∃ other, s.byCode.get (shortcode.Generate u i) = some other ∧ other.OriginalURL ≠ u) ∧
      (Shorten parse (New memoryStorage config) s now u).2 =
        (s.Save ((New memoryStorage config).newRecord now u k)).2 := by
  have hget : (New memoryStorage config).storage.GetByOriginalURL s u now
      = (s.GetByOriginalURL u now, s) := rfl
  unfold Shorten
  cases hv : validateURL parse u with
  | some e => exact Or.inl rfl
  | none =>
    simp only [hget]
    cases hlook : s.GetByOriginalURL u now with
    | ok existing => exact Or.inl rfl
    | panic => exact Or.inl rfl
    | err e =>
      simp only []
      by_cases hcond : (!errorsIs e .ErrNotFound && !errorsIs e .ErrExpired) = true
      · rw [if_pos hcond]; exact Or.inl rfl
      · rw [if_neg hcond]
        rcases shortenLoop_memory_first_fit config now u maxAttempts 0 s with h | ⟨k, hk1, hk2⟩
        · rw [h]; exact Or.inl rfl
        · rw [hk2]; exact Or.inr ⟨k, fun i hi => hk1 i (Nat.zero_le i) hi, rfl⟩

/-- What `byCode` holds after a `Save`: what it held before, or the record saved, under
a code unused before. -/
theorem Save_get_cases (s : MemoryStorage) (url : URL) (code : String) (rec : URL)
    (h : (s.Save url).2.byCode.get code = some rec) :
    s.byCode.get code = some rec ∨
    (code = url.ShortCode ∧ rec = url ∧ s.byCode.get url.ShortCode = none) := by
  cases hget : s.byCode.get url.ShortCode with
  | none =>
    by_cases hc : code = url.ShortCode
    · rw [Save_of_unused s url hget, hc] at h
      simp only [GoMap.get_set_self] at h
      cases h
      exact Or.inr ⟨hc, rfl, rfl⟩
    · rw [Save_get_other_code s url code hc] at h
      exact Or.inl h
  | some existing =>
    by_cases hurl : existing.OriginalURL = url.OriginalURL
    · rw [Save_of_same_url s url existing hget hurl] at h; exact Or.inl h
    · rw [Save_of_other_url s url existing hget hurl] at h; exact Or.inl h

theorem FirstFit_new : NewMemoryStorage.FirstFit := by
  intro code rec h
  simp [NewMemoryStorage, GoMap.get_empty] at h

/-- The `Save` of the record of attempt `k` keeps `FirstFit` when the codes of the
attempts before `k` are held by other URLs. -/
theorem FirstFit_Save (config : Config) (now : Int) (u : String) (k : Nat) (s : MemoryStorage)
    (hs : s.FirstFit)
    (hk : ∀ i : Nat, i < k →
      ∃ other, s.byCode.get (shortcode.Generate u i) = some other ∧ other.OriginalURL ≠ u) :
    (s.Save ((New memoryStorage config).newRecord now u k)).2.FirstFit := by
  intro code rec h
  rcases Save_get_cases s _ code rec h with hold | ⟨hc, hr, _⟩
  · obtain ⟨k1, hk1, hothers⟩ := hs code rec hold
    refine ⟨k1, hk1, fun i hi => ?_⟩
    obtain ⟨other, ho1, ho2⟩ := hothers i hi
    exact ⟨other, Save_keeps s _ _ other ho1, ho2⟩
  · subst hr
    refine ⟨k, hc, fun i hi => ?_⟩
    obtain ⟨other, ho1, ho2⟩ := hk i hi
    exact ⟨other, Save_keeps s _ _ other ho1, ho2⟩

theorem ReachableByShorten.firstFit {parse : UrlParser} {s : MemoryStorage}
    (h : ReachableByShorten parse s) : s.FirstFit := by
  induction h with
  | init => exact FirstFit_new
  | shorten s config now u _ ih =>
    rcases Shorten_memory_state_first_fit parse config s now u with h | ⟨k, hk, h⟩
    · rw [h]; exact ih
    · rw [h]; exact FirstFit_Save config now u k s ih hk

/-- A store in which every record sits at the first fitting attempt of its URL holds at
most one record per URL. -/
theorem OneRecordPerURL_of_FirstFit {s : MemoryStorage} (hs : s.FirstFit) :
    s.OneRecordPerURL := by
  intro code1 code2 rec1 rec2 h1 h2 hu
  obtain ⟨k1, hc1, ho1⟩ := hs code1 rec1 h1
  obtain ⟨k2, hc2, ho2⟩ := hs code2 rec2 h2
  rcases Nat.lt_trichotomy k1 k2 with hlt | heq | hgt
  · obtain ⟨other, hget, hne⟩ := ho2 k1 hlt
    rw [← hu, ← hc1, h1] at hget
    cases hget
    exact absurd hu hne
  · rw [hc1, hc2, hu, heq]
  · obtain ⟨other, hget, hne⟩ := ho1 k2 hgt
    rw [hu, ← hc2, h2] at hget
    cases hget
    exact absurd hu.symm hne

/-- C11: in every state of the in-memory store reachable from the empty store by
`Shorten` calls made one after another (any URLs, instants and `DefaultTTL`), at most one
stored record exists per original URL: no two codes of `byCode` carry the same
`OriginalURL`. -/
theorem C11_one_record_per_url (parse : UrlParser) (s : MemoryStorage)
    (hreach : ReachableByShorten parse s) : s.OneRecordPerURL :=
  OneRecordPerURL_of_FirstFit hreach.firstFit

set_option maxRecDepth 100000 in
/-- An instance of C11: `https://example.com` shortened at instant 0 with a TTL of 1,
shortened again at instant 5, once expired, then `https://example.com/page1`. -/
theorem C11_one_record_per_url_witness :
    (Shorten parseFixtures (New memoryStorage ⟨"", 0⟩)
      (Shorten parseFixtures (New memoryStorage ⟨"", 1⟩)
        (Shorten parseFixtures (New memoryStorage ⟨"", 1⟩) NewMemoryStorage 0
          "https://example.com").2 5 "https://example.com").2 6
      "https://example.com/page1").2 =
      ⟨⟨[("k2vewsVDgL", ⟨"k2vewsVDgL", "https://example.com", 0, some 1⟩),
         ("EhR22OzKcP", ⟨"EhR22OzKcP", "https://example.com/page1", 6, none⟩)]⟩,
       ⟨[("https://example.com", "k2vewsVDgL"), ("https://example.com/page1", "EhR22OzKcP")]⟩⟩ ∧
    (Shorten parseFixtures (New memoryStorage ⟨"", 0⟩)
      (Shorten parseFixtures (New memoryStorage ⟨"", 1⟩)
        (Shorten parseFixtures (New memoryStorage ⟨"", 1⟩) NewMemoryStorage 0
          "https://example.com").2 5 "https://example.com").2 6
      "https://example.com/page1").2.OneRecordPerURL :=
  ⟨by decide, C11_one_record_per_url parseFixtures _
    (.shorten _ _ _ _ (.shorten _ _ _ _ (.shorten _ _ _ _ .init)))⟩

/-! ### `Shorten` and `Resolve` over an arbitrary store -/

/-- The loop of `Shorten` over an arbitrary store: it makes the `Save` calls of `m`
consecutive attempts, `m` at most the number of attempts left, and a result it returns is
the result of the last of them. -/
theorem shortenLoop_scripted_trace (b : Behaviour) (config : Config) (now : Int) (u : String) :
    ∀ (n attempt : Nat) (pre : List Call),
      ∃ m : Nat, m ≤ n ∧
        (shortenLoop (New (scripted b) config) now u n attempt pre).2 =
          pre ++ saveTrace (New (scripted b) config) now u attempt m ∧
        ∀ r, (shortenLoop (New (scripted b) config) now u n attempt pre).1 = .ok r →
          0 < m ∧ r = createdResult (New (scripted b) config) now u (attempt + (m - 1)) := by
  intro n
  induction n with
  | zero =>
    intro attempt pre
    exact ⟨0, Nat.le_refl 0, by simp [shortenLoop, saveTrace], fun r h => by cases h⟩
  | succ n ih =>
    intro attempt pre
    have hsave : (New (scripted b) config).storage.Save pre
        ((New (scripted b) config).newRecord now u attempt) now =
        (b.onSave pre ((New (scripted b) config).newRecord now u attempt) now,
          pre ++ [Call.Save ((New (scripted b) config).newRecord now u attempt)]) := rfl
    cases hout : b.onSave pre ((New (scripted b) config).newRecord now u attempt) now with
    | ok v =>
      rw [hout] at hsave
      rw [shortenLoop_succ_ok _ _ _ _ _ _ _ _ hsave]
      refine ⟨1, by omega, by simp [saveTrace], fun r h => ?_⟩
      cases h
      exact ⟨Nat.one_pos, by simp⟩
    | panic =>
      rw [hout] at hsave
      rw [shortenLoop_succ_panic _ _ _ _ _ _ _ hsave]
      exact ⟨1, by omega, by simp [saveTrace], fun r h => by cases h⟩
    | err e =>
      rw [hout] at hsave
      cases he : errorsIs e .ErrAlreadyExists with
      | false =>
        rw [shortenLoop_succ_abort _ _ _ _ _ _ _ _ hsave he]
        exact ⟨1, by omega, by simp [saveTrace], fun r h => by cases h⟩
      | true =>
        rw [shortenLoop_succ_collision _ _ _ _ _ _ _ _ hsave he]
        obtain ⟨m, hm, hst, hres⟩ := ih (attempt + 1)
          (pre ++ [Call.Save ((New (scripted b) config).newRecord now u attempt)])
        refine ⟨m + 1, by omega, ?_, fun r h => ?_⟩
        · rw [hst, saveTrace_succ]; simp
        · obtain ⟨hpos, hr⟩ := hres r h
          refine ⟨Nat.succ_pos m, ?_⟩
          rw [hr]
          congr 1
          omega

/-- What `Shorten` does over an arbitrary store once the URL is valid, by the outcome of
the lookup. -/
theorem Shorten_scripted_valid (parse : UrlParser) (b : Behaviour) (config : Config)
    (calls0 : List Call) (now : Int) (u : String) (hvalid : validateURL parse u = none) :
    Shorten parse (New (scripted b) config) calls0 now u =
      match b.onGetByOriginalURL calls0 u now with
      | .ok existing =>
        (.ok { ShortCode := existing.ShortCode,
               ShortURL := (New (scripted b) config).buildShortURL existing.ShortCode,
               OriginalURL := existing.OriginalURL, ExpiresAt := existing.ExpiresAt,
               IsNew := false }, calls0 ++ [Call.GetByOriginalURL u])
      | .panic => (.panic, calls0 ++ [Call.GetByOriginalURL u])
      | .err err =>
        if !errorsIs err .ErrNotFound && !errorsIs err .ErrExpired then
          (.err (.wrap "checking existing URL" err), calls0 ++ [Call.GetByOriginalURL u])
        else shortenLoop (New (scripted b) config) now u maxAttempts 0
          (calls0 ++ [Call.GetByOriginalURL u]) := by
  have hget : (New (scripted b) config).storage.GetByOriginalURL calls0 u now =
      (b.onGetByOriginalURL calls0 u now, calls0 ++ [Call.GetByOriginalURL u]) := rfl
  unfold Shorten
  rw [hvalid]
  simp only [hget]
  cases b.onGetByOriginalURL calls0 u now <;> rfl

/-- The verdict of `validateURL`, by cases on the input and on the answer of `url.Parse`. -/
theorem validateURL_cases (parse : UrlParser) (x : String) :
    (x = "" → validateURL parse x = some .ErrEmptyURL) ∧
    (x ≠ "" →
      (parse x = none ∨ ∃ p, parse x = some p ∧
        (p.Scheme = "" ∨ p.Host = "" ∨ (p.Scheme ≠ "http" ∧ p.Scheme ≠ "https"))) →
      validateURL parse x = some .ErrInvalidURL) ∧
    (x ≠ "" →
      ¬ (parse x = none ∨ ∃ p, parse x = some p ∧
        (p.Scheme = "" ∨ p.Host = "" ∨ (p.Scheme ≠ "http" ∧ p.Scheme ≠ "https"))) →
      validateURL parse x = none) := by
  refine ⟨fun h => by simp [validateURL, h], fun hx h => ?_, fun hx h => ?_⟩
  · rcases h with h | ⟨p, hp, h⟩
    · simp [validateURL, hx, h]
    · rcases h with h | h | ⟨h1, h2⟩
      · simp [validateURL, hx, hp, h]
      · simp [validateURL, hx, hp, h]
      · by_cases he : p.Scheme = "" ∨ p.Host = ""
        · simp only [validateURL, hx, hp, if_false, if_pos he]
        · simp only [validateURL, hx, hp, if_false, if_neg he]
          rw [if_pos ⟨h1, h2⟩]
  · cases hp : parse x with
    | none => exact absurd (Or.inl hp) h
    | some p =>
      have h1 : ¬ (p.Scheme = "" ∨ p.Host = "") := fun hh =>
        h (Or.inr ⟨p, hp, by rcases hh with hh | hh; exact Or.inl hh; exact Or.inr (Or.inl hh)⟩)
      have h2 : ¬ (p.Scheme ≠ "http" ∧ p.Scheme ≠ "https") := fun hh =>
        h (Or.inr ⟨p, hp, Or.inr (Or.inr hh)⟩)
      simp only [validateURL, hx, hp, if_false, if_neg h1, if_neg h2]

/-- C16: for every input string `x` and every store, `Shorten x` returns `ErrEmptyURL`
when `x` is empty, and `ErrInvalidURL` when `x` is non-empty and `url.Parse` fails on it
or parses it with an empty scheme, an empty host, or a scheme other than exactly `http`
or `https`; in both cases no store operation is performed (the list of calls made to the
store is as before). Every other input passes `validateURL` and reaches the store: the
first call `Shorten` makes is `GetByOriginalURL x`. -/
theorem C16_shorten_validation (parse : UrlParser) (b : Behaviour) (config : Config)
    (calls0 : List Call) (now : Int) (x : String) :
    (x = "" →
      Shorten parse (New (scripted b) config) calls0 now x = (.err .ErrEmptyURL, calls0)) ∧
    (x ≠ "" →
      (parse x = none ∨ ∃ p, parse x = some p ∧
        (p.Scheme = "" ∨ p.Host = "" ∨ (p.Scheme ≠ "http" ∧ p.Scheme ≠ "https"))) →
      Shorten parse (New (scripted b) config) calls0 now x = (.err .ErrInvalidURL, calls0)) ∧
    (x ≠ "" →
      ¬ (parse x = none ∨ ∃ p, parse x = some p ∧
        (p.Scheme = "" ∨ p.Host = "" ∨ (p.Scheme ≠ "http" ∧ p.Scheme ≠ "https"))) →
      validateURL parse x = none ∧
      ∃ later, (Shorten parse (New (scripted b) config) calls0 now x).2 =
        calls0 ++ Call.GetByOriginalURL x :: later) := by
  obtain ⟨h1, h2, h3⟩ := validateURL_cases parse x
  refine ⟨fun hx => ?_, fun hx h => ?_, fun hx h => ?_⟩
  · simp only [Shorten, h1 hx]
  · simp only [Shorten, h2 hx h]
  · refine ⟨h3 hx h, ?_⟩
    rw [Shorten_scripted_valid parse b config calls0 now x (h3 hx h)]
    cases b.onGetByOriginalURL calls0 x now with
    | ok existing => exact ⟨[], by simp⟩
    | panic => exact ⟨[], by simp⟩
    | err e =>
      simp only []
      split
      · exact ⟨[], by simp⟩
      · obtain ⟨m, _, hst, _⟩ := shortenLoop_scripted_trace b config now x maxAttempts 0
          (calls0 ++ [Call.GetByOriginalURL x])
        exact ⟨_, by rw [hst, List.append_assoc]; rfl⟩

/-- C17: for every valid URL `u` and every store whose `GetByOriginalURL u` returns a
record `e` without error, `Shorten u` succeeds with `ShortCode = e.ShortCode`,
`OriginalURL = e.OriginalURL`, `ExpiresAt = e.ExpiresAt` and `IsNew = false`, and the
lookup is the only call it makes to the store: no `Save` call. -/
theorem C17_returns_existing (parse : UrlParser) (b : Behaviour) (config : Config)
    (calls0 : List Call) (now : Int) (u : String) (e : URL)
    (hvalid : validateURL parse u = none)
    (hfound : b.onGetByOriginalURL calls0 u now = .ok e) :
    Shorten parse (New (scripted b) config) calls0 now u =
      (.ok { ShortCode := e.ShortCode,
             ShortURL := (New (scripted b) config).buildShortURL e.ShortCode,
             OriginalURL := e.OriginalURL, ExpiresAt := e.ExpiresAt, IsNew := false },
        calls0 ++ [Call.GetByOriginalURL u]) ∧
    saveCalls ((Shorten parse (New (scripted b) config) calls0 now u).2.drop calls0.length)
      = 0 := by
  have h := Shorten_scripted_valid parse b config calls0 now u hvalid
  rw [hfound] at h
  simp only [] at h
  refine ⟨h, ?_⟩
  rw [h]
  simp [saveCalls]

/-- An instance of C17: a store that knows `https://example.com` under the code
`aB3_xY9z12`. -/
theorem C17_returns_existing_witness :
    Shorten parseFixtures
        (New (scripted ⟨fun _ _ _ => .ok (), fun _ _ _ => .err .ErrNotFound,
          fun _ _ _ => .ok ⟨"aB3_xY9z12", "https://example.com", 3, some 9⟩⟩)
          ⟨"http://localhost:8080", 60⟩) [] 5 "https://example.com" =
      (.ok ⟨"aB3_xY9z12", "http://localhost:8080/aB3_xY9z12", "https://example.com", some 9,
        false⟩, [Call.GetByOriginalURL "https://example.com"]) :=
  (C17_returns_existing parseFixtures
    ⟨fun _ _ _ => .ok (), fun _ _ _ => .err .ErrNotFound,
      fun _ _ _ => .ok ⟨"aB3_xY9z12", "https://example.com", 3, some 9⟩⟩
    ⟨"http://localhost:8080", 60⟩ [] 5 "https://example.com"
    ⟨"aB3_xY9z12", "https://example.com", 3, some 9⟩ (by decide) rfl).1

theorem errorsIs_self (e : GoError) : errorsIs e e = true := by
  cases e <;> simp [errorsIs]

theorem saveTrace_succ_last {σ : Type} (svc : Shortener σ) (now : Int) (u : String)
    (attempt n : Nat) :
    saveTrace svc now u attempt (n + 1) =
      saveTrace svc now u attempt n ++ [Call.Save (svc.newRecord now u (attempt + n))] := by
  simp [saveTrace, List.range'_1_concat]

theorem mem_saveTrace {σ : Type} (svc : Shortener σ) (now : Int) (u : String)
    (attempt n : Nat) (c : Call) (h : c ∈ saveTrace svc now u attempt n) :
    ∃ i : Nat, c = Call.Save (svc.newRecord now u i) := by
  simp only [saveTrace, List.mem_map] at h
  obtain ⟨i, _, hi⟩ := h
  exact ⟨i, hi.symm⟩

/-- The loop of `Shorten` over a store that answers the first `k` `Save` calls of the loop
with a collision and the next one with an error that is not a collision. -/
theorem shortenLoop_scripted_abort (b : Behaviour) (config : Config) (now : Int) (u : String)
    (e : GoError) (he : errorsIs e .ErrAlreadyExists = false) :
    ∀ (k n attempt : Nat) (pre : List Call), k < n →
      (∀ j, j < k →
        b.onSave (pre ++ saveTrace (New (scripted b) config) now u attempt j)
          ((New (scripted b) config).newRecord now u (attempt + j)) now
          = .err .ErrAlreadyExists) →
      b.onSave (pre ++ saveTrace (New (scripted b) config) now u attempt k)
          ((New (scripted b) config).newRecord now u (attempt + k)) now = .err e →
      shortenLoop (New (scripted b) config) now u n attempt pre =
        (.err (.wrap "saving URL" e),
          pre ++ saveTrace (New (scripted b) config) now u attempt (k + 1)) := by
  intro k
  induction k with
  | zero =>
    intro n attempt pre hn _ hfail
    obtain ⟨m, rfl⟩ : ∃ m, n = m + 1 := ⟨n - 1, by omega⟩
    simp only [saveTrace, List.range'_zero, List.map_nil, List.append_nil, Nat.add_zero] at hfail
    have hsave : (New (scripted b) config).storage.Save pre
        ((New (scripted b) config).newRecord now u attempt) now =
        (.err e, pre ++ [Call.Save ((New (scripted b) config).newRecord now u attempt)]) := by
      show (b.onSave pre _ now, _) = _
      rw [hfail]
    rw [shortenLoop_succ_abort _ _ _ _ _ _ _ _ hsave he]
    simp [saveTrace]
  | succ k ih =>
    intro n attempt pre hn h hfail
    obtain ⟨m, rfl⟩ : ∃ m, n = m + 1 := ⟨n - 1, by omega⟩
    have h0 := h 0 (Nat.succ_pos k)
    simp only [saveTrace, List.range'_zero, List.map_nil, List.append_nil, Nat.add_zero] at h0
    have hsave : (New (scripted b) config).storage.Save pre
        ((New (scripted b) config).newRecord now u attempt) now =
        (.err .ErrAlreadyExists,
          pre ++ [Call.Save ((New (scripted b) config).newRecord now u attempt)]) := by
      show (b.onSave pre _ now, _) = _
      rw [h0]
    rw [shortenLoop_succ_collision _ _ _ _ _ _ _ _ hsave (by decide),
      ih m (attempt + 1) _ (by omega), saveTrace_succ _ _ _ attempt (k + 1)]
    · simp [Nat.add_assoc, Nat.add_comm 1 k]
    · intro j hj
      have := h (j + 1) (Nat.succ_lt_succ hj)
      rw [saveTrace_succ] at this
      simpa [Nat.add_assoc, Nat.add_comm 1 j] using this
    · rw [saveTrace_succ] at hfail
      simpa [Nat.add_assoc, Nat.add_comm 1 k] using hfail

/-- C18: for every valid URL `u` and every store. (1) If `GetByOriginalURL u` fails with
an error that is neither `ErrNotFound` nor `ErrExpired` (in the sense of `errors.Is`),
`Shorten` returns the error `checking existing URL: ...` wrapping it and makes no `Save`
call. (2) If the lookup reports `u` absent or expired, the `Save` calls of the attempts
before `i` (`i < 10`) report collisions and the `Save` call of attempt `i` fails with an
error that is not `ErrAlreadyExists` (in the sense of `errors.Is`), `Shorten` returns the
error `saving URL: ...` wrapping it after exactly `i + 1` `Save` calls, attempt `i + 1`
not being tried. In neither case is the error returned `ErrTooManyCollisions`. In (2) the
`Save` call of attempt `k` is the call `Shorten` makes: after the lookup and the `Save`
calls of the attempts before `k`, with the record of attempt `k`, at the instant of the
`Shorten` call; nothing is asked of the store on any other history, record or instant. -/
theorem C18_backend_failure_aborts (parse : UrlParser) (b : Behaviour) (config : Config)
    (calls0 : List Call) (now : Int) (u : String) (hvalid : validateURL parse u = none) :
    (∀ e, b.onGetByOriginalURL calls0 u now = .err e →
      errorsIs e .ErrNotFound = false → errorsIs e .ErrExpired = false →
      Shorten parse (New (scripted b) config) calls0 now u =
        (.err (.wrap "checking existing URL" e), calls0 ++ [Call.GetByOriginalURL u]) ∧
      errorsIs (.wrap "checking existing URL" e) e = true ∧
      saveCalls ((Shorten parse (New (scripted b) config) calls0 now u).2.drop calls0.length)
        = 0 ∧
      (Shorten parse (New (scripted b) config) calls0 now u).1 ≠ .err .ErrTooManyCollisions) ∧
    (∀ (i : Nat) (e : GoError), i < 10 →
      (b.onGetByOriginalURL calls0 u now = .err .ErrNotFound ∨
        b.onGetByOriginalURL calls0 u now = .err .ErrExpired) →
      (∀ k : Nat, k < i →
        b.onSave
          (calls0 ++ Call.GetByOriginalURL u :: (List.range k).map (fun j : Nat =>
            Call.Save { ShortCode := shortcode.Generate u j, OriginalURL := u, CreatedAt := now,
                        ExpiresAt := (New (scripted b) config).newExpiresAt now }))
          { ShortCode := shortcode.Generate u k, OriginalURL := u, CreatedAt := now,
            ExpiresAt := (New (scripted b) config).newExpiresAt now } now
        = .err .ErrAlreadyExists) →
      b.onSave
          (calls0 ++ Call.GetByOriginalURL u :: (List.range i).map (fun j : Nat =>
            Call.Save { ShortCode := shortcode.Generate u j, OriginalURL := u, CreatedAt := now,
                        ExpiresAt := (New (scripted b) config).newExpiresAt now }))
          { ShortCode := shortcode.Generate u i, OriginalURL := u, CreatedAt := now,
            ExpiresAt := (New (scripted b) config).newExpiresAt now } now
        = .err e →
      errorsIs e .ErrAlreadyExists = false →
      Shorten parse (New (scripted b) config) calls0 now u =
        (.err (.wrap "saving URL" e),
          calls0 ++ Call.GetByOriginalURL u :: (List.range (i + 1)).map (fun j : Nat =>
            Call.Save { ShortCode := shortcode.Generate u j, OriginalURL := u, CreatedAt := now,
                        ExpiresAt := (New (scripted b) config).newExpiresAt now })) ∧
      errorsIs (.wrap "saving URL" e) e = true ∧
      saveCalls ((Shorten parse (New (scripted b) config) calls0 now u).2.drop calls0.length)
        = i + 1 ∧
      (Shorten parse (New (scripted b) config) calls0 now u).1 ≠ .err .ErrTooManyCollisions) := by
  constructor
  · intro e hlook h1 h2
    have h := Shorten_scripted_valid parse b config calls0 now u hvalid
    rw [hlook] at h
    simp only [h1, h2, Bool.not_false, Bool.and_self, if_true] at h
    refine ⟨h, by simp [errorsIs, errorsIs_self], ?_, ?_⟩
    · rw [h]; simp [saveCalls]
    · rw [h]; simp
  · intro i e hi habsent hreject hfail he
    have hrun : Shorten parse (New (scripted b) config) calls0 now u =
        (.err (.wrap "saving URL" e),
          (calls0 ++ [Call.GetByOriginalURL u]) ++
            saveTrace (New (scripted b) config) now u 0 (i + 1)) := by
      rw [Shorten_scripted_enters_loop parse b config calls0 now u hvalid habsent]
      apply shortenLoop_scripted_abort b config now u e he i maxAttempts 0 _ hi
      · intro j hj
        have h := hreject j hj
        rw [lookup_then_saves_eq] at h
        rw [Nat.zero_add]
        exact h
      · rw [lookup_then_saves_eq] at hfail
        rw [Nat.zero_add]
        exact hfail
    refine ⟨?_, by simp [errorsIs, errorsIs_self], ?_, ?_⟩
    · rw [hrun]
      simp [saveTrace, List.range_eq_range', newRecord]
    · rw [hrun]
      simp only [List.append_assoc, List.drop_left, saveCalls_append, saveCalls_saveTrace]
      simp [saveCalls]
    · rw [hrun]; simp

set_option maxRecDepth 100000 in
/-- Three instances of C18: a store whose lookup fails with `connection refused`; a store
that reports two collisions and then fails its third `Save` with `deadline exceeded`; and
a store that answers as the relational store does in the state where the row of
`https://example.com` under the code of attempt 0 has expired, whose `Save` fails on that
record with `checking existing code: ...` wrapping `ErrExpired`. -/
theorem C18_backend_failure_aborts_witness :
    Shorten parseFixtures
        (New (scripted ⟨fun _ _ _ => .ok (), fun _ _ _ => .err .ErrNotFound,
          fun _ _ _ => .err (.other "connection refused")⟩) ⟨"", 0⟩) [] 0
        "https://example.com" =
      (.err (.wrap "checking existing URL" (.other "connection refused")),
        [] ++ [Call.GetByOriginalURL "https://example.com"]) ∧
    Shorten parseFixtures
        (New (scripted ⟨fun calls _ _ =>
            if saveCalls calls < 2 then .err .ErrAlreadyExists
            else .err (.other "deadline exceeded"),
          fun _ _ _ => .err .ErrNotFound, fun _ _ _ => .err .ErrNotFound⟩) ⟨"", 0⟩) [] 0
        "https://example.com" =
      (.err (.wrap "saving URL" (.other "deadline exceeded")),
        [] ++ Call.GetByOriginalURL "https://example.com" ::
          (List.range (2 + 1)).map (fun j : Nat =>
            Call.Save { ShortCode := shortcode.Generate "https://example.com" j,
                        OriginalURL := "https://example.com", CreatedAt := 0,
                        ExpiresAt := none })) ∧
    Shorten parseFixtures
        (New (scripted
          ⟨fun _ r t =>
            (PostgresStorage.Save ⟨[⟨"k2vewsVDgL", "https://example.com", 0, some 1⟩]⟩ r t).1,
           fun _ code t =>
            PostgresStorage.GetByCode ⟨[⟨"k2vewsVDgL", "https://example.com", 0, some 1⟩]⟩
              code t,
           fun _ originalURL t =>
            PostgresStorage.GetByOriginalURL
              ⟨[⟨"k2vewsVDgL", "https://example.com", 0, some 1⟩]⟩ originalURL t⟩)
          ⟨"", 1⟩) [] 5 "https://example.com" =
      (.err (.wrap "saving URL" (.wrap "checking existing code" .ErrExpired)),
        [] ++ Call.GetByOriginalURL "https://example.com" ::
          (List.range (0 + 1)).map (fun j : Nat =>
            Call.Save { ShortCode := shortcode.Generate "https://example.com" j,
                        OriginalURL := "https://example.com", CreatedAt := 5,
                        ExpiresAt := some 6 })) :=
  ⟨((C18_backend_failure_aborts parseFixtures
      ⟨fun _ _ _ => .ok (), fun _ _ _ => .err .ErrNotFound,
        fun _ _ _ => .err (.other "connection refused")⟩ ⟨"", 0⟩ [] 0
      "https://example.com" (by decide)).1 (.other "connection refused") rfl
      (by decide) (by decide)).1,
   ((C18_backend_failure_aborts parseFixtures
      ⟨fun calls _ _ =>
          if saveCalls calls < 2 then .err .ErrAlreadyExists
          else .err (.other "deadline exceeded"),
        fun _ _ _ => .err .ErrNotFound, fun _ _ _ => .err .ErrNotFound⟩ ⟨"", 0⟩ [] 0
      "https://example.com" (by decide)).2 2 (.other "deadline exceeded") (by decide)
      (Or.inl rfl)
      (fun k hk => by
        show (if saveCalls ([] ++ _ :: (List.range k).map (fun j : Nat => Call.Save _)) < 2
          then _ else _) = _
        rw [List.nil_append, saveCalls_lookup_then_saves, if_pos (by simp [saveCalls]; omega)])
      (by decide)
      (by decide)).1,
   ((C18_backend_failure_aborts parseFixtures
      ⟨fun _ r t =>
        (PostgresStorage.Save ⟨[⟨"k2vewsVDgL", "https://example.com", 0, some 1⟩]⟩ r t).1,
       fun _ code t =>
        PostgresStorage.GetByCode ⟨[⟨"k2vewsVDgL", "https://example.com", 0, some 1⟩]⟩
          code t,
       fun _ originalURL t =>
        PostgresStorage.GetByOriginalURL
          ⟨[⟨"k2vewsVDgL", "https://example.com", 0, some 1⟩]⟩ originalURL t⟩
      ⟨"", 1⟩ [] 5 "https://example.com" (by decide)).2 0
      (.wrap "checking existing code" .ErrExpired) (by decide)
      (Or.inr (by decide))
      (fun k hk => absurd hk (Nat.not_lt_zero k))
      (by decide)
      (by decide)).1⟩

/-- C19: whenever `Shorten` creates a new record at the instant `now` (its result is
tagged `IsNew = true`), the result carries `ExpiresAt = now + DefaultTTL` when
`DefaultTTL > 0` and no `ExpiresAt` when `DefaultTTL` is zero or negative; the last call
made to the store is the `Save` of a record with the code of the result, the URL
shortened, `CreatedAt = now` and the `ExpiresAt` of the result; and every record passed to
`Save` during the call carries that same `ExpiresAt`. -/
theorem C19_new_record_expiration (parse : UrlParser) (b : Behaviour) (config : Config)
    (calls0 calls : List Call) (now : Int) (u : String) (r : ShortenResult)
    (hrun : Shorten parse (New (scripted b) config) calls0 now u = (.ok r, calls))
    (hnew : r.IsNew = true) :
    (config.DefaultTTL > 0 → r.ExpiresAt = some (now + config.DefaultTTL)) ∧
    (config.DefaultTTL ≤ 0 → r.ExpiresAt = none) ∧
    (∃ (earlier : List Call) (rec : URL), calls = earlier ++ [Call.Save rec] ∧
      rec.ExpiresAt = r.ExpiresAt ∧ rec.ShortCode = r.ShortCode ∧ rec.OriginalURL = u ∧
      rec.CreatedAt = now) ∧
    (∀ rec, Call.Save rec ∈ calls.drop calls0.length → rec.ExpiresAt = r.ExpiresAt) := by
  cases hvalid : validateURL parse u with
  | some e => simp [Shorten, hvalid] at hrun
  | none =>
    have h := Shorten_scripted_valid parse b config calls0 now u hvalid
    rw [hrun] at h
    cases hlook : b.onGetByOriginalURL calls0 u now with
    | ok existing =>
      rw [hlook] at h
      simp only [Prod.mk.injEq, Outcome.ok.injEq] at h
      rw [h.1] at hnew
      cases hnew
    | panic => rw [hlook] at h; simp at h
    | err e =>
      rw [hlook] at h
      simp only [] at h
      split at h
      · simp at h
      · obtain ⟨m, _, hst, hres⟩ := shortenLoop_scripted_trace b config now u maxAttempts 0
          (calls0 ++ [Call.GetByOriginalURL u])
        rw [← h] at hst hres
        obtain ⟨hpos, hr⟩ := hres r rfl
        obtain ⟨m1, rfl⟩ : ∃ m1, m = m1 + 1 := ⟨m - 1, by omega⟩
        simp only [] at hst
        have hexp : r.ExpiresAt = (New (scripted b) config).newExpiresAt now := by
          rw [hr]; rfl
        refine ⟨?_, ?_, ?_, ?_⟩
        · intro hpos
          rw [hexp]
          simp [newExpiresAt, New, hpos]
        · intro hle
          rw [hexp]
          simp [newExpiresAt, New, not_lt.2 hle]
        · refine ⟨calls0 ++ [Call.GetByOriginalURL u] ++
              saveTrace (New (scripted b) config) now u 0 m1,
            (New (scripted b) config).newRecord now u (0 + m1), ?_, ?_, ?_, rfl, rfl⟩
          · rw [hst, saveTrace_succ_last, ← List.append_assoc]
          · rw [hexp]; rfl
          · rw [hr]; simp [newRecord, createdResult]
        · intro rec hmem
          rw [hst, List.append_assoc, List.drop_left] at hmem
          rcases List.mem_append.1 hmem with hm | hm
          · simp at hm
          · obtain ⟨i, hi⟩ := mem_saveTrace _ _ _ _ _ _ hm
            cases hi
            rw [hexp]; rfl

set_option maxRecDepth 100000 in
/-- An instance of C19: `https://example.com` shortened at instant 100 with a TTL of 3600
over a store that accepts every `Save`. -/
theorem C19_new_record_expiration_witness :
    Shorten parseFixtures (New (scripted (mockStorage 0)) ⟨"http://localhost:8080", 3600⟩) []
        100 "https://example.com" =
      (.ok ⟨"k2vewsVDgL", "http://localhost:8080/k2vewsVDgL", "https://example.com",
          some 3700, true⟩,
        [Call.GetByOriginalURL "https://example.com",
         Call.Save ⟨"k2vewsVDgL", "https://example.com", 100, some 3700⟩]) ∧
    (some 3700 : Option Int) = some (100 + 3600) ∧
    (∀ rec, Call.Save rec ∈
        [Call.GetByOriginalURL "https://example.com",
         Call.Save ⟨"k2vewsVDgL", "https://example.com", 100, some 3700⟩].drop
          ([] : List Call).length →
      rec.ExpiresAt = some 3700) :=
  have hrun : Shorten parseFixtures
      (New (scripted (mockStorage 0)) ⟨"http://localhost:8080", 3600⟩) [] 100
      "https://example.com" =
      (.ok ⟨"k2vewsVDgL", "http://localhost:8080/k2vewsVDgL", "https://example.com",
          some 3700, true⟩,
        [Call.GetByOriginalURL "https://example.com",
         Call.Save ⟨"k2vewsVDgL", "https://example.com", 100, some 3700⟩]) := by decide
  have h := C19_new_record_expiration parseFixtures (mockStorage 0)
    ⟨"http://localhost:8080", 3600⟩ [] _ 100 "https://example.com" _ hrun rfl
  ⟨hrun, h.1 (by decide), h.2.2.2⟩

/-- C20: for every string `code` with `IsValid code = false` and every store, `Resolve code`
returns `ErrCodeNotFound` (with the empty string) and leaves the store untouched: over a
store that records its calls, no call is recorded. -/
theorem C20_resolve_short_circuit {σ : Type} (svc : Shortener σ) (s : σ) (now : Int)
    (code : String) (hbad : shortcode.IsValid code = false) :
    Resolve svc s now code = (.err .ErrCodeNotFound, s) := by
  simp [Resolve, hbad]

/-- An instance of C20: the code `short` of the test, over a store that records its calls;
the record of calls stays empty. -/
theorem C20_resolve_short_circuit_witness :
    Resolve (New (scripted (mockStorage 0)) ⟨"http://localhost:8080", 0⟩) [] 0 "short" =
      (.err .ErrCodeNotFound, []) :=
  C20_resolve_short_circuit _ [] 0 "short" (by decide)

end service

namespace shortcode

/-! ### The number a code denotes -/

theorem alphabetIndex_alphabetAt (k : Nat) (h : k < 63) : alphabetIndex (alphabetAt k) = k := by
  revert k
  decide

/-- Reading a character list as a base-63 numeral, most significant digit first. -/
theorem foldl_encodeLoop (i num : Nat) (acc : List Char) (a : Nat) :
    (encodeLoop i num acc).foldl (fun v c => v * 63 + alphabetIndex c) a =
      acc.foldl (fun v c => v * 63 + alphabetIndex c) (a * 63 ^ i + num % 63 ^ i) := by
  induction i generalizing num acc with
  | zero => simp [encodeLoop, Nat.mod_one]
  | succ i ih =>
    simp only [encodeLoop]
    rw [ih, alphabetLen_eq]
    simp only [List.foldl_cons]
    rw [alphabetIndex_alphabetAt _ (Nat.mod_lt _ (by decide))]
    congr 1
    have h : num % 63 ^ (i + 1) = num % 63 + 63 * (num / 63 % 63 ^ i) := by
      rw [pow_succ, Nat.mul_comm, Nat.mod_mul]
    rw [h, pow_succ]
    ring

theorem codeValue_eq_foldl (code : String) (h : code.data.length = 10) :
    codeValue code = code.data.foldl (fun v c => v * 63 + alphabetIndex c) 0 := by
  obtain ⟨l⟩ := code
  simp only at h
  match l, h with
  | [c0, c1, c2, c3, c4, c5, c6, c7, c8, c9], _ =>
    simp [codeValue, Length, alphabetLen_eq, List.range, List.range.loop]
    ring

theorem codeValue_encode (n : Nat) : codeValue (encode n) = n % 63 ^ 10 := by
  rw [codeValue_eq_foldl (encode n) (encode_props n).1]
  show (encodeLoop Length n []).foldl _ 0 = _
  rw [foldl_encodeLoop]
  simp [Length]

/-- The digest of `Sum256` is made of bytes. -/
theorem toBytesBE_lt (n x : Nat) : ∀ b ∈ Sha256.toBytesBE n x, b < 256 := by
  induction n with
  | zero => simp [Sha256.toBytesBE]
  | succ n ih =>
    intro b hb
    simp only [Sha256.toBytesBE, List.mem_cons] at hb
    rcases hb with rfl | hb
    · exact Nat.mod_lt _ (by decide)
    · exact ih b hb

theorem Sum256_lt (msg : List Nat) : ∀ b ∈ Sha256.Sum256 msg, b < 256 := by
  intro b hb
  simp only [Sha256.Sum256, List.mem_flatMap] at hb
  obtain ⟨w, _, hw⟩ := hb
  exact toBytesBE_lt 4 w b hw

theorem fromBytesBE_lt (bs : List Nat) (h : ∀ b ∈ bs, b < 256) :
    Sha256.fromBytesBE bs < 256 ^ bs.length := by
  have key : ∀ (l : List Nat) (a : Nat), (∀ b ∈ l, b < 256) →
      l.foldl (fun acc b => acc * 256 + b) a < (a + 1) * 256 ^ l.length := by
    intro l
    induction l with
    | nil => intro a _; simp
    | cons x l ih =>
      intro a hl
      simp only [List.foldl_cons, List.length_cons]
      have hx := hl x (List.mem_cons_self _ _)
      have := ih (a * 256 + x) (fun b hb => hl b (List.mem_cons_of_mem _ hb))
      calc l.foldl (fun acc b => acc * 256 + b) (a * 256 + x)
          < (a * 256 + x + 1) * 256 ^ l.length := this
        _ ≤ ((a + 1) * 256) * 256 ^ l.length := by
            apply Nat.mul_le_mul_right
            nlinarith
        _ = (a + 1) * 256 ^ (l.length + 1) := by ring
  simpa [Sha256.fromBytesBE] using key bs 0 h

/-- C22: `encode` is fixed-width base 63, most significant digit first: for every `n`
(in particular every 64-bit unsigned `n`), the ten characters of `encode n` are alphabet
characters whose positions in `alphabet`, weighted by `63 ^ (9 - i)`, sum to
`n mod 63 ^ 10`; so for `n < 63 ^ 10` the code denotes `n` itself, padded on the left with
`a`, the digit zero. `Generate u 0` is `encode` of the first 8 bytes of the SHA-256 digest
of `u` read big-endian, a number below `2 ^ 64`. -/
theorem C22_encode_is_base63 :
    (∀ n : Nat, (encode n).length = 10 ∧ (∀ c ∈ (encode n).data, c ∈ alphabet.data) ∧
      codeValue (encode n) = n % 63 ^ 10) ∧
    (∀ n : Nat, n < 63 ^ 10 → codeValue (encode n) = n) ∧
    (alphabetIndex 'a' = 0 ∧ alphabetAt 0 = 'a' ∧ encode 0 = "aaaaaaaaaa" ∧
      encode 62 = "aaaaaaaaa_" ∧ encode 63 = "aaaaaaaaba") ∧
    (∀ u : String,
      Generate u 0 = encode (Sha256.fromBytesBE ((Sha256.Sum256 (bytesOf u)).take 8)) ∧
      Sha256.fromBytesBE ((Sha256.Sum256 (bytesOf u)).take 8) < 2 ^ 64) := by
  refine ⟨fun n => ⟨(encode_props n).1, (encode_props n).2, codeValue_encode n⟩, ?_,
    ⟨by decide, by decide, by decide, by decide, by decide⟩, fun u => ⟨rfl, ?_⟩⟩
  · intro n hn
    rw [codeValue_encode, Nat.mod_eq_of_lt hn]
  · have h := fromBytesBE_lt ((Sha256.Sum256 (bytesOf u)).take 8)
      (fun b hb => Sum256_lt _ b (List.mem_of_mem_take hb))
    have hlen : ((Sha256.Sum256 (bytesOf u)).take 8).length ≤ 8 := by
      rw [List.length_take]; exact Nat.min_le_left _ _
    calc Sha256.fromBytesBE ((Sha256.Sum256 (bytesOf u)).take 8)
        < 256 ^ ((Sha256.Sum256 (bytesOf u)).take 8).length := h
      _ ≤ 256 ^ 8 := Nat.pow_le_pow_right (by decide) hlen
      _ = 2 ^ 64 := by norm_num

set_option maxRecDepth 100000 in
/-- C25: for `u = "https://example.com"`, the three codes `Generate u 0`, `Generate u 1`
and `Generate u 2` are pairwise distinct; they are `encode` of the big-endian first 8
bytes of the SHA-256 digests of `u`, `u#1` and `u#2`. -/
theorem C25_attempts_differ_on_fixture :
    Generate "https://example.com" 0 = "k2vewsVDgL" ∧
    Generate "https://example.com" 1 = "yMHETAqj9h" ∧
    Generate "https://example.com" 2 = "3oUwXGkoIN" ∧
    Generate "https://example.com" 0 ≠ Generate "https://example.com" 1 ∧
    Generate "https://example.com" 1 ≠ Generate "https://example.com" 2 ∧
    Generate "https://example.com" 0 ≠ Generate "https://example.com" 2 ∧
    hashInput "https://example.com" 0 = "https://example.com" ∧
    hashInput "https://example.com" 1 = "https://example.com#1" ∧
    hashInput "https://example.com" 2 = "https://example.com#2" ∧
    (∀ a : Int, Generate "https://example.com" a =
      encode (Sha256.fromBytesBE
        ((Sha256.Sum256 (bytesOf (hashInput "https://example.com" a))).take 8))) := by
  have h0 : Generate "https://example.com" 0 = "k2vewsVDgL" := by decide
  have h1 : Generate "https://example.com" 1 = "yMHETAqj9h" := by decide
  have h2 : Generate "https://example.com" 2 = "3oUwXGkoIN" := by decide
  refine ⟨h0, h1, h2, ?_, ?_, ?_, by decide, by decide, by decide, fun a => rfl⟩
  · rw [h0, h1]; decide
  · rw [h1, h2]; decide
  · rw [h0, h2]; decide

end shortcode

namespace service

open storage Shortener

/-- What `Resolve` does over an arbitrary store for a well-formed code, by the outcome of
the lookup. -/
theorem Resolve_scripted_valid (b : Behaviour) (config : Config) (calls0 : List Call)
    (now : Int) (c : String) (hvalid : shortcode.IsValid c = true) :
    Resolve (New (scripted b) config) calls0 now c =
      match b.onGetByCode calls0 c now with
      | .err err =>
        if errorsIs err .ErrNotFound || errorsIs err .ErrExpired then
          (.err .ErrCodeNotFound, calls0 ++ [Call.GetByCode c])
        else (.err (.wrap "getting URL" err), calls0 ++ [Call.GetByCode c])
      | .panic => (.panic, calls0 ++ [Call.GetByCode c])
      | .ok urlRecord => (.ok urlRecord.OriginalURL, calls0 ++ [Call.GetByCode c]) := by
  have hget : (New (scripted b) config).storage.GetByCode calls0 c now =
      (b.onGetByCode calls0 c now, calls0 ++ [Call.GetByCode c]) := rfl
  unfold Resolve
  simp only [hvalid, Bool.not_true, Bool.false_eq_true, if_false, hget]
  cases b.onGetByCode calls0 c now <;> rfl

/-- C21: for every well-formed code `c` and every store, `Resolve c` makes the one call
`GetByCode c` and returns the `OriginalURL` of the record when that call succeeds; exactly
`ErrCodeNotFound` when it fails with `ErrNotFound` or with `ErrExpired` (in the sense of
`errors.Is`); and, for every other store error, the error `getting URL: ...`, which wraps
the store error and is not `ErrCodeNotFound`. -/
theorem C21_resolve_outcomes (b : Behaviour) (config : Config) (calls0 : List Call)
    (now : Int) (c : String) (hvalid : shortcode.IsValid c = true) :
    (∀ rec, b.onGetByCode calls0 c now = .ok rec →
      Resolve (New (scripted b) config) calls0 now c =
        (.ok rec.OriginalURL, calls0 ++ [Call.GetByCode c])) ∧
    (∀ e, b.onGetByCode calls0 c now = .err e →
      (errorsIs e .ErrNotFound = true ∨ errorsIs e .ErrExpired = true) →
      Resolve (New (scripted b) config) calls0 now c =
        (.err .ErrCodeNotFound, calls0 ++ [Call.GetByCode c])) ∧
    (∀ e, b.onGetByCode calls0 c now = .err e →
      errorsIs e .ErrNotFound = false → errorsIs e .ErrExpired = false →
      Resolve (New (scripted b) config) calls0 now c =
        (.err (.wrap "getting URL" e), calls0 ++ [Call.GetByCode c]) ∧
      errorsIs (.wrap "getting URL" e) e = true ∧
      GoError.wrap "getting URL" e ≠ .ErrCodeNotFound) := by
  have h := Resolve_scripted_valid b config calls0 now c hvalid
  refine ⟨fun rec hrec => ?_, fun e he hkind => ?_, fun e he h1 h2 => ?_⟩
  · rw [hrec] at h; exact h
  · rw [he] at h
    rcases hkind with hk | hk <;> simpa [hk] using h
  · rw [he] at h
    refine ⟨by simpa [h1, h2] using h, by simp [errorsIs, errorsIs_self], by simp⟩

/-- An instance of C21: a well-formed code over a store whose lookup succeeds, reports
absence, reports expiry, or fails with `connection refused`. -/
theorem C21_resolve_outcomes_witness :
    Resolve (New (scripted ⟨fun _ _ _ => .ok (),
        fun _ _ _ => .ok ⟨"aB3_xY9z12", "https://example.com", 0, none⟩,
        fun _ _ _ => .err .ErrNotFound⟩) ⟨"", 0⟩) [] 0 "aB3_xY9z12" =
      (.ok "https://example.com", [] ++ [Call.GetByCode "aB3_xY9z12"]) ∧
    Resolve (New (scripted (mockStorage 0)) ⟨"", 0⟩) [] 0 "nonexist12" =
      (.err .ErrCodeNotFound, [] ++ [Call.GetByCode "nonexist12"]) ∧
    Resolve (New (scripted ⟨fun _ _ _ => .ok (), fun _ _ _ => .err .ErrExpired,
        fun _ _ _ => .err .ErrNotFound⟩) ⟨"", 0⟩) [] 0 "expired123" =
      (.err .ErrCodeNotFound, [] ++ [Call.GetByCode "expired123"]) ∧
    Resolve (New (scripted ⟨fun _ _ _ => .ok (),
        fun _ _ _ => .err (.other "connection refused"),
        fun _ _ _ => .err .ErrNotFound⟩) ⟨"", 0⟩) [] 0 "aB3_xY9z12" =
      (.err (.wrap "getting URL" (.other "connection refused")),
        [] ++ [Call.GetByCode "aB3_xY9z12"]) :=
  ⟨(C21_resolve_outcomes ⟨fun _ _ _ => .ok (),
        fun _ _ _ => .ok ⟨"aB3_xY9z12", "https://example.com", 0, none⟩,
        fun _ _ _ => .err .ErrNotFound⟩ ⟨"", 0⟩ [] 0 "aB3_xY9z12" (by decide)).1 _ rfl,
   (C21_resolve_outcomes (mockStorage 0) ⟨"", 0⟩ [] 0 "nonexist12" (by decide)).2.1 _ rfl
      (Or.inl (by decide)),
   (C21_resolve_outcomes ⟨fun _ _ _ => .ok (), fun _ _ _ => .err .ErrExpired,
        fun _ _ _ => .err .ErrNotFound⟩ ⟨"", 0⟩ [] 0 "expired123" (by decide)).2.1 _ rfl
      (Or.inr (by decide)),
   ((C21_resolve_outcomes ⟨fun _ _ _ => .ok (),
        fun _ _ _ => .err (.other "connection refused"),
        fun _ _ _ => .err .ErrNotFound⟩ ⟨"", 0⟩ [] 0 "aB3_xY9z12" (by decide)).2.2 _ rfl
      (by decide) (by decide)).1⟩

/-! ### Codes stored and returned under serial use -/

theorem ReachableByShorten.reachable {parse : UrlParser} {s : MemoryStorage}
    (h : ReachableByShorten parse s) : Reachable parse s := by
  induction h with
  | init => exact Reachable.init
  | shorten s config now u _ ih => exact Reachable.shorten s config now u ih

/-- C23: in every state of the in-memory store reachable from the empty store through
`Shorten` calls only, every stored record is filed under its own `ShortCode`, which
satisfies `IsValid` (length 10, alphabet characters only), and the `ShortCode` of every
successful `Shorten` result satisfies `IsValid`. -/
theorem C23_codes_are_valid (parse : UrlParser) (s : MemoryStorage)
    (hreach : ReachableByShorten parse s) :
    (∀ code rec, s.byCode.get code = some rec →
      rec.ShortCode = code ∧ shortcode.IsValid rec.ShortCode = true) ∧
    (∀ (config : Config) (now : Int) (u : String) (r : ShortenResult) (s1 : MemoryStorage),
      Shorten parse (New memoryStorage config) s now u = (.ok r, s1) →
      shortcode.IsValid r.ShortCode = true) := by
  have hstored : ∀ code rec, s.byCode.get code = some rec →
      rec.ShortCode = code ∧ shortcode.IsValid rec.ShortCode = true := by
    intro code rec h
    have h1 := hreach.reachable.consistent.1 code rec h
    obtain ⟨k, hk, _⟩ := hreach.firstFit code rec h
    exact ⟨h1, by rw [h1, hk]; exact shortcode.IsValid_Generate _ _⟩
  refine ⟨hstored, ?_⟩
  intro config now u r s1 hrun
  rcases Shorten_memory parse config s now u with ⟨e, h⟩ | h | ⟨x, hx, h⟩ | ⟨k, _, _, h⟩
  · rw [h] at hrun; cases hrun
  · rw [h] at hrun; cases hrun
  · rw [h] at hrun
    cases hrun
    unfold MemoryStorage.GetByOriginalURL at hx
    split at hx
    · cases hx
    · split at hx
      · cases hx
      · rename_i url hurl
        split at hx
        · cases hx
        · cases hx
          exact (hstored _ _ hurl).2
  · rw [h] at hrun
    cases hrun
    exact shortcode.IsValid_Generate _ _

set_option maxRecDepth 100000 in
/-- An instance of C23: the store after `https://example.com` and
`https://example.com/page1` were shortened, and a further `Shorten` of the first URL. -/
theorem C23_codes_are_valid_witness :
    (∀ code rec,
      (Shorten parseFixtures (New memoryStorage ⟨"", 0⟩)
        (Shorten parseFixtures (New memoryStorage ⟨"", 0⟩) NewMemoryStorage 0
          "https://example.com").2 1 "https://example.com/page1").2.byCode.get code = some rec →
      rec.ShortCode = code ∧ shortcode.IsValid rec.ShortCode = true) ∧
    (Shorten parseFixtures (New memoryStorage ⟨"", 0⟩)
      (Shorten parseFixtures (New memoryStorage ⟨"", 0⟩)
        (Shorten parseFixtures (New memoryStorage ⟨"", 0⟩) NewMemoryStorage 0
          "https://example.com").2 1 "https://example.com/page1").2 2 "https://example.com").1 =
      .ok ⟨"k2vewsVDgL", "k2vewsVDgL", "https://example.com", none, false⟩ ∧
    shortcode.IsValid "k2vewsVDgL" = true :=
  have h := C23_codes_are_valid parseFixtures _
    (.shorten _ ⟨"", 0⟩ 1 "https://example.com/page1"
      (.shorten _ ⟨"", 0⟩ 0 "https://example.com" .init))
  have hrun : Shorten parseFixtures (New memoryStorage ⟨"", 0⟩)
      (Shorten parseFixtures (New memoryStorage ⟨"", 0⟩)
        (Shorten parseFixtures (New memoryStorage ⟨"", 0⟩) NewMemoryStorage 0
          "https://example.com").2 1 "https://example.com/page1").2 2 "https://example.com" =
      (.ok ⟨"k2vewsVDgL", "k2vewsVDgL", "https://example.com", none, false⟩,
        (Shorten parseFixtures (New memoryStorage ⟨"", 0⟩)
          (Shorten parseFixtures (New memoryStorage ⟨"", 0⟩) NewMemoryStorage 0
            "https://example.com").2 1 "https://example.com/page1").2) := by decide
  ⟨h.1, by rw [hrun], h.2 ⟨"", 0⟩ 2 "https://example.com" _ _ hrun⟩

/-- C26: the `ShortURL` of every `Shorten` result is built from its `ShortCode` and the
configured base URL `b`: it is the code itself when `b` is the empty string and
`b + "/" + code` otherwise; the `ShortCode` field is the bare code (the code of the record
found, or the generated code of the record created). With `b = "http://localhost:8080"`
and the code `aB3_xY9z12` the link is `http://localhost:8080/aB3_xY9z12`. -/
theorem C26_short_link_composition (parse : UrlParser) (b : Behaviour) (config : Config)
    (calls0 calls : List Call) (now : Int) (u : String) (r : ShortenResult)
    (hrun : Shorten parse (New (scripted b) config) calls0 now u = (.ok r, calls)) :
    (config.BaseURL = "" → r.ShortURL = r.ShortCode) ∧
    (config.BaseURL ≠ "" → r.ShortURL = config.BaseURL ++ "/" ++ r.ShortCode) ∧
    ((∃ e, b.onGetByOriginalURL calls0 u now = .ok e ∧ r.ShortCode = e.ShortCode) ∨
      ∃ k : Nat, r.ShortCode = shortcode.Generate u k) ∧
    (∀ code : String, (New (scripted b) ⟨"", config.DefaultTTL⟩).buildShortURL code = code) ∧
    (New (scripted b) ⟨"http://localhost:8080", config.DefaultTTL⟩).buildShortURL "aB3_xY9z12" =
      "http://localhost:8080/aB3_xY9z12" := by
  have hbuild : r.ShortURL = (New (scripted b) config).buildShortURL r.ShortCode ∧
      ((∃ e, b.onGetByOriginalURL calls0 u now = .ok e ∧ r.ShortCode = e.ShortCode) ∨
        ∃ k : Nat, r.ShortCode = shortcode.Generate u k) := by
    cases hvalid : validateURL parse u with
    | some e => simp [Shorten, hvalid] at hrun
    | none =>
      have h := Shorten_scripted_valid parse b config calls0 now u hvalid
      rw [hrun] at h
      cases hlook : b.onGetByOriginalURL calls0 u now with
      | ok existing =>
        rw [hlook] at h
        simp only [Prod.mk.injEq, Outcome.ok.injEq] at h
        rw [h.1]
        exact ⟨rfl, Or.inl ⟨existing, rfl, rfl⟩⟩
      | panic => rw [hlook] at h; simp at h
      | err e =>
        rw [hlook] at h
        simp only [] at h
        split at h
        · simp at h
        · obtain ⟨m, _, _, hres⟩ := shortenLoop_scripted_trace b config now u maxAttempts 0
            (calls0 ++ [Call.GetByOriginalURL u])
          rw [← h] at hres
          obtain ⟨_, hr⟩ := hres r rfl
          rw [hr]
          exact ⟨rfl, Or.inr ⟨_, rfl⟩⟩
  refine ⟨fun hb => ?_, fun hb => ?_, hbuild.2, fun code => ?_, ?_⟩
  · rw [hbuild.1]; simp [buildShortURL, New, hb]
  · rw [hbuild.1]; simp [buildShortURL, New, hb]
  · simp [buildShortURL, New]
  · show (if ("http://localhost:8080" : String) = "" then _ else _) = _
    rw [if_neg (by decide)]
    show ("http://localhost:8080" : String) ++ "/" ++ "aB3_xY9z12" = _
    decide

/-- An instance of C26: a store that knows `https://example.com` under `aB3_xY9z12`, with
the base URL of the test. -/
theorem C26_short_link_composition_witness :
    Shorten parseFixtures
        (New (scripted ⟨fun _ _ _ => .ok (), fun _ _ _ => .err .ErrNotFound,
          fun _ _ _ => .ok ⟨"aB3_xY9z12", "https://example.com", 3, none⟩⟩)
          ⟨"http://localhost:8080", 0⟩) [] 5 "https://example.com" =
      (.ok ⟨"aB3_xY9z12", "http://localhost:8080/aB3_xY9z12", "https://example.com", none,
        false⟩, [Call.GetByOriginalURL "https://example.com"]) ∧
    "http://localhost:8080/aB3_xY9z12" = "http://localhost:8080" ++ "/" ++ "aB3_xY9z12" :=
  have hrun : Shorten parseFixtures
      (New (scripted ⟨fun _ _ _ => .ok (), fun _ _ _ => .err .ErrNotFound,
        fun _ _ _ => .ok ⟨"aB3_xY9z12", "https://example.com", 3, none⟩⟩)
        ⟨"http://localhost:8080", 0⟩) [] 5 "https://example.com" =
      (.ok ⟨"aB3_xY9z12", "http://localhost:8080/aB3_xY9z12", "https://example.com", none,
        false⟩, [Call.GetByOriginalURL "https://example.com"]) := by decide
  ⟨hrun, (C26_short_link_composition parseFixtures _ ⟨"http://localhost:8080", 0⟩ [] _ 5
    "https://example.com" _ hrun).2.1 (by decide)⟩

end service

/-- An error is, in the sense of `errors.Is`, at most one of two different sentinels. -/
theorem errorsIs_sentinel_unique (e t1 t2 : GoError)
    (h1 : ∀ p x, t1 ≠ .wrap p x) (h2 : ∀ p x, t2 ≠ .wrap p x)
    (hne : t1 ≠ t2) (he1 : errorsIs e t1 = true) : errorsIs e t2 = false := by
  induction e with
  | wrap p x ih =>
    simp only [errorsIs, Bool.or_eq_true, decide_eq_true_eq] at he1
    rcases he1 with he1 | he1
    · exact absurd he1.symm (h1 p x)
    · simp only [errorsIs, Bool.or_eq_false_iff, decide_eq_false_iff_not]
      exact ⟨fun h => h2 p x h.symm, ih he1⟩
  | _ =>
    simp only [errorsIs, decide_eq_true_eq] at he1
    subst he1
    simp only [errorsIs, decide_eq_false_iff_not]
    exact hne

namespace handler

/-- C27: `handleServiceError` answers an error that is `ErrEmptyURL` with status 400 and
the error code `empty_url`, an error that is `ErrInvalidURL` with status 400 and
`invalid_url`, and every other error (`ErrTooManyCollisions`, any wrapped backend error)
with status 500, the error code `internal_error` and one of two fixed messages; the
response is decided by which of the three sentinels the error is (in the sense of
`errors.Is`) and by nothing else, so the text of the underlying error never reaches it. -/
theorem C27_error_mapping (err : GoError) :
    (errorsIs err .ErrEmptyURL = true →
      (handleServiceError err).1 =
        ⟨400, "application/json", ⟨"empty_url", "URL cannot be empty"⟩⟩) ∧
    (errorsIs err .ErrInvalidURL = true →
      (handleServiceError err).1 =
        ⟨400, "application/json", ⟨"invalid_url", "Invalid URL format."⟩⟩) ∧
    (errorsIs err .ErrEmptyURL = false → errorsIs err .ErrInvalidURL = false →
      (handleServiceError err).1.status = 500 ∧
      (handleServiceError err).1.body.Error = "internal_error" ∧
      ((handleServiceError err).1.body.Message = "Failed to generate short URL" ∨
        (handleServiceError err).1.body.Message = "Internal server error")) ∧
    (∀ other : GoError,
      errorsIs other .ErrEmptyURL = errorsIs err .ErrEmptyURL →
      errorsIs other .ErrInvalidURL = errorsIs err .ErrInvalidURL →
      errorsIs other .ErrTooManyCollisions = errorsIs err .ErrTooManyCollisions →
      (handleServiceError other).1 = (handleServiceError err).1) ∧
    (handleServiceError .ErrTooManyCollisions).1 =
      ⟨500, "application/json", ⟨"internal_error", "Failed to generate short URL"⟩⟩ ∧
    (∀ (p : String) (backend : String),
      (handleServiceError (.wrap p (.other backend))).1 =
        ⟨500, "application/json", ⟨"internal_error", "Internal server error"⟩⟩) := by
  refine ⟨fun h => ?_, fun h => ?_, fun h1 h2 => ?_, fun other h1 h2 h3 => ?_, by decide,
    fun p backend => ?_⟩
  · simp [handleServiceError, h, writeError, StatusBadRequest]
  · have h0 : errorsIs err .ErrEmptyURL = false :=
      errorsIs_sentinel_unique err .ErrInvalidURL .ErrEmptyURL (by simp) (by simp) (by simp) h
    simp [handleServiceError, h, h0, writeError, StatusBadRequest]
  · cases h3 : errorsIs err .ErrTooManyCollisions <;>
      simp [handleServiceError, h1, h2, h3, writeError, StatusInternalServerError]
  · simp only [handleServiceError, h1, h2, h3]
    cases errorsIs err .ErrEmptyURL <;> cases errorsIs err .ErrInvalidURL <;>
      cases errorsIs err .ErrTooManyCollisions <;> rfl
  · simp [handleServiceError, errorsIs, writeError, StatusInternalServerError]

end handler

namespace config

/-- C28: `Config.Validate` returns an error if and only if `StorageType` is neither
`memory` nor `postgres`, or `StorageType` is `postgres` and `DatabaseURL` is empty; every
other configuration, whatever its other fields, is accepted. -/
theorem C28_validate_iff (c : Config) :
    ((c.Validate ≠ none) ↔
      ((c.StorageType ≠ "memory" ∧ c.StorageType ≠ "postgres") ∨
        (c.StorageType = "postgres" ∧ c.DatabaseURL = ""))) ∧
    (c.StorageType = "memory" → c.Validate = none) ∧
    (c.StorageType = "postgres" → c.DatabaseURL ≠ "" → c.Validate = none) ∧
    (∀ (address base : String) (ttl : Int) (level : String),
      ({ c with ServerAddress := address, BaseURL := base, DefaultTTL := ttl,
                LogLevel := level } : Config).Validate = c.Validate) := by
  have hiff : (c.Validate ≠ none) ↔
      ((c.StorageType ≠ "memory" ∧ c.StorageType ≠ "postgres") ∨
        (c.StorageType = "postgres" ∧ c.DatabaseURL = "")) := by
    unfold Config.Validate
    by_cases h1 : c.StorageType ≠ "memory" ∧ c.StorageType ≠ "postgres"
    · simp only [if_pos h1]
      simp [h1]
    · by_cases h2 : c.StorageType = "postgres" ∧ c.DatabaseURL = ""
      · simp only [if_neg h1, if_pos h2]
        simp [h2]
      · simp only [if_neg h1, if_neg h2]
        simp only [ne_eq, not_true_eq_false, false_iff, not_or]
        exact ⟨h1, h2⟩
  refine ⟨hiff, fun h => ?_, fun h hdb => ?_, fun _ _ _ _ => rfl⟩
  · by_contra hc
    rcases hiff.1 hc with ⟨h1, _⟩ | ⟨h1, _⟩
    · exact h1 h
    · rw [h] at h1; exact absurd h1 (by decide)
  · by_contra hc
    rcases hiff.1 hc with ⟨_, h1⟩ | ⟨_, h1⟩
    · exact h1 h
    · exact hdb h1

end config

namespace storage

theorem saveAll_consistent (urls : List URL) :
    ∀ s : MemoryStorage, s.Consistent → (s.saveAll urls).Consistent := by
  induction urls with
  | nil => intro s h; exact h
  | cons url rest ih => intro s h; exact ih _ (Consistent_Save s url h)

/-- C29: in every state of the in-memory store reached from `NewMemoryStorage` by any
sequence of `Save` calls, (a) every entry `u -> c` of `byOriginalURL` points to a code `c`
present in `byCode`, whose record has `ShortCode = c` and `OriginalURL = u`, and (b) every
record of `byCode` has its `OriginalURL` as a key of `byOriginalURL`; hence
`GetByOriginalURL` never meets a missing (nil) record: it never panics. -/
theorem C29_index_consistency (saved : List URL) :
    (∀ u code, (NewMemoryStorage.saveAll saved).byOriginalURL.get u = some code →
      ∃ rec, (NewMemoryStorage.saveAll saved).byCode.get code = some rec ∧
        rec.ShortCode = code ∧ rec.OriginalURL = u) ∧
    (∀ code rec, (NewMemoryStorage.saveAll saved).byCode.get code = some rec →
      ∃ code2, (NewMemoryStorage.saveAll saved).byOriginalURL.get rec.OriginalURL =
        some code2) ∧
    (∀ u now, (NewMemoryStorage.saveAll saved).GetByOriginalURL u now ≠ .panic) := by
  have hc := saveAll_consistent saved NewMemoryStorage Consistent_new
  refine ⟨fun u code h => ?_, hc.2.2, fun u now => ?_⟩
  · obtain ⟨rec, hrec, hu⟩ := hc.2.1 u code h
    exact ⟨rec, hrec, hc.1 code rec hrec, hu⟩
  · unfold MemoryStorage.GetByOriginalURL
    cases hget : (NewMemoryStorage.saveAll saved).byOriginalURL.get u with
    | none => simp
    | some code =>
      obtain ⟨rec, hrec, _⟩ := hc.2.1 u code hget
      simp only [hrec]
      split <;> simp

end storage

namespace service

open storage Shortener

set_option maxRecDepth 100000 in
/-- C30, as stated, fails: the store holds an expired record of `https://example.com`
under `Generate u 0` and, saved later under another code, a record of the same URL
that never expires; the URL index follows the later record, and `Shorten` returns that
record, tagged `IsNew = false`. -/
theorem C30_shorten_after_expiry_counterexample :
    shortcode.Generate "https://example.com" 0 = "k2vewsVDgL" ∧
    (NewMemoryStorage.saveAll
      [⟨"k2vewsVDgL", "https://example.com", 0, some 1⟩,
       ⟨"aB3_xY9z12", "https://example.com", 2, none⟩]).byCode.get "k2vewsVDgL" =
      some ⟨"k2vewsVDgL", "https://example.com", 0, some 1⟩ ∧
    URL.IsExpired ⟨"k2vewsVDgL", "https://example.com", 0, some 1⟩ 5 = true ∧
    (Shorten parseFixtures (New memoryStorage ⟨"", 10⟩)
      (NewMemoryStorage.saveAll
        [⟨"k2vewsVDgL", "https://example.com", 0, some 1⟩,
         ⟨"aB3_xY9z12", "https://example.com", 2, none⟩]) 5 "https://example.com").1 =
      .ok ⟨"aB3_xY9z12", "aB3_xY9z12", "https://example.com", none, false⟩ := by
  decide

/-- C30, amended: for every valid URL `u`, if the in-memory store holds under the code
`Generate u 0` a record of `u` that is expired at the instant `now`, and the URL index
`byOriginalURL` maps `u` to that code (as it does after any sequence of `Shorten` calls),
then `Shorten u` at `now` with `DefaultTTL > 0` returns success with `IsNew = true` and
`ExpiresAt = now + DefaultTTL`, yet leaves the store as it was (the stored record keeps
its old, passed `ExpiresAt`), so that `Resolve` of the code returned, at `now`, returns
`ErrCodeNotFound`. -/
theorem C30_shorten_after_expiry (parse : UrlParser) (config : Config) (s : MemoryStorage)
    (now : Int) (u : String) (rec : URL)
    (hvalid : validateURL parse u = none)
    (hheld : s.byCode.get (shortcode.Generate u 0) = some rec)
    (hurl : rec.OriginalURL = u)
    (hexpired : rec.IsExpired now = true)
    (hindex : s.byOriginalURL.get u = some (shortcode.Generate u 0))
    (httl : config.DefaultTTL > 0) :
    Shorten parse (New memoryStorage config) s now u =
      (.ok { ShortCode := shortcode.Generate u 0,
             ShortURL := (New memoryStorage config).buildShortURL (shortcode.Generate u 0),
             OriginalURL := u, ExpiresAt := some (now + config.DefaultTTL), IsNew := true },
        s) ∧
    s.byCode.get (shortcode.Generate u 0) = some rec ∧
    Resolve (New memoryStorage config) s now (shortcode.Generate u 0) =
      (.err .ErrCodeNotFound, s) := by
  have hlook : s.GetByOriginalURL u now = .err .ErrExpired := by
    simp [MemoryStorage.GetByOriginalURL, hindex, hheld, hexpired]
  have hget : (New memoryStorage config).storage.GetByOriginalURL s u now
      = (s.GetByOriginalURL u now, s) := rfl
  have hsave : (New memoryStorage config).storage.Save s
      ((New memoryStorage config).newRecord now u 0) now = (.ok (), s) :=
    Save_of_same_url s _ rec hheld hurl
  have hexp : (New memoryStorage config).newExpiresAt now = some (now + config.DefaultTTL) := by
    simp [newExpiresAt, New, httl]
  refine ⟨?_, hheld, ?_⟩
  · unfold Shorten
    rw [hvalid]
    simp only [hget, hlook]
    have : (!errorsIs .ErrExpired .ErrNotFound && !errorsIs .ErrExpired .ErrExpired) = false := by
      decide
    rw [this]
    simp only [Bool.false_eq_true, if_false, maxAttempts]
    rw [shortenLoop_succ_ok _ _ _ _ _ _ _ () hsave]
    simp [createdResult, hexp]
  · have hcode : (New memoryStorage config).storage.GetByCode s (shortcode.Generate u 0) now
        = (s.GetByCode (shortcode.Generate u 0) now, s) := rfl
    have hby : s.GetByCode (shortcode.Generate u 0) now = .err .ErrExpired := by
      simp [MemoryStorage.GetByCode, hheld, hexpired]
    unfold Resolve
    simp [shortcode.IsValid_Generate, hcode, hby, errorsIs]

set_option maxRecDepth 100000 in
/-- An instance of the amended C30: `https://example.com` was shortened at instant 0 with a
TTL of 1 and is shortened again at instant 5. -/
theorem C30_shorten_after_expiry_witness :
    Shorten parseFixtures (New memoryStorage ⟨"", 1⟩)
        ⟨⟨[("k2vewsVDgL", ⟨"k2vewsVDgL", "https://example.com", 0, some 1⟩)]⟩,
          ⟨[("https://example.com", "k2vewsVDgL")]⟩⟩ 5 "https://example.com" =
      (.ok { ShortCode := shortcode.Generate "https://example.com" 0,
             ShortURL := (New memoryStorage ⟨"", 1⟩).buildShortURL
               (shortcode.Generate "https://example.com" 0),
             OriginalURL := "https://example.com", ExpiresAt := some (5 + 1), IsNew := true },
        ⟨⟨[("k2vewsVDgL", ⟨"k2vewsVDgL", "https://example.com", 0, some 1⟩)]⟩,
          ⟨[("https://example.com", "k2vewsVDgL")]⟩⟩) ∧
    Resolve (New memoryStorage ⟨"", 1⟩)
        ⟨⟨[("k2vewsVDgL", ⟨"k2vewsVDgL", "https://example.com", 0, some 1⟩)]⟩,
          ⟨[("https://example.com", "k2vewsVDgL")]⟩⟩ 5
        (shortcode.Generate "https://example.com" 0) =
      (.err .ErrCodeNotFound,
        ⟨⟨[("k2vewsVDgL", ⟨"k2vewsVDgL", "https://example.com", 0, some 1⟩)]⟩,
          ⟨[("https://example.com", "k2vewsVDgL")]⟩⟩) :=
  have h := C30_shorten_after_expiry parseFixtures ⟨"", 1⟩
    ⟨⟨[("k2vewsVDgL", ⟨"k2vewsVDgL", "https://example.com", 0, some 1⟩)]⟩,
      ⟨[("https://example.com", "k2vewsVDgL")]⟩⟩ 5 "https://example.com"
    ⟨"k2vewsVDgL", "https://example.com", 0, some 1⟩ (by decide) (by decide) rfl (by decide)
    (by decide) (by decide)
  ⟨h.1, h.2.2⟩

end service

namespace storage
namespace Concurrent

/-! ### Concurrent `Save` calls under the lock -/

theorem Inv_init (urls : List URL) (code : String) (s : MemoryStorage)
    (hfree : s.byCode.get code = none) : Inv urls code (init s) where
  holder := by intro h; simp [init] at h
  exclusive := by intro i j _ _ h; simp [init, SavePc.holdsLock] at h
  free := by intro _ i _; simp [init, SavePc.holdsLock]
  results := by intro i _ r h; simp [init] at h
  current := by intro i _ existing h; simp [init] at h
  unused := by intro _ i _; simp [init]
  taken := by intro rec h; simp [init, hfree] at h

theorem lt_of_get?_eq_some {urls : List URL} {i : Nat} {url : URL}
    (h : urls.get? i = some url) : i < urls.length := by
  by_contra hn
  rw [List.get?_eq_none.2 (not_lt.1 hn)] at h
  cases h

/-- While goroutine `i` keeps the lock, no other goroutine comes to hold it. -/
theorem exclusive_update (urls : List URL) (code : String) (c : Concurrent) (i : Nat)
    (pc : SavePc) (hi : i < urls.length) (hinv : Inv urls code c)
    (hholds : (c.pcs i).holdsLock = true) :
    ∀ a b, a < urls.length → b < urls.length →
      (Function.update c.pcs i pc a).holdsLock = true →
      (Function.update c.pcs i pc b).holdsLock = true → a = b := by
  intro a b ha hb h1 h2
  have ha1 : a = i := by
    by_contra hne
    simp only [Function.update_noteq hne] at h1
    exact hne (hinv.exclusive a i ha hi h1 hholds)
  have hb1 : b = i := by
    by_contra hne
    simp only [Function.update_noteq hne] at h2
    exact hne (hinv.exclusive b i hb hi h2 hholds)
  rw [ha1, hb1]

/-- A step of a goroutine keeps the invariant. -/
theorem Inv_step (urls : List URL) (code : String)
    (hcode : ∀ u ∈ urls, u.ShortCode = code)
    (hdiff : ∀ i j ui uj, urls.get? i = some ui → urls.get? j = some uj →
      ui.OriginalURL = uj.OriginalURL → i = j)
    (c c1 : Concurrent) (i : Nat) (hinv : Inv urls code c)
    (hstep : c.step urls i = some c1) : Inv urls code c1 := by
  unfold step at hstep
  cases hurl : urls.get? i with
  | none => rw [hurl] at hstep; cases hstep
  | some url =>
    have hi : i < urls.length := lt_of_get?_eq_some hurl
    have hc : url.ShortCode = code := hcode url (List.get?_mem hurl)
    rw [hurl] at hstep
    simp only [] at hstep
    cases hpc : c.pcs i with
    | start =>
      rw [hpc] at hstep
      simp only [] at hstep
      cases hl : c.lockHeld with
      | true => rw [hl] at hstep; simp at hstep
      | false =>
        rw [hl] at hstep
        simp only [Bool.false_eq_true, if_false, Option.some.injEq] at hstep
        subst hstep
        have hfree := hinv.free hl
        refine ⟨fun _ => ⟨i, hi, by simp [SavePc.holdsLock]⟩, ?_, ?_, ?_, ?_, ?_, ?_⟩
        · intro a b ha hb h1 h2
          have ha1 : a = i := by
            by_contra hne
            simp only [Function.update_noteq hne] at h1
            rw [hfree a ha] at h1; cases h1
          have hb1 : b = i := by
            by_contra hne
            simp only [Function.update_noteq hne] at h2
            rw [hfree b hb] at h2; cases h2
          rw [ha1, hb1]
        · intro h; simp at h
        · intro a ha r h
          by_cases hne : a = i
          · subst hne; simp at h
          · simp only [Function.update_noteq hne] at h
            exact hinv.results a ha r h
        · intro a ha existing h
          by_cases hne : a = i
          · subst hne; simp at h
          · simp only [Function.update_noteq hne] at h
            exact hinv.current a ha existing h
        · intro h a ha
          by_cases hne : a = i
          · subst hne; simp
          · simp only [Function.update_noteq hne]
            exact hinv.unused h a ha
        · intro rec h
          obtain ⟨w, hw, huw, hwin, hothers⟩ := hinv.taken rec h
          have hwi : w ≠ i := by
            rintro rfl
            rw [hpc] at hwin
            simp [isWinner] at hwin
          refine ⟨w, hw, huw, by simpa [Function.update_noteq hwi] using hwin, ?_⟩
          intro j hj hjw
          by_cases hne : j = i
          · subst hne; simp [isWinner]
          · simp only [Function.update_noteq hne]
            exact hothers j hj hjw
    | locked =>
      rw [hpc] at hstep
      simp only [hc, Option.some.injEq] at hstep
      subst hstep
      have hholds : (c.pcs i).holdsLock = true := by rw [hpc]; rfl
      refine ⟨fun _ => ⟨i, hi, by simp [SavePc.holdsLock]⟩,
        exclusive_update urls code c i _ hi hinv hholds, ?_, ?_, ?_, ?_, ?_⟩
      · intro hl
        have := hinv.free hl i hi
        rw [hholds] at this; cases this
      · intro a ha r h
        by_cases hne : a = i
        · subst hne; simp at h
        · simp only [Function.update_noteq hne] at h
          exact hinv.results a ha r h
      · intro a ha existing h
        by_cases hne : a = i
        · subst hne
          simp only [Function.update_same, SavePc.looked.injEq] at h
          exact h
        · simp only [Function.update_noteq hne] at h
          exact hinv.current a ha existing h
      · intro h a ha
        by_cases hne : a = i
        · subst hne
          have h1 : c.store.byCode.get code = none := h
          simp [h1]
        · simp only [Function.update_noteq hne]
          exact hinv.unused h a ha
      · intro rec h
        obtain ⟨w, hw, huw, hwin, hothers⟩ := hinv.taken rec h
        have hwi : w ≠ i := by
          rintro rfl
          rw [hpc] at hwin
          simp [isWinner] at hwin
        refine ⟨w, hw, huw, by simpa [Function.update_noteq hwi] using hwin, ?_⟩
        intro j hj hjw
        by_cases hne : j = i
        · subst hne; simp [isWinner]
        · simp only [Function.update_noteq hne]
          exact hothers j hj hjw
    | looked found =>
      rw [hpc] at hstep
      have hholds : (c.pcs i).holdsLock = true := by rw [hpc]; rfl
      have hget : c.store.byCode.get code = found := hinv.current i hi found hpc
      cases found with
      | some existing =>
        simp only [] at hstep
        obtain ⟨w, hw, ⟨uw, huw1, huw2⟩, hwin, hothers⟩ := hinv.taken existing hget
        have hwi : w ≠ i := by
          rintro rfl
          rw [hpc] at hwin
          simp [isWinner] at hwin
        have hurlne : existing.OriginalURL ≠ url.OriginalURL := by
          intro heq
          exact hwi (hdiff w i uw url huw1 hurl (huw2.trans heq))
        rw [if_neg hurlne] at hstep
        simp only [Option.some.injEq] at hstep
        subst hstep
        refine ⟨fun _ => ⟨i, hi, by simp [SavePc.holdsLock]⟩,
          exclusive_update urls code c i _ hi hinv hholds, ?_, ?_, ?_, ?_, ?_⟩
        · intro hl
          have := hinv.free hl i hi
          rw [hholds] at this; cases this
        · intro a ha r h
          by_cases hne : a = i
          · subst hne
            simp at h
            exact Or.inr h.symm
          · simp only [Function.update_noteq hne] at h
            exact hinv.results a ha r h
        · intro a ha found h
          by_cases hne : a = i
          · subst hne; simp at h
          · simp only [Function.update_noteq hne] at h
            exact hinv.current a ha found h
        · intro h
          simp only [] at h
          rw [hget] at h; cases h
        · intro rec h
          simp only [] at h
          rw [hget] at h
          cases h
          refine ⟨w, hw, ⟨uw, huw1, huw2⟩, by simpa [Function.update_noteq hwi] using hwin, ?_⟩
          intro j hj hjw
          by_cases hne : j = i
          · subst hne; simp [isWinner]
          · simp only [Function.update_noteq hne]
            exact hothers j hj hjw
      | none =>
        simp only [hc, Option.some.injEq] at hstep
        subst hstep
        have hunused := hinv.unused hget
        refine ⟨fun _ => ⟨i, hi, by simp [SavePc.holdsLock]⟩,
          exclusive_update urls code c i _ hi hinv hholds, ?_, ?_, ?_, ?_, ?_⟩
        · intro hl
          have := hinv.free hl i hi
          rw [hholds] at this; cases this
        · intro a ha r h
          by_cases hne : a = i
          · subst hne; simp at h
          · simp only [Function.update_noteq hne] at h
            exact hinv.results a ha r h
        · intro a ha found h
          by_cases hne : a = i
          · subst hne; simp at h
          · simp only [Function.update_noteq hne] at h
            have hlock : (c.pcs a).holdsLock = true := by rw [h]; rfl
            exact absurd (hinv.exclusive a i ha hi hlock hholds) hne
        · intro h
          simp only [GoMap.get_set_self] at h
          cases h
        · intro rec h
          simp only [GoMap.get_set_self, Option.some.injEq] at h
          subst h
          refine ⟨i, hi, ⟨url, hurl, rfl⟩, by simp [isWinner], ?_⟩
          intro j hj hji
          simp only [Function.update_noteq hji]
          rcases hunused j hj with h | h | h <;> simp [h, isWinner]
    | inserted =>
      rw [hpc] at hstep
      simp only [Option.some.injEq] at hstep
      subst hstep
      have hholds : (c.pcs i).holdsLock = true := by rw [hpc]; rfl
      refine ⟨fun _ => ⟨i, hi, by simp [SavePc.holdsLock]⟩,
        exclusive_update urls code c i _ hi hinv hholds, ?_, ?_, ?_, ?_, ?_⟩
      · intro hl
        have := hinv.free hl i hi
        rw [hholds] at this; cases this
      · intro a ha r h
        by_cases hne : a = i
        · subst hne
          simp at h
          exact Or.inl h.symm
        · simp only [Function.update_noteq hne] at h
          exact hinv.results a ha r h
      · intro a ha found h
        by_cases hne : a = i
        · subst hne; simp at h
        · simp only [Function.update_noteq hne] at h
          exact hinv.current a ha found h
      · intro h
        have := hinv.unused h i hi
        rw [hpc] at this
        simp at this
      · intro rec h
        obtain ⟨w, hw, huw, hwin, hothers⟩ := hinv.taken rec h
        have hwi : w = i := by
          by_contra hne
          exact hothers i hi (Ne.symm hne) (by rw [hpc]; simp [isWinner])
        subst hwi
        refine ⟨w, hw, huw, by simp [isWinner], ?_⟩
        intro j hj hjw
        simp only [Function.update_noteq hjw]
        exact hothers j hj hjw
    | returning r =>
      rw [hpc] at hstep
      simp only [Option.some.injEq] at hstep
      subst hstep
      have hholds : (c.pcs i).holdsLock = true := by rw [hpc]; rfl
      have hnobody : ∀ a, a < urls.length →
          (Function.update c.pcs i (SavePc.done r) a).holdsLock = false := by
        intro a ha
        by_cases hne : a = i
        · subst hne; simp [SavePc.holdsLock]
        · simp only [Function.update_noteq hne]
          cases h : (c.pcs a).holdsLock with
          | false => rfl
          | true => exact absurd (hinv.exclusive a i ha hi h hholds) hne
      refine ⟨fun hl => ?_, ?_, ?_, ?_, ?_, ?_, ?_⟩
      · simp at hl
      · intro a b ha hb h1 h2
        rw [hnobody a ha] at h1; cases h1
      · intro _ a ha
        exact hnobody a ha
      · intro a ha r1 h
        by_cases hne : a = i
        · subst hne
          simp at h
          subst h
          exact hinv.results a ha r (Or.inl hpc)
        · simp only [Function.update_noteq hne] at h
          exact hinv.results a ha r1 h
      · intro a ha found h
        by_cases hne : a = i
        · subst hne; simp at h
        · simp only [Function.update_noteq hne] at h
          exact hinv.current a ha found h
      · intro h
        have := hinv.unused h i hi
        rw [hpc] at this
        simp at this
      · intro rec h
        obtain ⟨w, hw, huw, hwin, hothers⟩ := hinv.taken rec h
        refine ⟨w, hw, huw, ?_, ?_⟩
        · by_cases hne : w = i
          · subst hne
            rw [hpc] at hwin
            simp [isWinner] at hwin
            simp [isWinner, hwin]
          · simpa [Function.update_noteq hne] using hwin
        · intro j hj hjw
          by_cases hne : j = i
          · subst hne
            have := hothers j hj hjw
            rw [hpc] at this
            simp [isWinner] at this
            simp [isWinner, this]
          · simp only [Function.update_noteq hne]
            exact hothers j hj hjw
    | done r =>
      rw [hpc] at hstep
      cases hstep

theorem run_append (urls : List URL) (c : Concurrent) (a b : List Nat) :
    run urls c (a ++ b) = run urls (run urls c a) b := by
  induction a generalizing c with
  | nil => rfl
  | cons i rest ih =>
    simp only [List.cons_append, run]
    cases c.step urls i <;> exact ih _

/-- Every interleaving keeps the invariant. -/
theorem Inv_run (urls : List URL) (code : String)
    (hcode : ∀ u ∈ urls, u.ShortCode = code)
    (hdiff : ∀ i j ui uj, urls.get? i = some ui → urls.get? j = some uj →
      ui.OriginalURL = uj.OriginalURL → i = j)
    (sched : List Nat) : ∀ c : Concurrent, Inv urls code c → Inv urls code (run urls c sched) := by
  induction sched with
  | nil => intro c h; exact h
  | cons i rest ih =>
    intro c h
    simp only [run]
    cases hstep : c.step urls i with
    | none => exact ih c h
    | some c1 => exact ih c1 (Inv_step urls code hcode hdiff c c1 i h hstep)

/-- Once every goroutine has returned, exactly one has returned success. -/
theorem oneSuccess_of_allDone (urls : List URL) (code : String) (c : Concurrent)
    (hne : urls ≠ []) (hinv : Inv urls code c) (hdone : allDone urls c) :
    oneSuccess urls c := by
  have hpos : 0 < urls.length := List.length_pos.2 hne
  have hisdone : ∀ i, i < urls.length → ∃ r, c.pcs i = .done r := by
    intro i hi
    have := hdone i hi
    cases h : c.pcs i with
    | done r => exact ⟨r, rfl⟩
    | start => rw [h] at this; cases this
    | locked => rw [h] at this; cases this
    | looked found => rw [h] at this; cases this
    | inserted => rw [h] at this; cases this
    | returning r => rw [h] at this; cases this
  cases hget : c.store.byCode.get code with
  | none =>
    obtain ⟨r, hr⟩ := hisdone 0 hpos
    rcases hinv.unused hget 0 hpos with h | h | h <;> rw [hr] at h <;> cases h
  | some rec =>
    obtain ⟨w, hw, _, hwin, hothers⟩ := hinv.taken rec hget
    obtain ⟨r, hr⟩ := hisdone w hw
    refine ⟨w, hw, ?_, ?_⟩
    · rw [hr] at hwin
      simp only [isWinner, SavePc.done.injEq, false_or] at hwin
      simp at hwin
      rw [hr, hwin]
    · intro j hj hjw
      obtain ⟨rj, hrj⟩ := hisdone j hj
      have hnot := hothers j hj hjw
      rcases hinv.results j hj rj (Or.inr hrj) with h | h
      · rw [hrj, h] at hnot
        exact absurd (Or.inr (Or.inr rfl)) hnot
      · rw [hrj, h]

/-- While a goroutine has not returned, some goroutine can move: no deadlock. -/
theorem exists_step (urls : List URL) (code : String) (c : Concurrent)
    (hinv : Inv urls code c) (hnot : ¬ allDone urls c) :
    ∃ i c1, c.step urls i = some c1 := by
  have hurl : ∀ i, i < urls.length → ∃ url, urls.get? i = some url := by
    intro i hi
    exact ⟨urls.get ⟨i, hi⟩, List.get?_eq_get hi⟩
  suffices h : ∃ i, (c.step urls i).isSome = true by
    obtain ⟨i, hi⟩ := h
    obtain ⟨c1, hc1⟩ := Option.isSome_iff_exists.1 hi
    exact ⟨i, c1, hc1⟩
  cases hl : c.lockHeld with
  | true =>
    obtain ⟨h, hh, hholds⟩ := hinv.holder hl
    obtain ⟨url, hu⟩ := hurl h hh
    refine ⟨h, ?_⟩
    cases hpc : c.pcs h with
    | start => rw [hpc] at hholds; cases hholds
    | done r => rw [hpc] at hholds; cases hholds
    | locked => simp only [step, hu, hpc]; rfl
    | looked found =>
      cases found with
      | none => simp only [step, hu, hpc]; rfl
      | some existing =>
        by_cases he : existing.OriginalURL = url.OriginalURL
        · simp only [step, hu, hpc, if_pos he]; rfl
        · simp only [step, hu, hpc, if_neg he]; rfl
    | inserted => simp only [step, hu, hpc]; rfl
    | returning r => simp only [step, hu, hpc]; rfl
  | false =>
    simp only [allDone, not_forall] at hnot
    obtain ⟨i, hi, hnd⟩ := hnot
    obtain ⟨url, hu⟩ := hurl i hi
    have hfree := hinv.free hl i hi
    refine ⟨i, ?_⟩
    cases hpc : c.pcs i with
    | start => simp only [step, hu, hpc, hl, Bool.false_eq_true, if_false]; rfl
    | done r => rw [hpc] at hnd; exact absurd rfl hnd
    | locked => rw [hpc] at hfree; cases hfree
    | looked found => rw [hpc] at hfree; cases hfree
    | inserted => rw [hpc] at hfree; cases hfree
    | returning r => rw [hpc] at hfree; cases hfree

/-- A step uses up one of the steps left. -/
theorem remaining_step (urls : List URL) (c c1 : Concurrent) (i : Nat)
    (hstep : c.step urls i = some c1) : remaining urls c1 < remaining urls c := by
  unfold step at hstep
  cases hurl : urls.get? i with
  | none => rw [hurl] at hstep; cases hstep
  | some url =>
    have hi : i < urls.length := lt_of_get?_eq_some hurl
    rw [hurl] at hstep
    simp only [] at hstep
    have key : ∀ pc : SavePc, pc.remaining < (c.pcs i).remaining →
        c1.pcs = Function.update c.pcs i pc → remaining urls c1 < remaining urls c := by
      intro pc hlt hpcs
      unfold remaining
      apply Finset.sum_lt_sum
      · intro j _
        rw [hpcs]
        by_cases hj : j = i
        · subst hj; simp only [Function.update_same]; exact Nat.le_of_lt hlt
        · simp only [Function.update_noteq hj]; exact Nat.le_refl _
      · exact ⟨i, Finset.mem_range.2 hi, by rw [hpcs]; simpa using hlt⟩
    cases hpc : c.pcs i with
    | start =>
      rw [hpc] at hstep
      simp only [] at hstep
      split at hstep
      · cases hstep
      · cases hstep
        exact key .locked (by rw [hpc]; simp [SavePc.remaining]) rfl
    | locked =>
      rw [hpc] at hstep
      cases hstep
      exact key _ (by rw [hpc]; simp [SavePc.remaining]) rfl
    | looked found =>
      rw [hpc] at hstep
      cases found with
      | none =>
        cases hstep
        exact key _ (by rw [hpc]; simp [SavePc.remaining]) rfl
      | some existing =>
        simp only [] at hstep
        split at hstep
        · cases hstep; exact key _ (by rw [hpc]; simp [SavePc.remaining]) rfl
        · cases hstep; exact key _ (by rw [hpc]; simp [SavePc.remaining]) rfl
    | inserted =>
      rw [hpc] at hstep
      cases hstep
      exact key _ (by rw [hpc]; simp [SavePc.remaining]) rfl
    | returning r =>
      rw [hpc] at hstep
      cases hstep
      exact key _ (by rw [hpc]; simp [SavePc.remaining]) rfl
    | done r => rw [hpc] at hstep; cases hstep

/-- From every state the goroutines can reach, they can all be brought to return. -/
theorem exists_completion (urls : List URL) (code : String)
    (hcode : ∀ u ∈ urls, u.ShortCode = code)
    (hdiff : ∀ i j ui uj, urls.get? i = some ui → urls.get? j = some uj →
      ui.OriginalURL = uj.OriginalURL → i = j) :
    ∀ (n : Nat) (c : Concurrent), remaining urls c ≤ n → Inv urls code c →
      ∃ more, allDone urls (run urls c more) := by
  intro n
  induction n with
  | zero =>
    intro c hrem hinv
    by_cases hd : allDone urls c
    · exact ⟨[], hd⟩
    · obtain ⟨i, c1, hstep⟩ := exists_step urls code c hinv hd
      have := remaining_step urls c c1 i hstep
      omega
  | succ n ih =>
    intro c hrem hinv
    by_cases hd : allDone urls c
    · exact ⟨[], hd⟩
    · obtain ⟨i, c1, hstep⟩ := exists_step urls code c hinv hd
      have hlt := remaining_step urls c c1 i hstep
      obtain ⟨more, hmore⟩ := ih c1 (by omega) (Inv_step urls code hcode hdiff c c1 i hinv hstep)
      exact ⟨i :: more, by simpa [run, hstep] using hmore⟩

/-- A goroutine running alone does what `MemoryStorage.Save` does. -/
theorem run_alone (s : MemoryStorage) (url : URL) :
    ((init s).run [url] [0, 0, 0, 0, 0]).pcs 0 = .done (s.Save url).1 ∧
    ((init s).run [url] [0, 0, 0, 0, 0]).store = (s.Save url).2 ∧
    ((init s).run [url] [0, 0, 0, 0, 0]).lockHeld = false := by
  cases hget : s.byCode.get url.ShortCode with
  | none =>
    rw [Save_of_unused s url hget]
    simp [run, step, init, hget]
  | some existing =>
    by_cases he : existing.OriginalURL = url.OriginalURL
    · rw [Save_of_same_url s url existing hget he]
      simp [run, step, init, hget, he]
    · rw [Save_of_other_url s url existing hget he]
      simp [run, step, init, hget, he]

/-- The steps after the lookup do not look at `byCode` again: were two goroutines past the
lookup at once, each having found the code unused (which the lock rules out, see
`Inv.exclusive`), both would write their record and both would return success. -/
theorem both_succeed_past_lookup (s : MemoryStorage) (held : Bool) (u0 u1 : URL) :
    (run [u0, u1] ⟨s, held, fun _ => .looked none⟩ [0, 1, 0, 1, 0, 1]).pcs 0 = .done (.ok ()) ∧
    (run [u0, u1] ⟨s, held, fun _ => .looked none⟩ [0, 1, 0, 1, 0, 1]).pcs 1 = .done (.ok ()) := by
  simp [run, step]

theorem index_inj_of_nodup (urls : List URL) (hdiff : (urls.map (·.OriginalURL)).Nodup) :
    ∀ i j ui uj, urls.get? i = some ui → urls.get? j = some uj →
      ui.OriginalURL = uj.OriginalURL → i = j := by
  intro i j ui uj hi hj h
  obtain ⟨hil, hgi⟩ := List.get?_eq_some.1 hi
  obtain ⟨hjl, hgj⟩ := List.get?_eq_some.1 hj
  have hli : i < (urls.map (·.OriginalURL)).length := by simpa using hil
  have hlj : j < (urls.map (·.OriginalURL)).length := by simpa using hjl
  have heq : (urls.map (·.OriginalURL)).get ⟨i, hli⟩ = (urls.map (·.OriginalURL)).get ⟨j, hlj⟩ := by
    simp only [List.get_eq_getElem, List.getElem_map]
    rw [List.get_eq_getElem] at hgi hgj
    simp only at hgi hgj
    rw [hgi, hgj, h]
  exact Fin.mk.inj_iff.1 ((List.Nodup.get_inj_iff hdiff).1 heq)

/-- C24: `Save` calls issued concurrently on the in-memory store, one goroutine each,
that carry the same code, unused so far, and pairwise different original URLs: whatever
the interleaving of the goroutines (each `Save` takes the write lock, looks the code up,
then decides on what it found, writes `byCode`, writes `byOriginalURL` and releases the
lock, every one of these a step between which the other goroutines may be scheduled),
once all calls have returned exactly one has returned success and every other one
`ErrAlreadyExists`; and every interleaving can be continued until all calls have returned
(no goroutine stays blocked on the lock). -/
theorem C24_concurrent_saves (s : MemoryStorage) (code : String) (urls : List URL)
    (sched : List Nat) (hne : urls ≠ []) (hcode : ∀ u ∈ urls, u.ShortCode = code)
    (hdiff : (urls.map (·.OriginalURL)).Nodup) (hfree : s.byCode.get code = none) :
    (allDone urls ((init s).run urls sched) → oneSuccess urls ((init s).run urls sched)) ∧
    (∃ more, allDone urls ((init s).run urls (sched ++ more)) ∧
      oneSuccess urls ((init s).run urls (sched ++ more))) := by
  have hidx := index_inj_of_nodup urls hdiff
  have hinv : ∀ l, Inv urls code ((init s).run urls l) := fun l =>
    Inv_run urls code hcode hidx l (init s) (Inv_init urls code s hfree)
  refine ⟨fun hd => oneSuccess_of_allDone urls code _ hne (hinv sched) hd, ?_⟩
  obtain ⟨more, hmore⟩ := exists_completion urls code hcode hidx
    (remaining urls ((init s).run urls sched)) _ (Nat.le_refl _) (hinv sched)
  rw [← run_append] at hmore
  exact ⟨more, hmore, oneSuccess_of_allDone urls code _ hne (hinv _) hmore⟩

/-- An instance of C24: three goroutines save three URLs under the code `aB3_xY9z12` into
the empty store; goroutine 1 takes the lock first, goroutines 0 and 2 are scheduled
between its steps and stay blocked; then goroutine 0 runs, with goroutine 2 scheduled
between its steps and still blocked, and at last goroutine 2. -/
theorem C24_concurrent_saves_witness :
    allDone
      [⟨"aB3_xY9z12", "https://a.example", 0, none⟩, ⟨"aB3_xY9z12", "https://b.example", 0, none⟩,
       ⟨"aB3_xY9z12", "https://c.example", 0, none⟩]
      ((init NewMemoryStorage).run
        [⟨"aB3_xY9z12", "https://a.example", 0, none⟩,
         ⟨"aB3_xY9z12", "https://b.example", 0, none⟩,
         ⟨"aB3_xY9z12", "https://c.example", 0, none⟩]
        [1, 0, 2, 1, 0, 1, 2, 1, 0, 1, 0, 2, 0, 2, 0, 2, 0, 2, 2, 2, 2]) ∧
    oneSuccess
      [⟨"aB3_xY9z12", "https://a.example", 0, none⟩, ⟨"aB3_xY9z12", "https://b.example", 0, none⟩,
       ⟨"aB3_xY9z12", "https://c.example", 0, none⟩]
      ((init NewMemoryStorage).run
        [⟨"aB3_xY9z12", "https://a.example", 0, none⟩,
         ⟨"aB3_xY9z12", "https://b.example", 0, none⟩,
         ⟨"aB3_xY9z12", "https://c.example", 0, none⟩]
        [1, 0, 2, 1, 0, 1, 2, 1, 0, 1, 0, 2, 0, 2, 0, 2, 0, 2, 2, 2, 2]) ∧
    ((init NewMemoryStorage).run
        [⟨"aB3_xY9z12", "https://a.example", 0, none⟩,
         ⟨"aB3_xY9z12", "https://b.example", 0, none⟩,
         ⟨"aB3_xY9z12", "https://c.example", 0, none⟩]
        [1, 0, 2, 1, 0, 1, 2, 1, 0, 1, 0, 2, 0, 2, 0, 2, 0, 2, 2, 2, 2]).pcs 1 = .done (.ok ()) :=
  have hdone : allDone
      [⟨"aB3_xY9z12", "https://a.example", 0, none⟩, ⟨"aB3_xY9z12", "https://b.example", 0, none⟩,
       ⟨"aB3_xY9z12", "https://c.example", 0, none⟩]
      ((init NewMemoryStorage).run
        [⟨"aB3_xY9z12", "https://a.example", 0, none⟩,
         ⟨"aB3_xY9z12", "https://b.example", 0, none⟩,
         ⟨"aB3_xY9z12", "https://c.example", 0, none⟩]
        [1, 0, 2, 1, 0, 1, 2, 1, 0, 1, 0, 2, 0, 2, 0, 2, 0, 2, 2, 2, 2]) := by
    unfold allDone
    decide
  ⟨hdone, (C24_concurrent_saves NewMemoryStorage "aB3_xY9z12" _ _ (by decide) (by decide)
    (by decide) (by decide)).1 hdone, by decide⟩
end Concurrent
end storage

namespace shortcode

/-! ### Inputs on which `Generate` and `encode` agree -/

set_option maxRecDepth 100000 in
/-- C31: the attempt suffix makes different inputs meet by construction: for every string
`u` and every attempt `a >= 1`, `Generate u a = Generate (u + "#" + decimal a) 0`, and for
every attempt `a <= 0`, `Generate u a = Generate u 0`. So `Generate "https://example.com" 1`
is the code of the URL `https://example.com#1` at attempt 0. -/
theorem C31_attempt_suffix (u : String) (a : Int) :
    (1 ≤ a → Generate u a = Generate (u ++ "#" ++ toString a) 0) ∧
    (a ≤ 0 → Generate u a = Generate u 0) ∧
    (∀ n : Nat, toString (n : Int) = Nat.repr n) ∧
    (toString (12 : Int) = "12" ∧
      Generate "https://example.com" 1 = Generate "https://example.com#1" 0 ∧
      Generate "https://example.com" (-3) = Generate "https://example.com" 0 ∧
      Generate "https://example.com#1" 0 = "yMHETAqj9h") := by
  refine ⟨fun h => ?_, fun h => ?_, fun n => rfl, by decide, ?_, ?_, by decide⟩
  · have hpos : a > 0 := by omega
    simp [Generate, hashInput, hpos]
  · have hneg : ¬ a > 0 := by omega
    simp [Generate, hashInput, hneg]
  · simp [Generate, hashInput]
    rfl
  · simp [Generate, hashInput]

/-- The loop of `encode` reads its number modulo `63 ^ i` only. -/
theorem encodeLoop_congr (i : Nat) :
    ∀ (n1 n2 : Nat) (acc : List Char), n1 % 63 ^ i = n2 % 63 ^ i →
      encodeLoop i n1 acc = encodeLoop i n2 acc := by
  induction i with
  | zero => intro n1 n2 acc _; rfl
  | succ i ih =>
    intro n1 n2 acc h
    rw [pow_succ, Nat.mul_comm] at h
    have hlow : n1 % 63 = n2 % 63 := by
      have := congrArg (· % 63) h
      simpa [Nat.mod_mul_right_mod] using this
    have hhigh : n1 / 63 % 63 ^ i = n2 / 63 % 63 ^ i := by
      have := congrArg (· / 63) h
      simpa [Nat.mod_mul_right_div_self] using this
    simp only [encodeLoop, alphabetLen_eq]
    rw [hlow]
    exact ih _ _ _ hhigh

/-- C32: `encode` drops the top of the 64-bit range: for all `n1`, `n2` (in particular all
64-bit unsigned values), `encode n1 = encode n2` if and only if `n1` and `n2` are
congruent modulo `63 ^ 10 = 984930291881790849`; as `63 ^ 10 < 2 ^ 64`, `encode` is
injective on the numbers below `63 ^ 10` but not on all 64-bit values:
`encode 0 = encode (63 ^ 10) = "aaaaaaaaaa"`. -/
theorem C32_encode_modulo (n1 n2 : Nat) :
    (encode n1 = encode n2 ↔ n1 ≡ n2 [MOD 63 ^ 10]) ∧
    (63 ^ 10 = 984930291881790849 ∧ 63 ^ 10 < 2 ^ 64) ∧
    (n1 < 63 ^ 10 → n2 < 63 ^ 10 → encode n1 = encode n2 → n1 = n2) ∧
    (encode 0 = "aaaaaaaaaa" ∧ encode (63 ^ 10) = "aaaaaaaaaa" ∧
      (0 : Nat) ≠ 63 ^ 10 ∧ 63 ^ 10 < 2 ^ 64) := by
  have hiff : encode n1 = encode n2 ↔ n1 ≡ n2 [MOD 63 ^ 10] := by
    constructor
    · intro h
      have := congrArg codeValue h
      rwa [codeValue_encode, codeValue_encode] at this
    · intro h
      show String.mk (encodeLoop Length n1 []) = String.mk (encodeLoop Length n2 [])
      rw [encodeLoop_congr Length n1 n2 [] h]
  refine ⟨hiff, ⟨by norm_num, by norm_num⟩, fun h1 h2 h => ?_,
    ⟨by decide, by decide, by norm_num, by norm_num⟩⟩
  have := hiff.1 h
  unfold Nat.ModEq at this
  rwa [Nat.mod_eq_of_lt h1, Nat.mod_eq_of_lt h2] at this

end shortcode

namespace storage

open MemoryStorage

/-- C33: an expired record keeps its code taken for good in the in-memory store: in every
state in which the code `c` holds a record of the URL `u` that is expired at the instant
`now`, the `Save` at `now` of a record `(c, u2)` with `u2 != u` returns
`ErrAlreadyExists` and changes nothing; and no sequence of `Save` calls ever removes or
replaces a record once it is stored. -/
theorem C33_expired_record_keeps_code (s : MemoryStorage) (r existing : URL) (now : Int)
    (hheld : s.byCode.get r.ShortCode = some existing)
    (hexpired : existing.IsExpired now = true)
    (hdiff : r.OriginalURL ≠ existing.OriginalURL) :
    (memoryStorage.Save s r now).1 = .err .ErrAlreadyExists ∧
    (memoryStorage.Save s r now).2 = s ∧
    (∀ later : List URL, (s.saveAll later).byCode.get r.ShortCode = some existing ∧
      (s.saveAll later).GetByCode r.ShortCode now = .err .ErrExpired) ∧
    (∀ (s0 : MemoryStorage) (code : String) (rec : URL) (later : List URL),
      s0.byCode.get code = some rec → (s0.saveAll later).byCode.get code = some rec) := by
  have hsave : memoryStorage.Save s r now = (.err .ErrAlreadyExists, s) :=
    Save_of_other_url s r existing hheld (Ne.symm hdiff)
  refine ⟨by rw [hsave], by rw [hsave], fun later => ?_, fun s0 code rec later h =>
    saveAll_keeps later s0 code rec h⟩
  have hk := saveAll_keeps later s r.ShortCode existing hheld
  exact ⟨hk, by simp [MemoryStorage.GetByCode, hk, hexpired]⟩

/-- An instance of C33: the record of the test that expired, and a `Save` of another URL
under its code, followed by further `Save` calls. -/
theorem C33_expired_record_keeps_code_witness :
    (memoryStorage.Save
      (NewMemoryStorage.Save ⟨"expired123", "https://example.com", 0, some 1⟩).2
      ⟨"expired123", "https://different.com", 5, none⟩ 5).1 = .err .ErrAlreadyExists ∧
    ((NewMemoryStorage.Save ⟨"expired123", "https://example.com", 0, some 1⟩).2.saveAll
      [⟨"expired123", "https://different.com", 5, none⟩,
       ⟨"expired123", "https://example.com", 6, none⟩]).byCode.get "expired123" =
      some ⟨"expired123", "https://example.com", 0, some 1⟩ :=
  have h := C33_expired_record_keeps_code
    (NewMemoryStorage.Save ⟨"expired123", "https://example.com", 0, some 1⟩).2
    ⟨"expired123", "https://different.com", 5, none⟩
    ⟨"expired123", "https://example.com", 0, some 1⟩ 5 (by decide) (by decide) (by decide)
  ⟨h.1, (h.2.2.1 _).1⟩

/-- C34: the URL index follows the most recent insert: if the in-memory store holds a
record `(c1, u)` and `Save` is called with a record `(c2, u)` whose code `c2` is unused
(so `c2 != c1`), the `Save` succeeds, both records are stored, `GetByCode c1` answers as
before, and `GetByOriginalURL u` is then decided by the `c2` record alone: it returns the
`c2` record when that is live and `ErrExpired` when it is expired, also when the `c1`
record of `u` is still live. -/
theorem C34_url_index_follows_last_insert (s : MemoryStorage) (c1 : String) (r1 r2 : URL)
    (hheld : s.byCode.get c1 = some r1) (hsame : r1.OriginalURL = r2.OriginalURL)
    (hfree : s.byCode.get r2.ShortCode = none) :
    r2.ShortCode ≠ c1 ∧
    (s.Save r2).1 = .ok () ∧
    (s.Save r2).2.byCode.get c1 = some r1 ∧
    (s.Save r2).2.byCode.get r2.ShortCode = some r2 ∧
    (s.Save r2).2.byOriginalURL.get r2.OriginalURL = some r2.ShortCode ∧
    (∀ now, (s.Save r2).2.GetByCode c1 now = s.GetByCode c1 now) ∧
    (∀ now, r2.IsExpired now = false →
      (s.Save r2).2.GetByOriginalURL r1.OriginalURL now = .ok r2) ∧
    (∀ now, r2.IsExpired now = true →
      (s.Save r2).2.GetByOriginalURL r1.OriginalURL now = .err .ErrExpired) := by
  have hne : r2.ShortCode ≠ c1 := by
    rintro rfl
    rw [hfree] at hheld
    cases hheld
  have hkeep := Save_keeps s r2 c1 r1 hheld
  have hlook := fun now => (lookups_after_fresh_save s r2 now hfree).2
  refine ⟨hne, by rw [Save_of_unused s r2 hfree], hkeep, ?_, ?_, fun now => ?_, fun now hx => ?_,
    fun now hx => ?_⟩
  · rw [Save_of_unused s r2 hfree]; exact GoMap.get_set_self _ _ _
  · rw [Save_of_unused s r2 hfree]; exact GoMap.get_set_self _ _ _
  · simp [MemoryStorage.GetByCode, hkeep, hheld]
  · rw [hsame, hlook now, hx]; rfl
  · rw [hsame, hlook now, hx]; rfl

/-- An instance of C34: `https://example.com`, stored without expiration under
`noexpire12`, is saved again under `expired123` with an expiration in the past. -/
theorem C34_url_index_follows_last_insert_witness :
    ((NewMemoryStorage.Save ⟨"noexpire12", "https://example.com", 0, none⟩).2.Save
      ⟨"expired123", "https://example.com", 1, some 2⟩).2.GetByCode "noexpire12" 5 =
      .ok ⟨"noexpire12", "https://example.com", 0, none⟩ ∧
    ((NewMemoryStorage.Save ⟨"noexpire12", "https://example.com", 0, none⟩).2.Save
      ⟨"expired123", "https://example.com", 1, some 2⟩).2.GetByOriginalURL
      "https://example.com" 5 = .err .ErrExpired ∧
    ((NewMemoryStorage.Save ⟨"noexpire12", "https://example.com", 0, none⟩).2.Save
      ⟨"expired123", "https://example.com", 1, some 2⟩).2.GetByOriginalURL
      "https://example.com" 2 = .ok ⟨"expired123", "https://example.com", 1, some 2⟩ :=
  have h := C34_url_index_follows_last_insert
    (NewMemoryStorage.Save ⟨"noexpire12", "https://example.com", 0, none⟩).2 "noexpire12"
    ⟨"noexpire12", "https://example.com", 0, none⟩
    ⟨"expired123", "https://example.com", 1, some 2⟩ (by decide) rfl (by decide)
  ⟨(h.2.2.2.2.2.1 5).trans (by decide), h.2.2.2.2.2.2.2 5 (by decide),
    h.2.2.2.2.2.2.1 2 (by decide)⟩

end storage


namespace service

open storage Shortener

/-- The relational `Save` of a record whose code has a row that is expired. -/
theorem postgres_Save_expired_row (s : PostgresStorage) (r row : URL) (now : Int)
    (hrow : s.rows.find? (fun x => x.ShortCode = r.ShortCode) = some row)
    (hexpired : row.IsExpired now = true) :
    s.Save r now = (.err (.wrap "checking existing code" .ErrExpired), s) := by
  have hany : s.rows.any (fun x => decide (x.ShortCode = r.ShortCode)) = true := by
    rw [List.any_eq_true]
    exact ⟨row, List.mem_of_find?_eq_some hrow, by simpa using List.find?_some hrow⟩
  have hget : s.GetByCode r.ShortCode now = .err .ErrExpired := by
    simp [PostgresStorage.GetByCode, hrow, hexpired]
  simp [PostgresStorage.Save, PostgresStorage.insertOnConflictDoNothing, hany, hget]

/-- C35: in the relational variant, if a row exists for the `short_code` of the record and
that row is expired at the time of the call, `Save` leaves the table as it is and returns
the error `checking existing code: ...`, which wraps `ErrExpired` and is neither success
nor `ErrAlreadyExists` (also in the sense of `errors.Is`), whether the `original_url` of
the record equals that of the row or not. Consequently the loop of `Shorten` over this
store, at an attempt whose code has such a row, aborts with the error `saving URL: ...`
instead of going on to the next attempt; so does `Shorten` for a valid URL that the lookup
reports absent or expired, when the code of attempt 0 has such a row. -/
theorem C35_relational_save_expired_row (s : PostgresStorage) (r row : URL) (now : Int)
    (hrow : s.rows.find? (fun x => x.ShortCode = r.ShortCode) = some row)
    (hexpired : row.IsExpired now = true) :
    postgresStorage.Save s r now = (.err (.wrap "checking existing code" .ErrExpired), s) ∧
    errorsIs (.wrap "checking existing code" .ErrExpired) .ErrExpired = true ∧
    errorsIs (.wrap "checking existing code" .ErrExpired) .ErrAlreadyExists = false ∧
    (postgresStorage.Save s r now).1 ≠ .ok () ∧
    (postgresStorage.Save s r now).1 ≠ .err .ErrAlreadyExists ∧
    (∀ (config : Config) (u : String) (attempt n : Nat),
      r.ShortCode = shortcode.Generate u attempt →
      shortenLoop (New postgresStorage config) now u (n + 1) attempt s =
        (.err (.wrap "saving URL" (.wrap "checking existing code" .ErrExpired)), s)) ∧
    (∀ (parse : UrlParser) (config : Config) (u : String),
      r.ShortCode = shortcode.Generate u 0 → validateURL parse u = none →
      (s.GetByOriginalURL u now = .err .ErrNotFound ∨
        s.GetByOriginalURL u now = .err .ErrExpired) →
      Shorten parse (New postgresStorage config) s now u =
        (.err (.wrap "saving URL" (.wrap "checking existing code" .ErrExpired)), s)) := by
  have hsave : postgresStorage.Save s r now =
      (.err (.wrap "checking existing code" .ErrExpired), s) :=
    postgres_Save_expired_row s r row now hrow hexpired
  have hloop : ∀ (config : Config) (u : String) (attempt n : Nat),
      r.ShortCode = shortcode.Generate u attempt →
      shortenLoop (New postgresStorage config) now u (n + 1) attempt s =
        (.err (.wrap "saving URL" (.wrap "checking existing code" .ErrExpired)), s) := by
    intro config u attempt n hcode
    apply shortenLoop_succ_abort _ _ _ _ _ _ _ _ _ (by decide)
    show postgresStorage.Save s ((New postgresStorage config).newRecord now u attempt) now = _
    refine postgres_Save_expired_row s _ row now ?_ hexpired
    show s.rows.find? (fun x => x.ShortCode = shortcode.Generate u attempt) = some row
    rw [← hcode]; exact hrow
  refine ⟨hsave, by decide, by decide, by rw [hsave]; simp, by rw [hsave]; simp, hloop, ?_⟩
  intro parse config u hcode hvalid hlook
  have hget : (New postgresStorage config).storage.GetByOriginalURL s u now =
      (s.GetByOriginalURL u now, s) := rfl
  unfold Shorten
  rw [hvalid]
  simp only [hget]
  rcases hlook with h | h <;> rw [h] <;>
    simpa [errorsIs, maxAttempts] using hloop config u 0 9 hcode

set_option maxRecDepth 100000 in
/-- An instance of C35: the table holds the row of `https://example.com`, expired at
instant 1; at instant 5 the same record and a record of another URL are saved under its
code, and `https://example.com` is shortened again. -/
theorem C35_relational_save_expired_row_witness :
    postgresStorage.Save ⟨[⟨"k2vewsVDgL", "https://example.com", 0, some 1⟩]⟩
        ⟨"k2vewsVDgL", "https://example.com", 5, some 6⟩ 5 =
      (.err (.wrap "checking existing code" .ErrExpired),
        ⟨[⟨"k2vewsVDgL", "https://example.com", 0, some 1⟩]⟩) ∧
    postgresStorage.Save ⟨[⟨"k2vewsVDgL", "https://example.com", 0, some 1⟩]⟩
        ⟨"k2vewsVDgL", "https://different.com", 5, none⟩ 5 =
      (.err (.wrap "checking existing code" .ErrExpired),
        ⟨[⟨"k2vewsVDgL", "https://example.com", 0, some 1⟩]⟩) ∧
    Shorten parseFixtures (New postgresStorage ⟨"", 1⟩)
        ⟨[⟨"k2vewsVDgL", "https://example.com", 0, some 1⟩]⟩ 5 "https://example.com" =
      (.err (.wrap "saving URL" (.wrap "checking existing code" .ErrExpired)),
        ⟨[⟨"k2vewsVDgL", "https://example.com", 0, some 1⟩]⟩) :=
  ⟨(C35_relational_save_expired_row ⟨[⟨"k2vewsVDgL", "https://example.com", 0, some 1⟩]⟩
      ⟨"k2vewsVDgL", "https://example.com", 5, some 6⟩
      ⟨"k2vewsVDgL", "https://example.com", 0, some 1⟩ 5 (by decide) (by decide)).1,
   (C35_relational_save_expired_row ⟨[⟨"k2vewsVDgL", "https://example.com", 0, some 1⟩]⟩
      ⟨"k2vewsVDgL", "https://different.com", 5, none⟩
      ⟨"k2vewsVDgL", "https://example.com", 0, some 1⟩ 5 (by decide) (by decide)).1,
   (C35_relational_save_expired_row ⟨[⟨"k2vewsVDgL", "https://example.com", 0, some 1⟩]⟩
      ⟨"k2vewsVDgL", "https://example.com", 5, some 6⟩
      ⟨"k2vewsVDgL", "https://example.com", 0, some 1⟩ 5 (by decide) (by decide)).2.2.2.2.2.2
      parseFixtures ⟨"", 1⟩ "https://example.com" (by decide) (by decide)
      (Or.inr (by decide))⟩

end service

end UrlShortener
